import Mathlib

/-!
# secboot: AAD serialization (plainkey) and the PIN codec

A shallow embedding of

* `plainkey/keydata.go`: `hashAlg.MarshalASN1`, `additionalData.MarshalASN1`, on top of a
  model of the `cryptobyte.Builder` operations they call; `hashAlg.MarshalJSON` and
  `hashAlg.UnmarshalJSON` over a JSON string codec given as a parameter; `NewProtectedKey`
  over a finite random stream, with the functions it calls outside the file (HMAC, HKDF,
  AES-GCM sealing, `secboot.MakeDiskUnlockKey`, `secbootNewKeyData`) given as parameters;
* `pin.go`: `ParsePIN`, `PIN.String`, `PIN.Bytes`, on top of a model of the `math/big`
  operations they call;
* the legacy payload codec, the platform handler registry with KeyData recovery, and the KDF
  calibrator of the root package, whose sources are absent and which are modelled from the
  specification and from their tests (`keydata_legacy_test.go`, `pbkdf2_test.go`).

Conventions.  A Go `string` and a Go `[]byte` are lists of byte values (`List Nat`, every
element below 256 in a real input).  Go `int` and `int64` are `Int` restricted by `IsInt64`.
A `big.Int` is a Lean `Int`.  A Go panic is `none`.
-/

namespace Secboot

/-! ## Machine integers -/

/-- Range of a Go `int64` (and of `int` on the 64-bit targets of the package). -/
def IsInt64 (v : Int) : Prop := -(2 : Int) ^ 63 ≤ v ∧ v < (2 : Int) ^ 63

instance (v : Int) : Decidable (IsInt64 v) := by unfold IsInt64; exact inferInstance

/-! ## cryptobyte.Builder -/

/-- State of a `cryptobyte.Builder`: the sticky error and the bytes written so far. -/
structure Builder where
  err : Option String
  result : List Nat
deriving DecidableEq

namespace Builder

/-- Result of `cryptobyte.NewBuilder(nil)`. -/
def new : Builder := { err := none, result := [] }

/-- Method `Builder.SetError`: records the error; later writes are ignored. -/
def SetError (b : Builder) (e : String) : Builder := { b with err := some e }

/-- Method `Builder.add`: appends bytes unless the builder is in the error state. -/
def add (b : Builder) (bytes : List Nat) : Builder :=
  match b.err with
  | some _ => b
  | none => { b with result := b.result ++ bytes }

/-- Method `Builder.AddUint8`. -/
def AddUint8 (b : Builder) (v : Nat) : Builder := b.add [v % 256]

/-- Method `Builder.Bytes`: the written bytes, or the sticky error. -/
def Bytes (b : Builder) : Except String (List Nat) :=
  match b.err with
  | some e => .error e
  | none => .ok b.result

/-- Big-endian bytes of `l` on exactly `n` bytes, as written by the loop
`for i := pendingLenLen - 1; i >= 0; i-- { result[offset+i] = uint8(l); l >>= 8 }`. -/
def lenBytes (l : Nat) : Nat → List Nat
  | 0 => []
  | n + 1 => lenBytes (l / 256) n ++ [l % 256]

/-- Length octets that `Builder.flushChild` writes for an ASN.1 child of `length` bytes
(the caller has excluded `length > 0xfffffffe`). -/
def asn1Length (length : Nat) : List Nat :=
  if length > 0xffffff then (0x80 ||| 4) :: lenBytes length 4
  else if length > 0xffff then (0x80 ||| 3) :: lenBytes length 3
  else if length > 0xff then (0x80 ||| 2) :: lenBytes length 2
  else if length > 0x7f then (0x80 ||| 1) :: lenBytes length 1
  else [length]

/-- Method `Builder.AddASN1`: writes the identifier octet, runs the continuation on a child
builder, and on flush writes the DER length followed by what the child wrote.  An error of
the child becomes the error of the parent. -/
def AddASN1 (b : Builder) (tag : Nat) (f : Builder → Builder) : Builder :=
  match b.err with
  | some _ => b
  | none =>
    if tag &&& 0x1f = 0x1f then
      { b with err := some "cryptobyte: high-tag number identifier octects not supported" }
    else
      let child := f { err := none, result := [] }
      match child.err with
      | some e => { err := some e, result := b.result ++ [tag % 256, 0] }
      | none =>
        let length := child.result.length
        if length > 0xfffffffe then
          { err := some "pending ASN.1 child too long", result := b.result ++ [tag % 256, 0] }
        else
          { err := none, result := b.result ++ [tag % 256] ++ asn1Length length ++ child.result }

/-- First loop of `addASN1Signed`: `for i := v; i >= 0x80 || i < -0x80; i >>= 8 { length++ }`.
The fuel bounds the number of passes; `signedLength_fuel` shows that 8 passes are never
used up on an `int64`. -/
def signedLengthLoop : Nat → Int → Nat → Nat
  | 0, _, length => length
  | fuel + 1, i, length =>
    if i ≥ 0x80 ∨ i < -0x80 then signedLengthLoop fuel (i >>> (8 : Nat)) (length + 1) else length

/-- Number of content octets chosen by `addASN1Signed` for `v`. -/
def signedLength (v : Int) : Nat := signedLengthLoop 8 v 1

/-- Second loop of `addASN1Signed`:
`for ; length > 0; length-- { c.AddUint8(uint8(v >> uint((length-1)*8) & 0xff)) }`. -/
def signedLoop (v : Int) : Nat → Builder → Builder
  | 0, c => c
  | length + 1, c => signedLoop v length (c.AddUint8 ((v >>> (length * 8)) % 256).toNat)

/-- The bytes that `signedLoop` writes: byte `k` from the right is `(v >> 8k) mod 256`. -/
def signedBytes (v : Int) : Nat → List Nat
  | 0 => []
  | n + 1 => ((v / 256 ^ n) % 256).toNat :: signedBytes v n

/-- Method `Builder.addASN1Signed`. -/
def addASN1Signed (b : Builder) (tag : Nat) (v : Int) : Builder :=
  b.AddASN1 tag fun c => signedLoop v (signedLength v) c

/-- ASN.1 identifier octets (`cryptobyte/asn1`). -/
def INTEGER : Nat := 2
/-- Tag `asn1.NULL`. -/
def NULL : Nat := 5
/-- Tag `asn1.OBJECT_IDENTIFIER`. -/
def OBJECT_IDENTIFIER : Nat := 6
/-- Tag `asn1.ENUM`. -/
def ENUM : Nat := 10
/-- Tag `asn1.SEQUENCE` (constructed bit set). -/
def SEQUENCE : Nat := 0x30

/-- Method `Builder.AddASN1Int64`. -/
def AddASN1Int64 (b : Builder) (v : Int) : Builder := b.addASN1Signed INTEGER v

/-- Method `Builder.AddASN1Enum`. -/
def AddASN1Enum (b : Builder) (v : Int) : Builder := b.addASN1Signed ENUM v

/-- Method `Builder.AddASN1NULL`: `b.add(uint8(asn1.NULL), 0)`. -/
def AddASN1NULL (b : Builder) : Builder := b.add [NULL, 0]

/-- First loop of `addBase128Int`: `for i := n; i > 0; i >>= 7 { length++ }`, started at
`length = 0`. -/
def base128LengthLoop : Nat → Int → Nat → Nat
  | 0, _, length => length
  | fuel + 1, i, length =>
    if i > 0 then base128LengthLoop fuel (i >>> (7 : Nat)) (length + 1) else length

/-- Second loop of `addBase128Int`, from `i = length - 1` down to `0`:
`o := byte(n >> uint(i*7)); o &= 0x7f; if i != 0 { o |= 0x80 }; b.add(o)`. -/
def base128Loop (n : Int) : Nat → Builder → Builder
  | 0, b => b
  | i + 1, b =>
    let o := ((n >>> (i * 7)) % 256).toNat &&& 0x7f
    base128Loop n i (b.add [if i ≠ 0 then o ||| 0x80 else o])

/-- Method `Builder.addBase128Int`.  The length loop is given ten passes, which a
non-negative `int64` never uses up (`base128Length_fuel`). -/
def addBase128Int (b : Builder) (n : Int) : Builder :=
  let length := if n = 0 then 1 else base128LengthLoop 10 n 0
  base128Loop n length b

/-- Function `isValidOID` of cryptobyte. -/
def isValidOID (oid : List Int) : Bool :=
  match oid with
  | o0 :: o1 :: _ =>
    if o0 > 2 ∨ (o0 ≤ 1 ∧ o1 ≥ 40) then false
    else oid.all fun v => decide (0 ≤ v)
  | _ => false

/-- Method `Builder.AddASN1ObjectIdentifier`. -/
def AddASN1ObjectIdentifier (b : Builder) (oid : List Int) : Builder :=
  b.AddASN1 OBJECT_IDENTIFIER fun b =>
    match oid with
    | o0 :: o1 :: rest =>
      if !isValidOID oid then b.SetError "cryptobyte: invalid OID"
      else rest.foldl (fun b v => b.addBase128Int v) (b.addBase128Int (o0 * 40 + o1))
    | _ => b.SetError "cryptobyte: invalid OID"

end Builder

/-! ## plainkey/keydata.go -/

/-- Type `hashAlg`, a `crypto.Hash`: an unsigned integer. -/
abbrev hashAlg := Nat

/-- Constant `crypto.SHA1`. -/
def SHA1 : hashAlg := 3
/-- Constant `crypto.SHA224`. -/
def SHA224 : hashAlg := 4
/-- Constant `crypto.SHA256`. -/
def SHA256 : hashAlg := 5
/-- Constant `crypto.SHA384`. -/
def SHA384 : hashAlg := 6
/-- Constant `crypto.SHA512`. -/
def SHA512 : hashAlg := 7
/-- Variable `nilHash`. -/
def nilHash : hashAlg := 0

/-- Variable `sha1Oid`. -/
def sha1Oid : List Int := [1, 3, 14, 3, 2, 26]
/-- Variable `sha224Oid`. -/
def sha224Oid : List Int := [2, 16, 840, 1, 101, 3, 4, 2, 4]
/-- Variable `sha256Oid`. -/
def sha256Oid : List Int := [2, 16, 840, 1, 101, 3, 4, 2, 1]
/-- Variable `sha384Oid`. -/
def sha384Oid : List Int := [2, 16, 840, 1, 101, 3, 4, 2, 2]
/-- Variable `sha512Oid`. -/
def sha512Oid : List Int := [2, 16, 840, 1, 101, 3, 4, 2, 3]

/-- The `switch crypto.Hash(a)` of `hashAlg.MarshalASN1`: the OID of the five known
algorithms, `none` for the `default` branch. -/
def hashAlg.oid (a : hashAlg) : Option (List Int) :=
  if a = SHA1 then some sha1Oid
  else if a = SHA224 then some sha224Oid
  else if a = SHA256 then some sha256Oid
  else if a = SHA384 then some sha384Oid
  else if a = SHA512 then some sha512Oid
  else none

/-- Method `crypto.Hash.String`, the `%v` rendering of a hash in error messages. -/
def hashString (h : Nat) : String :=
  match h with
  | 1 => "MD4"
  | 2 => "MD5"
  | 3 => "SHA-1"
  | 4 => "SHA-224"
  | 5 => "SHA-256"
  | 6 => "SHA-384"
  | 7 => "SHA-512"
  | 8 => "MD5+SHA1"
  | 9 => "RIPEMD-160"
  | 10 => "SHA3-224"
  | 11 => "SHA3-256"
  | 12 => "SHA3-384"
  | 13 => "SHA3-512"
  | 14 => "SHA-512/224"
  | 15 => "SHA-512/256"
  | 16 => "BLAKE2s-256"
  | 17 => "BLAKE2b-256"
  | 18 => "BLAKE2b-384"
  | 19 => "BLAKE2b-512"
  | n => "unknown hash value " ++ toString n

/-- Method `hashAlg.MarshalASN1`. -/
def hashAlg.MarshalASN1 (a : hashAlg) (b : Builder) : Builder :=
  b.AddASN1 Builder.SEQUENCE fun b =>
    match hashAlg.oid a with
    | none => b.SetError ("unknown hash algorithm: " ++ hashString a)
    | some oid => (b.AddASN1ObjectIdentifier oid).AddASN1NULL

/-- Struct `additionalData`.  `AuthMode` is a `secboot.AuthMode`, an integer type whose
declaration is outside the package; `MarshalASN1` converts it with `int64(d.AuthMode)`. -/
structure additionalData where
  Version : Int
  Generation : Int
  KDFAlg : hashAlg
  AuthMode : Int
deriving DecidableEq

/-- Method `additionalData.MarshalASN1`. -/
def additionalData.MarshalASN1 (d : additionalData) (b : Builder) : Builder :=
  b.AddASN1 Builder.SEQUENCE fun b =>
    ((hashAlg.MarshalASN1 d.KDFAlg ((b.AddASN1Int64 d.Version).AddASN1Int64 d.Generation)).AddASN1Enum
      d.AuthMode)

/-- The algorithms for which `hashAlg.MarshalASN1` has an OID. -/
def hashAlg.Supported (a : hashAlg) : Prop :=
  a = SHA1 ∨ a = SHA224 ∨ a = SHA256 ∨ a = SHA384 ∨ a = SHA512

instance (a : hashAlg) : Decidable (hashAlg.Supported a) := by
  unfold hashAlg.Supported; exact inferInstance

/-- The bytes `NewProtectedKey` binds as AAD:
`builder := cryptobyte.NewBuilder(nil); aad.MarshalASN1(builder); builder.Bytes()`. -/
def additionalData.aadBytes (d : additionalData) : Except String (List Nat) :=
  (d.MarshalASN1 Builder.new).Bytes

/-! ## DER, as the specification words it

These definitions do not come from the code: they restate X.690 so that the output of the
builder can be compared with it. -/

/-- DER definite-length octets of a content of `n` bytes. -/
def derLength (n : Nat) : List Nat :=
  if n < 128 then [n]
  else (128 + (Nat.digits 256 n).length) :: (Nat.digits 256 n).reverse

/-- A DER tag-length-value triple. -/
def derTLV (tag : Nat) (content : List Nat) : List Nat :=
  tag :: (derLength content.length ++ content)

/-- Value of a big-endian unsigned byte string. -/
def unsignedValue (bs : List Nat) : Nat := Nat.ofDigits 256 bs.reverse

/-- Value of a big-endian two's-complement byte string. -/
def twosComplement (bs : List Nat) : Int :=
  if 128 ≤ bs.headD 0 then (unsignedValue bs : Int) - 256 ^ bs.length
  else (unsignedValue bs : Int)

/-- The octets `bs` are the DER content of the integer `v`: a non-empty byte string whose
two's-complement value is `v` and which is as short as any byte string with that value. -/
def IsDerInteger (bs : List Nat) (v : Int) : Prop :=
  bs ≠ [] ∧ (∀ x ∈ bs, x < 256) ∧ twosComplement bs = v ∧
    ∀ cs : List Nat, cs ≠ [] → (∀ x ∈ cs, x < 256) → twosComplement cs = v → bs.length ≤ cs.length

/-- One OID subidentifier in base 128, most significant group first, bit 8 set on every
octet but the last. -/
def derSubidentifier (n : Nat) : List Nat :=
  if n < 128 then [n]
  else ((Nat.digits 128 n).reverse.dropLast.map fun x => x + 128) ++ [n % 128]

/-- DER content of an OBJECT IDENTIFIER: the first two arcs are merged as `40 * a + b`. -/
def derOID (arcs : List Nat) : List Nat :=
  match arcs with
  | a :: b :: rest => derSubidentifier (40 * a + b) ++ (rest.map derSubidentifier).flatten
  | _ => []

/-- The dotted OID that the standards assign to each supported digest. -/
def digestOID (a : hashAlg) : List Nat :=
  if a = SHA1 then [1, 3, 14, 3, 2, 26]
  else if a = SHA224 then [2, 16, 840, 1, 101, 3, 4, 2, 4]
  else if a = SHA256 then [2, 16, 840, 1, 101, 3, 4, 2, 1]
  else if a = SHA384 then [2, 16, 840, 1, 101, 3, 4, 2, 2]
  else if a = SHA512 then [2, 16, 840, 1, 101, 3, 4, 2, 3]
  else []

/-! ## math/big, as used by pin.go -/

/-- Function `scanSign`: consumes one leading `+` or `-`; fails at end of input. -/
def scanSign (s : List Nat) : Option (Bool × List Nat) :=
  match s with
  | [] => none
  | ch :: r => if ch = 45 then some (true, r) else if ch = 43 then some (false, r) else some (false, ch :: r)

/-- The accumulation loop of `nat.scan` for base 10 without fraction: consumes decimal digits,
stops (unreading the byte) at the first other byte.  Returns the value, the number of digits
and the unread input. -/
def natScan : List Nat → Nat → Nat → Nat × Nat × List Nat
  | [], acc, count => (acc, count, [])
  | ch :: r, acc, count =>
    if 48 ≤ ch ∧ ch ≤ 57 then natScan r (acc * 10 + (ch - 48)) (count + 1)
    else (acc, count, ch :: r)

/-- Method `(*big.Int).SetString(s, 10)`: an optional sign, at least one digit, then the end
of the string; `none` is the `ok = false` result. -/
def bigSetString (s : List Nat) : Option Int :=
  match scanSign s with
  | none => none
  | some (neg, r) =>
    match natScan r 0 0 with
    | (abs, count, rest) =>
      if count = 0 then none
      else if rest ≠ [] then none
      else some (if neg then -(abs : Int) else (abs : Int))

/-- Digits of `n` in `base`, least significant first, none for `0`.  The first argument
bounds the number of digits; `n` itself is always enough. -/
def natDigits (base : Nat) : Nat → Nat → List Nat
  | 0, _ => []
  | fuel + 1, n => if n = 0 then [] else (n % base) :: natDigits base fuel (n / base)

/-- Method `(*big.Int).Bytes`: big-endian bytes of the absolute value, empty for `0`. -/
def bigBytes (v : Int) : List Nat := (natDigits 256 v.natAbs v.natAbs).reverse

/-- Method `(*big.Int).FillBytes(buf)` for a buffer of `n` bytes: the absolute value,
zero-extended on the left; panics (`none`) when it does not fit. -/
def bigFillBytes (v : Int) (n : Nat) : Option (List Nat) :=
  if (bigBytes v).length ≤ n then some (List.replicate (n - (bigBytes v).length) 0 ++ bigBytes v)
  else none

/-- Method `(*big.Int).String`: decimal text, `-` first for a negative value, `0` for zero. -/
def bigString (v : Int) : List Nat :=
  let ds := if v = 0 then [48] else ((natDigits 10 v.natAbs v.natAbs).map fun d => d + 48).reverse
  if v < 0 then 45 :: ds else ds

/-! ## pin.go -/

/-- Struct `PIN`: `length` is a `uint8`, `value` a `big.Int`. -/
structure PIN where
  length : Nat
  value : Int
deriving DecidableEq

/-- The zero value of `PIN`, returned together with every error. -/
def PIN.zero : PIN := { length := 0, value := 0 }

/-- Function `ParsePIN`: the returned PIN and the returned error (`none` for `nil`). -/
def ParsePIN (s : List Nat) : PIN × Option String :=
  let l := s.length
  if l > 255 then (PIN.zero, some "invalid PIN: too long")
  else
    match bigSetString s with
    | none => (PIN.zero, some "invalid PIN")
    | some val => ({ length := l % 256, value := val }, none)

/-- Method `PIN.String`: `fmt.Sprintf("%0*s", p.length, p.value.String())`, the text
left-padded with `0` to `p.length` bytes. -/
def PIN.String (p : PIN) : List Nat :=
  List.replicate (p.length - (bigString p.value).length) 48 ++ bigString p.value

/-- Method `PIN.Bytes`; `none` is a panic (a nil `max`, or a value that does not fit). -/
def PIN.Bytes (p : PIN) : Option (List Nat) :=
  let maxS := List.replicate p.length 57
  match bigSetString maxS with
  | none => none
  | some max =>
    match bigFillBytes p.value (bigBytes max).length with
    | none => none
    | some filled => some (p.length :: filled)

/-- The bytes of an ASCII text. -/
def ascii (s : String) : List Nat := s.toList.map Char.toNat

/-- Every byte of `s` is one of `0` to `9`. -/
def IsDigits (s : List Nat) : Prop := ∀ ch ∈ s, 48 ≤ ch ∧ ch ≤ 57

instance (s : List Nat) : Decidable (IsDigits s) := by unfold IsDigits; exact inferInstance

/-! ## The PIN encoding, as the specification words it -/

/-- Decimal value of a digit string. -/
def decimalValue (s : List Nat) : Nat := Nat.ofDigits 10 (s.reverse.map fun ch => ch - 48)

/-- Big-endian representation of a natural number, without leading zero bytes. -/
def bigEndian (n : Nat) : List Nat := (Nat.digits 256 n).reverse

/-- Byte width of the largest PIN of `L` digits, `L` copies of the digit 9. -/
def pinWidth (L : Nat) : Nat := (bigEndian (10 ^ L - 1)).length

/-! ## The legacy payload codec (specification §4.5)

`keydata_legacy.go` and `export_test.go` of the root package are not among the sources; only
their tests (`keydata_legacy_test.go`) are.  The codec is modelled from the specification and
from what those tests observe. -/

/-- Modelled from the spec: the length prefix of the legacy payload (`MarshalKeys` and
`UnmarshalV1KeyPayload` are missing).  The specification calls it a "varint-ish prefix" and
fixes neither its width nor its byte order, so the encoding is a parameter: `put n` is the
prefix of a field of `n` bytes (`none` when `n` cannot be represented) and `get` reads one
prefix off the front of the input (`none` when the input ends inside it). -/
structure LengthCodec where
  put : Nat → Option (List Nat)
  get : List Nat → Option (Nat × List Nat)

/-- Modelled from the spec: what §4.5 needs of the length prefix.  Reading back what was
written yields the written length and leaves the rest of the input untouched. -/
def LengthCodec.Lawful (c : LengthCodec) : Prop :=
  ∀ n bs rest, c.put n = some bs → c.get (bs ++ rest) = some (n, rest)

/-- Modelled from the spec: one concrete length prefix, a 2-byte big-endian count, under
which the byte strings of the tests in `keydata_legacy_test.go` can be run. -/
def uint16Codec : LengthCodec where
  put := fun n => if n < 65536 then some [n / 256, n % 256] else none
  get := fun data =>
    match data with
    | hi :: lo :: rest => some (hi * 256 + lo, rest)
    | _ => none

/-- Modelled from the spec: the two error shapes of the legacy decoder (§4.5, §7),
`Truncated` and `ExcessBytes(n)`. -/
inductive LegacyError where
  | Truncated
  | ExcessBytes (n : Nat)
deriving DecidableEq

/-- Modelled from the spec: the text of a legacy decoding error, as the tests match it:
`EOF` for the end-of-input condition (`TestLegacyKeyPayloadUnmarshalInvalid1`) and
`n excess byte(s)` (`TestLegacyKeyPayloadUnmarshalInvalid2`). -/
def LegacyError.Error : LegacyError → String
  | .Truncated => "EOF"
  | .ExcessBytes n => toString n ++ " excess byte(s)"

/-- Modelled from the spec: `MarshalKeys` (missing, called by the tests).  §4.5 gives the
layout `[len(unlockKey) prefix][unlockKey][primaryKey]`; its own `ExcessBytes` error and
`TestLegacyKeyPayloadUnmarshalInvalid2` (one appended byte is reported as excess, not taken
into the primary key) require the primary key to be delimited too, so it carries the same
prefix.  `none` when a length cannot be represented: the pair is not valid. -/
def MarshalKeys (c : LengthCodec) (unlockKey primaryKey : List Nat) : Option (List Nat) :=
  match c.put unlockKey.length, c.put primaryKey.length with
  | some a, some b => some (a ++ unlockKey ++ (b ++ primaryKey))
  | _, _ => none

/-- Modelled from the spec: `UnmarshalV1KeyPayload` (missing, called by the tests).  Returns
the unlock key, the primary key and the error (`none` for `nil`); a nil key is the empty list.
It fails with `Truncated` when fewer bytes are present than a prefix declares, or when the
input ends inside a prefix, and with `ExcessBytes n` when `n > 0` bytes remain after both
fields; on every failure both keys are nil (§7: no partial key material is returned). -/
def UnmarshalV1KeyPayload (c : LengthCodec) (data : List Nat) :
    List Nat × List Nat × Option LegacyError :=
  match c.get data with
  | none => ([], [], some .Truncated)
  | some (n, r1) =>
    if r1.length < n then ([], [], some .Truncated)
    else
      match c.get (r1.drop n) with
      | none => ([], [], some .Truncated)
      | some (m, r2) =>
        if r2.length < m then ([], [], some .Truncated)
        else if 0 < (r2.drop m).length then ([], [], some (.ExcessBytes (r2.drop m).length))
        else (r1.take n, r2.take m, none)

/-! ## The platform handler registry and the KeyData envelope (specification §4.1, §4.2)

`keydata.go` of the root package is not among the sources; its tests are. -/

/-- Modelled from the spec: `authMode`, enumerated None, Passphrase, PIN (§3). -/
inductive AuthMode where
  | None
  | Passphrase
  | PIN
deriving DecidableEq

/-- Modelled from the spec: the integer that enters the AAD for an authentication mode, in
the order of the enumeration (`AuthModeNone` is 0). -/
def AuthMode.code : AuthMode → Int
  | .None => 0
  | .Passphrase => 1
  | .PIN => 2

/-- Modelled from the spec: what a handler's `Recover` gives back (§6), the plaintext or a
typed error.  `invalidData` is the report that what the handler was given cannot be decoded
(`TestRecoverKeysInvalidData`: the handle is the JSON string `""`); `failure` is every other
report (authentication, hardware). -/
inductive HandlerResult where
  | plaintext (bytes : List Nat)
  | invalidData (detail : String)
  | failure (msg : String)
deriving DecidableEq

/-- Modelled from the spec: a platform handler (§4.2), the one contract
`Recover(handle, ciphertext, aad)`. -/
structure PlatformKeyDataHandler where
  Recover : List Nat → List Nat → List Nat → HandlerResult

/-- Modelled from the spec: the process-wide handler table (§4.2), a map from platform name
to handler. -/
abbrev Registry := String → Option PlatformKeyDataHandler

/-- Modelled from the spec: the table before any registration. -/
def Registry.empty : Registry := fun _ => none

/-- Modelled from the spec: `RegisterPlatformKeyDataHandler(name, handler)` (§4.2): replaces
any handler under `name`; a nil handler (`none`) unregisters. -/
def RegisterPlatformKeyDataHandler (reg : Registry) (name : String)
    (handler : Option PlatformKeyDataHandler) : Registry :=
  fun n => if n = name then handler else reg n

/-- Modelled from the spec: `Lookup(name)` (§4.2), the handler or not found (`none`). -/
def Registry.Lookup (reg : Registry) (name : String) : Option PlatformKeyDataHandler := reg name

/-- Modelled from the spec: the KeyData envelope (§3). -/
structure KeyData where
  version : Int
  generation : Int
  platformName : String
  handle : List Nat
  encryptedPayload : List Nat
  kdfAlg : hashAlg
  authMode : AuthMode
  role : String
deriving DecidableEq

/-- Modelled from the spec: `secboot.KeyParams`, with the fields that the tests set
(`hooks/keydata_test.go`: Handle, Role, EncryptedPayload, PlatformName, KDFAlg). -/
structure KeyParams where
  Handle : List Nat
  Role : String
  EncryptedPayload : List Nat
  PlatformName : String
  KDFAlg : hashAlg
deriving DecidableEq

/-- Modelled from the spec: `NewKeyData` (§4.1 `Create`): pure construction, no check that
the platform name is registered.  The format version is the package variable that the tests
set with `MockKeyDataVersion`, and the generation is `KeyDataGeneration`; both are
parameters.  The envelope has authentication mode None
(`TestRecoverKeysWithPassphraseAuthModeNone`).  The second component is the error, always
`nil`. -/
def NewKeyData (keyDataVersion generation : Int) (params : KeyParams) :
    KeyData × Option String :=
  ({ version := keyDataVersion
     generation := generation
     platformName := params.PlatformName
     handle := params.Handle
     encryptedPayload := params.EncryptedPayload
     kdfAlg := params.KDFAlg
     authMode := AuthMode.None
     role := params.Role }, none)

/-- Modelled from the spec: the error kinds of recovery (§7). -/
inductive KeyDataError where
  | PlatformNotRegistered
  | InvalidKeyData (detail : String)
  | NotSupported (msg : String)
  | Handler (msg : String)
deriving DecidableEq

/-- Modelled from the spec: the text of a recovery error, as the tests match it
(`TestRecoverKeysUnrecognizedPlatform`, `TestRecoverKeysInvalidData`,
`TestRecoverKeysWithPassphraseAuthModeNone`); a handler's report is passed on as it is. -/
def KeyDataError.Error : KeyDataError → String
  | .PlatformNotRegistered => "no appropriate platform handler is registered"
  | .InvalidKeyData detail => "invalid key data: " ++ detail
  | .NotSupported msg => msg
  | .Handler msg => msg

/-- Modelled from the spec: the decoders of the plaintext payload, selected by version
(§4.1): the legacy codec for version 0 and the current decoder otherwise.  The current
format is not described by the specification and is a parameter. -/
structure PayloadCodecs where
  legacy : LengthCodec
  current : List Nat → Except String (List Nat × List Nat)

/-- Modelled from the spec: the AAD rebuilt for recovery (§4.1, §4.3), from version,
generation, kdfAlg and authMode; version 0 uses no AAD (§6). -/
def KeyData.aad (kd : KeyData) : Except String (List Nat) :=
  if kd.version = 0 then .ok []
  else additionalData.aadBytes
    { Version := kd.version, Generation := kd.generation, KDFAlg := kd.kdfAlg,
      AuthMode := kd.authMode.code }

/-- Modelled from the spec: decoding of the recovered plaintext (§4.1); a decoding failure
is `InvalidKeyData`. -/
def KeyData.decodePayload (c : PayloadCodecs) (kd : KeyData) (plaintext : List Nat) :
    List Nat × List Nat × Option KeyDataError :=
  if kd.version = 0 then
    match UnmarshalV1KeyPayload c.legacy plaintext with
    | (unlockKey, primaryKey, none) => (unlockKey, primaryKey, none)
    | (_, _, some e) => ([], [], some (.InvalidKeyData e.Error))
  else
    match c.current plaintext with
    | .ok (unlockKey, primaryKey) => (unlockKey, primaryKey, none)
    | .error e => ([], [], some (.InvalidKeyData e))

/-- Modelled from the spec: the steps of recovery (§4.1): look the handler up by platform
name, rebuild the AAD, invoke the handler with handle, ciphertext and AAD, decode the
plaintext.  The specification names no error for an AAD that cannot be built (a kdfAlg
without OID); the model reports it as `InvalidKeyData`, the kind of a malformed envelope. -/
def KeyData.recover (c : PayloadCodecs) (reg : Registry) (kd : KeyData) :
    List Nat × List Nat × Option KeyDataError :=
  match reg.Lookup kd.platformName with
  | none => ([], [], some .PlatformNotRegistered)
  | some handler =>
    match kd.aad with
    | .error e => ([], [], some (.InvalidKeyData e))
    | .ok aad =>
      match handler.Recover kd.handle kd.encryptedPayload aad with
      | .plaintext p => kd.decodePayload c p
      | .invalidData detail => ([], [], some (.InvalidKeyData detail))
      | .failure msg => ([], [], some (.Handler msg))

/-- Modelled from the spec: `KeyData.RecoverKeys` (§4.1), valid only when the
authentication mode is None (§7 `AuthModeMismatch`); the wording of the mismatch error of
this path is fixed by neither the specification nor the tests. -/
def KeyData.RecoverKeys (c : PayloadCodecs) (reg : Registry) (kd : KeyData) :
    List Nat × List Nat × Option KeyDataError :=
  if kd.authMode ≠ AuthMode.None then
    ([], [], some (.NotSupported "cannot recover key without authorization"))
  else kd.recover c reg

/-- Modelled from the spec: the two passphrase steps that §4.1 gives only in outline,
taken as parameters: `derive` maps the passphrase, the extra salt and the handle (which
stores the KDF parameters) to the intermediate key, and `unwrap` uses that key to unwrap
the platform-recovery secret of the envelope, or fails with an error of its own. -/
structure PassphraseLayer where
  derive : List Nat → List Nat → List Nat → List Nat
  unwrap : List Nat → KeyData → Except KeyDataError KeyData

/-- Modelled from the spec: `KeyData.RecoverKeysWithPassphrase` (§4.1): fails at once with
`cannot recover key with passphrase` when the authentication mode is None; otherwise the
intermediate key is derived, the platform-recovery secret unwrapped, and platform recovery
proceeds as in `RecoverKeys`. -/
def KeyData.RecoverKeysWithPassphrase (layer : PassphraseLayer) (c : PayloadCodecs)
    (reg : Registry) (kd : KeyData) (passphrase extraSalt : List Nat) :
    List Nat × List Nat × Option KeyDataError :=
  if kd.authMode = AuthMode.None then
    ([], [], some (.NotSupported "cannot recover key with passphrase"))
  else
    match layer.unwrap (layer.derive passphrase extraSalt kd.handle) kd with
    | .error e => ([], [], some e)
    | .ok inner => inner.recover c reg

/-- Modelled from the spec: a pass-through handler, whose plaintext is the ciphertext it
is given; used to run scenarios. -/
def plainHandler : PlatformKeyDataHandler where
  Recover := fun _ ciphertext _ => .plaintext ciphertext

/-- Modelled from the spec: a handler that cannot decode any handle. -/
def undecodableHandler (detail : String) : PlatformKeyDataHandler where
  Recover := fun _ _ _ => .invalidData detail

/-- Modelled from the spec: the decoders used to run the version-0 scenarios of
`keydata_legacy_test.go`: the 2-byte prefix for the legacy codec, and a decoder of the
current format that accepts nothing. -/
def legacyCodecs : PayloadCodecs where
  legacy := uint16Codec
  current := fun _ => .error "not a current payload"

/-- Modelled from the spec: the registry of the suite of `keydata_legacy_test.go`
(`SetUpSuite`): one handler under the name `mock-legacy`. -/
def mockRegistry (handler : PlatformKeyDataHandler) : Registry :=
  RegisterPlatformKeyDataHandler Registry.empty "mock-legacy" (some handler)

/-- Modelled from the spec: key parameters as `mockProtectKeys` builds them, for a platform
name, a handle and an encrypted payload. -/
def mockKeyParams (platformName : String) (handle encryptedPayload : List Nat) : KeyParams where
  Handle := handle
  Role := ""
  EncryptedPayload := encryptedPayload
  PlatformName := platformName
  KDFAlg := 0

/-- Modelled from the spec: a passphrase layer that derives an empty key and unwraps
nothing; used to run scenarios. -/
def nullPassphraseLayer : PassphraseLayer where
  derive := fun _ _ _ => []
  unwrap := fun _ kd => .ok kd

/-! ## The KDF calibrator (specification §4.4)

`pbkdf2.go` of the root package is not among the sources; its tests (`pbkdf2_test.go`) are. -/

/-- Modelled from the spec: `PBKDF2Options`, with the fields that the tests set.  `0` is
the unset value of each field. -/
structure PBKDF2Options where
  TargetDuration : Nat
  ForceIterations : Nat
  HashAlg : hashAlg
deriving DecidableEq

/-- Modelled from the spec: `KdfParams`, the cost parameters (the fields that
`TestKDFParamsForceIterations` compares; `Type_` is the Go field `Type`). -/
structure KdfParams where
  Type_ : String
  Time : Nat
  Hash : hashAlg
  Memory : Nat
  CPUs : Nat
deriving DecidableEq

/-- Modelled from the spec: what a call of `PBKDF2Options.KdfParams` yields: the
parameters, the error, and the calls made to the benchmark function (target duration and
digest of each), in order. -/
structure KdfParamsResult where
  params : Option KdfParams
  err : Option String
  benchmarkCalls : List (Nat × hashAlg)
deriving DecidableEq

/-- Modelled from the spec: the policy table of §4.4 for the default digest by key length:
below 48 bytes SHA-256, 48 to 63 SHA-384, 64 and above SHA-512. -/
def defaultHashAlg (keyLen : Nat) : hashAlg :=
  if keyLen < 48 then SHA256 else if keyLen ≤ 63 then SHA384 else SHA512

/-- Modelled from the spec: `PBKDF2Options.KdfParams(defaultTargetDuration, keyLen)`
(§4.4), with the benchmark function (the one `MockPBKDF2Benchmark` replaces) as a
parameter.  A forced digest replaces the default one.  A forced iteration count is the
time cost and the benchmark is not run.  Otherwise the benchmark is run for the target
duration of the options, or the default one when unset (`TestKDFParamsTargetDuration`),
with the digest in effect, which is the forced one when there is one
(`TestKDFParamsCustomHash`: the benchmark is the only source of a time cost then); its
count is the time cost and its error the error.  Memory cost and parallelism are zero.
For options that force the digest and no iteration count, §4.4 names no time cost and says
that the benchmark is bypassed, while the test mocks the benchmark for the forced digest:
there the model takes the time cost from the benchmark, as the test arranges, and what it
does with the benchmark in that case is not used to settle any statement about it. -/
def PBKDF2Options.KdfParams (benchmark : Nat → hashAlg → Except String Nat)
    (o : PBKDF2Options) (defaultTargetDuration keyLen : Nat) : KdfParamsResult :=
  let hash := if o.HashAlg ≠ 0 then o.HashAlg else defaultHashAlg keyLen
  if o.ForceIterations ≠ 0 then
    { params := some { Type_ := "pbkdf2", Time := o.ForceIterations, Hash := hash,
                       Memory := 0, CPUs := 0 }
      err := none
      benchmarkCalls := [] }
  else
    let targetDuration := if o.TargetDuration ≠ 0 then o.TargetDuration else defaultTargetDuration
    match benchmark targetDuration hash with
    | .ok iterations =>
      { params := some { Type_ := "pbkdf2", Time := iterations, Hash := hash,
                         Memory := 0, CPUs := 0 }
        err := none
        benchmarkCalls := [(targetDuration, hash)] }
    | .error e =>
      { params := none, err := some e, benchmarkCalls := [(targetDuration, hash)] }

/-- The oracle of the tests, `pbkdf2Suite.checkParams` of `pbkdf2_test.go`: the checks it
makes on the parameters returned for the options `opts` and the key length `keyLen`. -/
def checkParams (opts : PBKDF2Options) (keyLen : Nat) (params : KdfParams) : Bool :=
  let expectedHash :=
    if keyLen ≥ 48 ∧ keyLen < 64 then SHA384 else if keyLen ≥ 64 then SHA512 else SHA256
  let expectedHash := if opts.HashAlg ≠ 0 then opts.HashAlg else expectedHash
  decide (params.Type_ = "pbkdf2") && decide (params.Hash = expectedHash) &&
    (if opts.ForceIterations ≠ 0 then decide (params.Time = opts.ForceIterations)
     else decide (params.Time ≠ 0)) &&
    decide (params.Memory = 0) && decide (params.CPUs = 0)

/-! ## plainkey/keydata.go: the JSON form of `hashAlg` -/

/-- The part of `encoding/json` that `hashAlg` uses, as a parameter.  `Marshal s` is
`json.Marshal(s)` for a string `s`, which never fails.  `Unmarshal b` is
`json.Unmarshal(b, &s)` into a string variable that holds `""`: the decoded string for a
JSON string value, `""` for the JSON `null` (which leaves the variable alone), and the error
for every other input. -/
structure JSONStrings where
  Marshal : String → List Nat
  Unmarshal : List Nat → Except String String

/-- One JSON codec for strings, used to run scenarios: a string is written between double
quotes, and it is read back when it holds no quote, backslash or control character. -/
def plainJSON : JSONStrings where
  Marshal := fun s => 34 :: (ascii s ++ [34])
  Unmarshal := fun b =>
    if b = ascii "null" then .ok ""
    else
      match b with
      | 34 :: rest =>
        if rest.getLast? = some 34 ∧ rest.dropLast.all (fun ch => 32 ≤ ch && ch != 34 && ch != 92 && ch < 128)
        then .ok (String.mk (rest.dropLast.map Char.ofNat))
        else .error "invalid character"
      | _ => .error "json: cannot unmarshal into Go value of type string"

/-- Method `hashAlg.MarshalJSON`: the JSON bytes and the error (`none` for `nil`). -/
def hashAlg.MarshalJSON (json : JSONStrings) (a : hashAlg) : List Nat × Option String :=
  if a = SHA1 then (json.Marshal "sha1", none)
  else if a = SHA224 then (json.Marshal "sha224", none)
  else if a = SHA256 then (json.Marshal "sha256", none)
  else if a = SHA384 then (json.Marshal "sha384", none)
  else if a = SHA512 then (json.Marshal "sha512", none)
  else if a = nilHash then (json.Marshal "null", none)
  else ([], some ("unknown hash algorithm: " ++ hashString a))

/-- Method `(*hashAlg).UnmarshalJSON`, on a receiver that holds `a`: the value of the
receiver afterwards and the error.  When `json.Unmarshal` fails the receiver is unchanged. -/
def hashAlg.UnmarshalJSON (json : JSONStrings) (a : hashAlg) (b : List Nat) :
    hashAlg × Option String :=
  match json.Unmarshal b with
  | .error e => (a, some e)
  | .ok s =>
    (if s = "sha1" then SHA1
     else if s = "sha224" then SHA224
     else if s = "sha256" then SHA256
     else if s = "sha384" then SHA384
     else if s = "sha512" then SHA512
     else nilHash, none)

/-- The six values that `UnmarshalJSON` can store. -/
def hashAlg.IsJSONValue (a : hashAlg) : Prop :=
  a = nilHash ∨ a = SHA1 ∨ a = SHA224 ∨ a = SHA256 ∨ a = SHA384 ∨ a = SHA512

instance (a : hashAlg) : Decidable (hashAlg.IsJSONValue a) := by
  unfold hashAlg.IsJSONValue; exact inferInstance

/-- The six names that `MarshalJSON` writes. -/
def hashAlgNames : List String := ["sha1", "sha224", "sha256", "sha384", "sha512", "null"]

/-! ## plainkey/keydata.go: `NewProtectedKey` -/

/-- Method `hashAlg.Size`, that is `crypto.Hash.Size`: the digest size in bytes; `none` is
the panic for an unknown hash. -/
def hashAlg.Size (a : hashAlg) : Option Nat :=
  match a with
  | 1 => some 16
  | 2 => some 16
  | 3 => some 20
  | 4 => some 28
  | 5 => some 32
  | 6 => some 48
  | 7 => some 64
  | 8 => some 36
  | 9 => some 20
  | 10 => some 28
  | 11 => some 32
  | 12 => some 48
  | 13 => some 64
  | 14 => some 28
  | 15 => some 32
  | 16 => some 32
  | 17 => some 32
  | 18 => some 48
  | 19 => some 64
  | _ => none

/-- Function `io.ReadFull(r, buf)` for a buffer of `n` bytes, on a reader that yields the
bytes of `r` and then the end of input: the bytes read and the reader afterwards, or `EOF`
when nothing could be read and `unexpected EOF` when the input ends early. -/
def ReadFull (r : List Nat) (n : Nat) : Except String (List Nat × List Nat) :=
  if n ≤ r.length then .ok (r.take n, r.drop n)
  else if r = [] then .error "EOF"
  else .error "unexpected EOF"

namespace plainkey

/-- Constant `symKeySaltSize`. -/
def symKeySaltSize : Nat := 32
/-- Constant `nonceSize`. -/
def nonceSize : Nat := 12

/-- Struct `protectorKeyId`. -/
structure protectorKeyId where
  Alg : hashAlg
  Salt : List Nat
  Digest : List Nat
deriving DecidableEq

/-- Struct `keyData`, the handle of a plainkey key. -/
structure keyData where
  Version : Int
  Salt : List Nat
  Nonce : List Nat
  ProtectorKeyID : protectorKeyId
deriving DecidableEq

/-- The `secboot.KeyParams` that `NewProtectedKey` fills in: the handle is a `keyData`. -/
structure KeyParams where
  Handle : keyData
  EncryptedPayload : List Nat
  PlatformName : String
  KDFAlg : hashAlg
deriving DecidableEq

/-- What `NewProtectedKey` calls outside its file, as parameters.  `κ` is the type of
`*secboot.KeyData`.

* `KeyDataGeneration`, `platformName`: the constants `secboot.KeyDataGeneration` and
  `platformName`;
* `MakeDiskUnlockKey rand kdfAlg primaryKey`: `secboot.MakeDiskUnlockKey`, which reads from
  `rand`; the unlock key, the payload and the reader afterwards, or the error;
* `hmac alg key data`: `hmac.New(alg.New, key)`, one `Write(data)`, then `Sum(nil)`;
* `hkdf alg ikm salt info`: the output stream of `hkdf.New(alg.New, ikm, salt, info)`;
* `gcmSeal key nonce plaintext aad`: `Seal(nil, nonce, plaintext, aad)` of the GCM of the
  AES cipher of `key`;
* `secbootNewKeyData`: the variable of that name, `secboot.NewKeyData` unless mocked. -/
structure Deps (κ : Type) where
  KeyDataGeneration : Int
  platformName : String
  MakeDiskUnlockKey : List Nat → hashAlg → List Nat → Except String (List Nat × List Nat × List Nat)
  hmac : hashAlg → List Nat → List Nat → List Nat
  hkdf : hashAlg → List Nat → List Nat → List Nat → List Nat
  gcmSeal : List Nat → List Nat → List Nat → List Nat → List Nat
  secbootNewKeyData : KeyParams → Except String κ

/-- Function `aes.NewCipher`: fails unless the key has 16, 24 or 32 bytes.  The cipher is
represented by its key. -/
def aesNewCipher (key : List Nat) : Except String (List Nat) :=
  if key.length = 16 ∨ key.length = 24 ∨ key.length = 32 then .ok key
  else .error ("crypto/aes: invalid key size " ++ toString key.length)

/-- Function `cipher.NewGCM` on an AES cipher, whose block size is 16: it does not fail. -/
def cipherNewGCM (block : List Nat) : Except String (List Nat) := .ok block

/-- Function `deriveAESKey`: the first 32 bytes of the HKDF-SHA256 stream for the info
`ENCRYPT`; `none` is the panic when they cannot be read. -/
def deriveAESKey {κ : Type} (deps : Deps κ) (ikm salt : List Nat) : Option (List Nat) :=
  match ReadFull (deps.hkdf SHA256 ikm salt (ascii "ENCRYPT")) 32 with
  | .ok (key, _) => some key
  | .error _ => none

/-- The four results of `NewProtectedKey`; `none` and `[]` are `nil`. -/
structure Result (κ : Type) where
  protectedKey : Option κ
  primaryKeyOut : List Nat
  unlockKey : List Nat
  err : Option String

/-- The statement `return nil, nil, nil, fmt.Errorf("<context>: %w", err)`. -/
def Result.fail {κ : Type} (context e : String) : Result κ :=
  { protectedKey := none, primaryKeyOut := [], unlockKey := [], err := some (context ++ ": " ++ e) }

/-- First part of `NewProtectedKey`: a primary key is read from `rand` when none is
supplied.  The primary key in use and the reader afterwards, or the error of the read. -/
def obtainPrimaryKey (rand primaryKey : List Nat) : Except String (List Nat × List Nat) :=
  if primaryKey.length = 0 then ReadFull rand 32
  else .ok (primaryKey, rand)

/-- Last part of `NewProtectedKey`, from the serialization of the AAD on: the protector key
ID, the AES-GCM sealing of the payload and the call of `secbootNewKeyData`.  `none` is the
panic of `deriveAESKey`. -/
def sealKeyData {κ : Type} (deps : Deps κ) (protectorKey primaryKey unlockKey payload
    randBytes : List Nat) : Option (Result κ) :=
  let kdfAlg := SHA256
  let idAlg := SHA256
  let salt := randBytes.take symKeySaltSize
  let nonce := (randBytes.take (symKeySaltSize + nonceSize)).drop symKeySaltSize
  let idSalt := randBytes.drop (symKeySaltSize + nonceSize)
  let aad : additionalData :=
    { Version := 1, Generation := deps.KeyDataGeneration, KDFAlg := kdfAlg,
      AuthMode := AuthMode.None.code }
  match aad.aadBytes with
  | .error e => some (Result.fail "cannot serialize AAD" e)
  | .ok aadBytes =>
    let id : protectorKeyId :=
      { Alg := idAlg, Salt := idSalt, Digest := deps.hmac idAlg protectorKey idSalt }
    match deriveAESKey deps protectorKey salt with
    | none => none
    | some key =>
      match aesNewCipher key with
      | .error e => some (Result.fail "cannot create cipher" e)
      | .ok b =>
        match cipherNewGCM b with
        | .error e => some (Result.fail "cannot create AEAD" e)
        | .ok aead =>
          let ciphertext := deps.gcmSeal aead nonce payload aadBytes
          match deps.secbootNewKeyData
              { Handle := { Version := 1, Salt := salt, Nonce := nonce, ProtectorKeyID := id }
                EncryptedPayload := ciphertext
                PlatformName := deps.platformName
                KDFAlg := kdfAlg } with
          | .error e => some (Result.fail "cannot create key data" e)
          | .ok kd =>
            some { protectedKey := some kd, primaryKeyOut := primaryKey,
                   unlockKey := unlockKey, err := none }

/-- Function `NewProtectedKey`, on a reader `rand` that yields the bytes of the list and
then the end of input.  `none` is a panic. -/
def NewProtectedKey {κ : Type} (deps : Deps κ) (rand protectorKey primaryKey : List Nat) :
    Option (Result κ) :=
  match obtainPrimaryKey rand primaryKey with
  | .error e => some (Result.fail "cannot obtain primary key" e)
  | .ok (primaryKey, rand1) =>
    match deps.MakeDiskUnlockKey rand1 SHA256 primaryKey with
    | .error e => some (Result.fail "cannot create new unlock key" e)
    | .ok (unlockKey, payload, rand2) =>
      match hashAlg.Size SHA256 with
      | none => none
      | some idSize =>
        match ReadFull rand2 (symKeySaltSize + nonceSize + idSize) with
        | .error e => some (Result.fail "cannot obtain required random bytes" e)
        | .ok (randBytes, _) =>
          sealKeyData deps protectorKey primaryKey unlockKey payload randBytes

/-- A stand-in for the collaborators of `NewProtectedKey`, used to run scenarios: the
unlock key is the primary key, the payload the next 32 bytes of `rand`, the digests and the
key stream are zero bytes of the right length, sealing appends a tag of 16 zero bytes to the
plaintext, and `NewKeyData` hands back its parameters. -/
def toyDeps : Deps KeyParams where
  KeyDataGeneration := 1
  platformName := "plainkey"
  MakeDiskUnlockKey := fun rand _ primaryKey =>
    match ReadFull rand 32 with
    | .ok (unique, rest) => .ok (primaryKey, unique, rest)
    | .error e => .error e
  hmac := fun _ _ _ => List.replicate 32 0
  hkdf := fun _ _ _ _ => List.replicate 64 0
  gcmSeal := fun _ _ plaintext _ => plaintext ++ List.replicate 16 0
  secbootNewKeyData := fun params => .ok params

/-- The opening that goes with the sealing of `toyDeps`: it checks the tag of 16 zero bytes
and returns the bytes before it. -/
def toyOpen (_key _nonce ciphertext _aad : List Nat) : Option (List Nat) :=
  if 16 ≤ ciphertext.length ∧ ciphertext.drop (ciphertext.length - 16) = List.replicate 16 0
  then some (ciphertext.take (ciphertext.length - 16))
  else none

end plainkey

/-! ## hooks/keydata_test.go: the test vectors of two roles -/

/-- Bytes of a hexadecimal text, two digits per byte. -/
def hexBytes (s : String) : List Nat :=
  let digit := fun (c : Char) =>
    if c.toNat ≥ 97 then c.toNat - 87 else c.toNat - 48
  let rec go : List Char → List Nat
    | a :: b :: rest => (digit a * 16 + digit b) :: go rest
    | _ => []
  go s.toList

/-- The `expectedCiphertext` of `TestNewProtectedKeyWithAuthorizedParams` (role `foo`). -/
def hooksCiphertextFoo : List Nat := hexBytes
  "6244724fe5649c7ed7610c82774eea6dff2c32bad54c08549fe31124d63b7173887346112a0662331fb14e2645f872da5808f703b9bb779496e7afe33412a4e21f7157b5f59cf7b30f2689ca11b1750c65cb0e0d52a0"

/-- The `expectedCiphertext` of `TestNewProtectedKeyWithAuthorizedParamsDifferentRole`
(role `bar`). -/
def hooksCiphertextBar : List Nat := hexBytes
  "6244724fe5649c7ed7610c82774eea6dff2c32bad54c08549fe31124d63b7173887346112a0662331fb14e2645f872da5808f703b9bb779496e7afe33412a4e21f7157b5f59cfc2bdf4b15c347ee9daadabb11995fb0"

/-- The `expectedCleartext` of both tests. -/
def hooksCleartext : List Nat := hexBytes
  "30440420f51ad3cfef16e7076153d3a994f1fe09cc82c2ae4186d5322ffaae2f6e2b58fa0420e51f16354d289d1fcf0f66a4f69841fb3bbb9917932ab439a2250a50d45cc396"

/-! ## Theorems -/

theorem Builder_add_ok (b : Builder) (h : b.err = none) (bs : List Nat) :
    b.add bs = ⟨none, b.result ++ bs⟩ := by
  simp [Builder.add, h]

theorem shr_mul8 (v : Int) (n : Nat) : v >>> (n * 8) = v / 256 ^ n := by
  rw [Int.shiftRight_eq_div_pow, Nat.mul_comm, pow_mul]; norm_num

theorem signedLoop_ok (v : Int) (n : Nat) (c : Builder) (h : c.err = none) :
    Builder.signedLoop v n c = ⟨none, c.result ++ Builder.signedBytes v n⟩ := by
  induction n generalizing c with
  | zero => cases c; simp_all [Builder.signedLoop, Builder.signedBytes]
  | succ n ih =>
    have hb : ((v / 256 ^ n) % 256).toNat % 256 = ((v / 256 ^ n) % 256).toNat := by omega
    rw [Builder.signedLoop, Builder.AddUint8, Builder_add_ok _ h, ih _ rfl, shr_mul8, hb]
    simp [Builder.signedBytes]

theorem signedBytes_length (v : Int) (n : Nat) : (Builder.signedBytes v n).length = n := by
  induction n with
  | zero => rfl
  | succ n ih => simp [Builder.signedBytes, ih]

theorem signedBytes_lt (v : Int) (n : Nat) : ∀ x ∈ Builder.signedBytes v n, x < 256 := by
  induction n with
  | zero => simp [Builder.signedBytes]
  | succ n ih =>
    intro x hx
    simp only [Builder.signedBytes, List.mem_cons] at hx
    rcases hx with rfl | hx
    · omega
    · exact ih x hx

/-- On an `int64` the length loop stops on its condition: the chosen length `L` is between 1
and 8, `v` fits in `L` bytes of two's complement, and it fits in no fewer. -/
theorem signedLength_spec (v : Int) (hv : IsInt64 v) :
    1 ≤ Builder.signedLength v ∧ Builder.signedLength v ≤ 8 ∧
    -(256 ^ Builder.signedLength v) ≤ 2 * v ∧ 2 * v < 256 ^ Builder.signedLength v ∧
    (Builder.signedLength v = 1 ∨
      ¬ (-(256 ^ (Builder.signedLength v - 1)) ≤ 2 * v ∧ 2 * v < 256 ^ (Builder.signedLength v - 1))) := by
  have key : ∀ L, Builder.signedLength v = L →
      1 ≤ L ∧ L ≤ 8 ∧ -(256 ^ L) ≤ 2 * v ∧ 2 * v < 256 ^ L ∧
      (L = 1 ∨ ¬ (-(256 ^ (L - 1)) ≤ 2 * v ∧ 2 * v < 256 ^ (L - 1))) := by
    intro L hL
    unfold IsInt64 at hv
    have e8 : (2 : Int) ^ 8 = 256 := by norm_num
    simp only [Builder.signedLength, Builder.signedLengthLoop, Int.shiftRight_eq_div_pow, e8] at hL
    norm_num at hv
    split_ifs at hL <;> subst hL <;> norm_num <;> omega
  exact key _ rfl

theorem signedLength_fuel (v : Int) (hv : IsInt64 v) (k : Nat) :
    Builder.signedLengthLoop (k + 8) v 1 = Builder.signedLength v := by
  unfold IsInt64 at hv
  have e8 : (2 : Int) ^ 8 = 256 := by norm_num
  norm_num at hv
  simp only [Builder.signedLength, Builder.signedLengthLoop, Int.shiftRight_eq_div_pow, e8]
  split_ifs <;> first | rfl | (exfalso; omega)

theorem emod_mul_split (v a b : Int) (ha : 0 < a) (hb : 0 < b) :
    v % (a * b) = v % a + a * (v / a % b) := by
  have h1 := Int.emod_add_ediv v a
  have h2 := Int.emod_add_ediv (v / a) b
  have h3 := Int.emod_nonneg v (ne_of_gt ha)
  have h4 := Int.emod_lt_of_pos v ha
  have h5 := Int.emod_nonneg (v / a) (ne_of_gt hb)
  have h6 := Int.emod_lt_of_pos (v / a) hb
  have hr0 : 0 ≤ v % a + a * (v / a % b) := by positivity
  have hr1 : v % a + a * (v / a % b) < a * b := by nlinarith
  have heq : v % a + a * (v / a % b) + a * b * (v / a / b) = v := by
    calc v % a + a * (v / a % b) + a * b * (v / a / b)
        = v % a + a * (v / a % b + b * (v / a / b)) := by ring
      _ = v := by rw [h2, h1]
  exact ((Int.ediv_emod_unique (Int.mul_pos ha hb)).2 ⟨heq, hr0, hr1⟩).2


/-- The bytes written by the second loop are the base-256 digits of `v mod 256^n`. -/
theorem signedBytes_unsignedValue (v : Int) (n : Nat) :
    (unsignedValue (Builder.signedBytes v n) : Int) = v % 256 ^ n := by
  unfold unsignedValue
  induction n with
  | zero => simp [Builder.signedBytes, Int.emod_one, Nat.ofDigits_nil]
  | succ n ih =>
    have hp : (0 : Int) < 256 ^ n := by positivity
    have hn : (0 : Int) ≤ v / 256 ^ n % 256 := Int.emod_nonneg _ (by norm_num)
    rw [Builder.signedBytes, List.reverse_cons, Nat.ofDigits_append, List.length_reverse,
      signedBytes_length, pow_succ, emod_mul_split v _ _ hp (by norm_num)]
    rw [Nat.cast_add, Nat.cast_mul, Nat.cast_pow, ih, Nat.ofDigits_singleton,
      Int.toNat_of_nonneg hn]
    norm_num

/-- Decoding what `addASN1Signed` wrote gives back the integer, whenever the integer fits in
the chosen number of bytes. -/
theorem twosComplement_signedBytes (v : Int) (n : Nat) (hn : 1 ≤ n)
    (hlo : -(256 ^ n) ≤ 2 * v) (hhi : 2 * v < 256 ^ n) :
    twosComplement (Builder.signedBytes v n) = v := by
  obtain ⟨m, rfl⟩ : ∃ m, n = m + 1 := ⟨n - 1, by omega⟩
  have hp : (0 : Int) < 256 ^ m := by positivity
  have hsplit := emod_mul_split v (256 ^ m) 256 hp (by norm_num)
  have hdiv := Int.emod_add_ediv v (256 ^ m)
  have hm0 := Int.emod_nonneg v (ne_of_gt hp)
  have hm1 := Int.emod_lt_of_pos v hp
  have hpow : (256 : Int) ^ (m + 1) = 256 ^ m * 256 := pow_succ _ _
  have hq1 : -128 ≤ v / 256 ^ m := by
    by_contra hc
    have : v / 256 ^ m ≤ -129 := by omega
    nlinarith
  have hq2 : v / 256 ^ m < 128 := by
    by_contra hc
    have : 128 ≤ v / 256 ^ m := by omega
    nlinarith
  have hd := signedBytes_unsignedValue v (m + 1)
  unfold twosComplement
  rw [hd, signedBytes_length]
  simp only [Builder.signedBytes, List.headD_cons]
  rw [hpow] at *
  rw [hsplit]
  by_cases hneg : v / 256 ^ m < 0
  · have e : v / 256 ^ m % 256 = v / 256 ^ m + 256 := by omega
    have hc : 128 ≤ (v / 256 ^ m % 256).toNat := by omega
    rw [if_pos hc, e]
    linarith
  · have e : v / 256 ^ m % 256 = v / 256 ^ m := by omega
    have hc : ¬ 128 ≤ (v / 256 ^ m % 256).toNat := by omega
    rw [if_neg hc, e]
    linarith


/-- A non-empty two's-complement byte string of `m` bytes denotes a value in
`[-256^m / 2, 256^m / 2)`. -/
theorem twosComplement_range (cs : List Nat) (hne : cs ≠ []) (hlt : ∀ x ∈ cs, x < 256) :
    -(256 ^ cs.length) ≤ 2 * twosComplement cs ∧ 2 * twosComplement cs < 256 ^ cs.length := by
  obtain ⟨h, t, rfl⟩ := List.exists_cons_of_ne_nil hne
  have hh : h < 256 := hlt h (List.mem_cons_self _ _)
  have ht : ∀ x ∈ t.reverse, x < 256 := fun x hx =>
    hlt x (List.mem_cons_of_mem _ (List.mem_reverse.1 hx))
  have hu := Nat.ofDigits_lt_base_pow_length (by norm_num : 1 < 256) ht
  rw [List.length_reverse] at hu
  have hval : unsignedValue (h :: t) = Nat.ofDigits 256 t.reverse + 256 ^ t.length * h := by
    unfold unsignedValue
    rw [List.reverse_cons, Nat.ofDigits_append, List.length_reverse, Nat.ofDigits_singleton]
  have hPz : ((256 : Int) ^ t.length) = ((256 ^ t.length : Nat) : Int) := by push_cast; rfl
  unfold twosComplement
  rw [hval, List.length_cons, pow_succ, List.headD_cons, hPz]
  generalize Nat.ofDigits 256 t.reverse = u at hu
  generalize 256 ^ t.length = P at hu
  have h1 : P * h ≤ P * 255 := Nat.mul_le_mul_left _ (by omega)
  have hu0 : (0 : Int) ≤ (u : Int) := Int.ofNat_nonneg u
  have hP0 : (0 : Int) ≤ (P : Int) := Int.ofNat_nonneg P
  have hPh0 : (0 : Int) ≤ (P : Int) * (h : Int) := by positivity
  by_cases hc : 128 ≤ h
  · have h2 : P * 128 ≤ P * h := Nat.mul_le_mul_left _ hc
    rw [if_pos hc]
    push_cast
    constructor <;> (zify at h1 h2 hu; linarith)
  · have h2 : P * h ≤ P * 127 := Nat.mul_le_mul_left _ (by omega)
    rw [if_neg hc]
    push_cast
    constructor <;> (zify at h1 h2 hu; linarith)

/-- What `addASN1Signed` writes for an `int64` is the DER content of that integer. -/
theorem isDerInteger_signedBytes (v : Int) (hv : IsInt64 v) :
    IsDerInteger (Builder.signedBytes v (Builder.signedLength v)) v := by
  obtain ⟨h1, _, hlo, hhi, hmin⟩ := signedLength_spec v hv
  refine ⟨?_, signedBytes_lt v _, twosComplement_signedBytes v _ h1 hlo hhi, ?_⟩
  · intro hnil
    have := signedBytes_length v (Builder.signedLength v)
    rw [hnil] at this
    simp at this
    omega
  · intro cs hne hlt hval
    rw [signedBytes_length]
    by_contra hcon
    have hr := twosComplement_range cs hne hlt
    rw [hval] at hr
    rcases hmin with h | h
    · have : 0 < cs.length := List.length_pos.2 hne
      omega
    · apply h
      have hle : (256 : Int) ^ cs.length ≤ 256 ^ (Builder.signedLength v - 1) :=
        pow_le_pow_right₀ (by norm_num) (by omega)
      constructor <;> linarith [hr.1, hr.2]

theorem AddASN1_ok (b : Builder) (tag : Nat) (f : Builder → Builder) (content : List Nat)
    (hb : b.err = none) (htag : ¬ tag &&& 0x1f = 0x1f) (hlt : tag < 256)
    (hf : f { err := none, result := [] } = { err := none, result := content })
    (hlen : content.length < 128) :
    b.AddASN1 tag f = { err := none, result := b.result ++ derTLV tag content } := by
  have h1 : ¬ content.length > 0xfffffffe := by omega
  have h2 : Builder.asn1Length content.length = [content.length] := by
    unfold Builder.asn1Length
    rw [if_neg (by omega), if_neg (by omega), if_neg (by omega), if_neg (by omega)]
  have h3 : tag % 256 = tag := Nat.mod_eq_of_lt hlt
  simp only [Builder.AddASN1, hb, htag, hf, h1, h2, h3, derTLV, derLength, hlen, if_true,
    if_false, List.append_assoc, List.singleton_append, List.cons_append, List.nil_append]

theorem addASN1Signed_ok (b : Builder) (tag : Nat) (v : Int) (hb : b.err = none)
    (htag : ¬ tag &&& 0x1f = 0x1f) (hlt : tag < 256) (hv : IsInt64 v) :
    b.addASN1Signed tag v =
      { err := none, result := b.result ++ derTLV tag (Builder.signedBytes v (Builder.signedLength v)) } := by
  have hL := (signedLength_spec v hv).2.1
  refine AddASN1_ok b tag _ _ hb htag hlt ?_ ?_
  · rw [signedLoop_ok v _ _ rfl]; rfl
  · rw [signedBytes_length]; omega


theorem derTLV_length (tag : Nat) (content : List Nat) (h : content.length < 128) :
    (derTLV tag content).length = content.length + 2 := by
  simp [derTLV, derLength, h]

/-- The DER content of the AlgorithmIdentifier of a supported digest, byte for byte: its OID
and NULL. -/
theorem derAlgorithmIdentifier_eq (a : hashAlg) (ha : hashAlg.Supported a) :
    derTLV 6 (derOID (digestOID a)) ++ derTLV 5 [] =
      if a = SHA1 then [6, 5, 0x2b, 0x0e, 3, 2, 0x1a, 5, 0]
      else [6, 9, 0x60, 0x86, 0x48, 1, 0x65, 3, 4, 2,
        if a = SHA224 then 4 else if a = SHA256 then 1 else if a = SHA384 then 2 else 3, 5, 0] := by
  rcases ha with h | h | h | h | h <;> subst h <;>
    simp [derTLV, derLength, derOID, digestOID, derSubidentifier, SHA1, SHA224, SHA256, SHA384,
      SHA512]

theorem derAlgorithmIdentifier_length (a : hashAlg) (ha : hashAlg.Supported a) :
    (derTLV 6 (derOID (digestOID a)) ++ derTLV 5 []).length ≤ 13 := by
  rw [derAlgorithmIdentifier_eq a ha]
  split_ifs <;> simp

theorem hashAlg_MarshalASN1_child (a : hashAlg) (ha : hashAlg.Supported a) :
    (match hashAlg.oid a with
      | none => Builder.SetError { err := none, result := [] }
          ("unknown hash algorithm: " ++ hashString a)
      | some oid => (Builder.AddASN1ObjectIdentifier { err := none, result := [] } oid).AddASN1NULL) =
      { err := none, result := derTLV 6 (derOID (digestOID a)) ++ derTLV 5 [] } := by
  rw [derAlgorithmIdentifier_eq a ha]
  rcases ha with h | h | h | h | h <;> subst h <;> decide

theorem hashAlg_MarshalASN1_ok (a : hashAlg) (b : Builder) (ha : hashAlg.Supported a)
    (hb : b.err = none) :
    hashAlg.MarshalASN1 a b =
      { err := none,
        result := b.result ++ derTLV 0x30 (derTLV 6 (derOID (digestOID a)) ++ derTLV 5 []) } := by
  unfold hashAlg.MarshalASN1
  refine AddASN1_ok b _ _ _ hb (by decide) (by decide) (hashAlg_MarshalASN1_child a ha) ?_
  have := derAlgorithmIdentifier_length a ha
  omega

/-- For a supported digest and `int64` fields, `additionalData.MarshalASN1` appends one
SEQUENCE holding the two INTEGERs, the AlgorithmIdentifier and the ENUMERATED, and leaves the
builder without error. -/
theorem additionalData_MarshalASN1_ok (d : additionalData) (b : Builder) (hb : b.err = none)
    (ha : hashAlg.Supported d.KDFAlg) (hV : IsInt64 d.Version) (hG : IsInt64 d.Generation)
    (hA : IsInt64 d.AuthMode) :
    d.MarshalASN1 b =
      { err := none,
        result := b.result ++ derTLV 0x30
          (derTLV 2 (Builder.signedBytes d.Version (Builder.signedLength d.Version)) ++
           (derTLV 2 (Builder.signedBytes d.Generation (Builder.signedLength d.Generation)) ++
           (derTLV 0x30 (derTLV 6 (derOID (digestOID d.KDFAlg)) ++ derTLV 5 []) ++
            derTLV 10 (Builder.signedBytes d.AuthMode (Builder.signedLength d.AuthMode))))) } := by
  unfold additionalData.MarshalASN1
  have hLV := (signedLength_spec _ hV).2.1
  have hLG := (signedLength_spec _ hG).2.1
  have hLA := (signedLength_spec _ hA).2.1
  have hK := derAlgorithmIdentifier_length _ ha
  refine AddASN1_ok b _ _ _ hb (by decide) (by decide) ?_ ?_
  · simp only [Builder.AddASN1Int64, Builder.AddASN1Enum, Builder.INTEGER, Builder.ENUM]
    rw [addASN1Signed_ok _ 2 _ rfl (by decide) (by decide) hV,
      addASN1Signed_ok _ 2 _ rfl (by decide) (by decide) hG,
      hashAlg_MarshalASN1_ok _ _ ha rfl,
      addASN1Signed_ok _ 10 _ rfl (by decide) (by decide) hA]
    simp only [List.nil_append, List.append_assoc]
  · rw [List.length_append, List.length_append, List.length_append,
      derTLV_length _ _ (by rw [signedBytes_length]; omega),
      derTLV_length _ _ (by rw [signedBytes_length]; omega),
      derTLV_length _ _ (by omega),
      derTLV_length _ _ (by rw [signedBytes_length]; omega), signedBytes_length, signedBytes_length, signedBytes_length]
    omega


theorem signedBytes_inj (v w : Int) (hv : IsInt64 v) (hw : IsInt64 w)
    (h : Builder.signedBytes v (Builder.signedLength v) =
      Builder.signedBytes w (Builder.signedLength w)) : v = w := by
  obtain ⟨a1, _, a2, a3, _⟩ := signedLength_spec v hv
  obtain ⟨b1, _, b2, b3, _⟩ := signedLength_spec w hw
  rw [← twosComplement_signedBytes v _ a1 a2 a3, ← twosComplement_signedBytes w _ b1 b2 b3, h]

theorem derTLV_append_inj (tag : Nat) (c1 c2 r1 r2 : List Nat) (h1 : c1.length < 128)
    (h2 : c2.length < 128) (h : derTLV tag c1 ++ r1 = derTLV tag c2 ++ r2) :
    c1 = c2 ∧ r1 = r2 := by
  simp only [derTLV, derLength, h1, h2, if_true, List.cons_append, List.singleton_append,
    List.cons.injEq, true_and, List.append_assoc] at h
  exact List.append_inj h.2 h.1

theorem digestOID_inj (a b : hashAlg) (ha : hashAlg.Supported a) (hb : hashAlg.Supported b)
    (h : derTLV 6 (derOID (digestOID a)) ++ derTLV 5 [] =
      derTLV 6 (derOID (digestOID b)) ++ derTLV 5 []) : a = b := by
  rw [derAlgorithmIdentifier_eq a ha, derAlgorithmIdentifier_eq b hb] at h
  rcases ha with e | e | e | e | e <;> rcases hb with f | f | f | f | f <;> subst e <;> subst f <;>
    first | rfl | (exfalso; revert h; decide)

theorem aadContent_length (d : additionalData) (ha : hashAlg.Supported d.KDFAlg)
    (hV : IsInt64 d.Version) (hG : IsInt64 d.Generation) (hA : IsInt64 d.AuthMode) :
    (derTLV 2 (Builder.signedBytes d.Version (Builder.signedLength d.Version)) ++
      (derTLV 2 (Builder.signedBytes d.Generation (Builder.signedLength d.Generation)) ++
      (derTLV 0x30 (derTLV 6 (derOID (digestOID d.KDFAlg)) ++ derTLV 5 []) ++
        derTLV 10 (Builder.signedBytes d.AuthMode (Builder.signedLength d.AuthMode))))).length
      < 128 := by
  have hLV := (signedLength_spec _ hV).2.1
  have hLG := (signedLength_spec _ hG).2.1
  have hLA := (signedLength_spec _ hA).2.1
  have hK := derAlgorithmIdentifier_length _ ha
  rw [List.length_append, List.length_append, List.length_append,
    derTLV_length _ _ (by rw [signedBytes_length]; omega),
    derTLV_length _ _ (by rw [signedBytes_length]; omega),
    derTLV_length _ _ (by omega),
    derTLV_length _ _ (by rw [signedBytes_length]; omega), signedBytes_length,
    signedBytes_length, signedBytes_length]
  omega

/-- C1: on supported inputs the AAD serialization is injective.  For two `additionalData`
values whose `KDFAlg` is one of SHA1, SHA224, SHA256, SHA384, SHA512 (and whose integer
fields are in the range of their Go types), if `MarshalASN1` yields the same bytes for both
then their `Version`, `Generation`, `KDFAlg` and `AuthMode` are equal. -/
theorem additionalData_MarshalASN1_injective (a b : additionalData) (b0 : Builder)
    (h0 : b0.err = none)
    (ha : hashAlg.Supported a.KDFAlg) (hb : hashAlg.Supported b.KDFAlg)
    (haV : IsInt64 a.Version) (haG : IsInt64 a.Generation) (haA : IsInt64 a.AuthMode)
    (hbV : IsInt64 b.Version) (hbG : IsInt64 b.Generation) (hbA : IsInt64 b.AuthMode)
    (h : (a.MarshalASN1 b0).Bytes = (b.MarshalASN1 b0).Bytes) :
    a.Version = b.Version ∧ a.Generation = b.Generation ∧ a.KDFAlg = b.KDFAlg ∧
      a.AuthMode = b.AuthMode := by
  have hL : ∀ v, IsInt64 v → (Builder.signedBytes v (Builder.signedLength v)).length < 128 := by
    intro v hv
    have := (signedLength_spec v hv).2.1
    rw [signedBytes_length]; omega
  have hKa := derAlgorithmIdentifier_length _ ha
  have hKb := derAlgorithmIdentifier_length _ hb
  rw [additionalData_MarshalASN1_ok a b0 h0 ha haV haG haA,
    additionalData_MarshalASN1_ok b b0 h0 hb hbV hbG hbA] at h
  simp only [Builder.Bytes] at h
  have h1 := List.append_cancel_left (Except.ok.inj h)
  have h2 := (derTLV_append_inj 0x30 _ _ [] [] (aadContent_length a ha haV haG haA)
    (aadContent_length b hb hbV hbG hbA) (by rw [List.append_nil, List.append_nil]; exact h1)).1
  obtain ⟨eV, h3⟩ := derTLV_append_inj 2 _ _ _ _ (hL _ haV) (hL _ hbV) h2
  obtain ⟨eG, h4⟩ := derTLV_append_inj 2 _ _ _ _ (hL _ haG) (hL _ hbG) h3
  obtain ⟨eK, h5⟩ := derTLV_append_inj 0x30 _ _ _ _ (by omega) (by omega) h4
  have eA := (derTLV_append_inj 10 _ _ [] [] (hL _ haA) (hL _ hbA)
    (by rw [List.append_nil, List.append_nil]; exact h5)).1
  exact ⟨signedBytes_inj _ _ haV hbV eV, signedBytes_inj _ _ haG hbG eG,
    digestOID_inj _ _ ha hb eK, signedBytes_inj _ _ haA hbA eA⟩

/-- C1, at a concrete pair: the premises hold for two values that agree on every field, and
changing only the generation from 1 to 2 changes the AAD bytes. -/
theorem additionalData_MarshalASN1_injective_witness :
    ((1 : Int) = 1 ∧ (1 : Int) = 1 ∧ SHA256 = SHA256 ∧ (0 : Int) = 0) ∧
    (additionalData.MarshalASN1 ⟨1, 1, SHA256, 0⟩ Builder.new).Bytes ≠
      (additionalData.MarshalASN1 ⟨1, 2, SHA256, 0⟩ Builder.new).Bytes :=
  ⟨additionalData_MarshalASN1_injective ⟨1, 1, SHA256, 0⟩ ⟨1, 1, SHA256, 0⟩ Builder.new rfl
      (by decide) (by decide) (by decide) (by decide) (by decide) (by decide) (by decide)
      (by decide) rfl,
    fun h => absurd
      (additionalData_MarshalASN1_injective ⟨1, 1, SHA256, 0⟩ ⟨1, 2, SHA256, 0⟩ Builder.new rfl
        (by decide) (by decide) (by decide) (by decide) (by decide) (by decide) (by decide)
        (by decide) h).2.1 (by decide)⟩

/-- C2: for a supported `KDFAlg` (and integer fields in the range of their Go types),
`additionalData.MarshalASN1` leaves the builder without error and appends exactly one DER
SEQUENCE whose content is, in this order, INTEGER(Version), INTEGER(Generation), the
AlgorithmIdentifier SEQUENCE of the OBJECT IDENTIFIER of `KDFAlg` and NULL, and
ENUMERATED(AuthMode), each integer in its shortest two's-complement form. -/
theorem additionalData_MarshalASN1_der (d : additionalData) (b : Builder) (hb : b.err = none)
    (ha : hashAlg.Supported d.KDFAlg) (hV : IsInt64 d.Version) (hG : IsInt64 d.Generation)
    (hA : IsInt64 d.AuthMode) :
    ∃ cV cG cA : List Nat,
      IsDerInteger cV d.Version ∧ IsDerInteger cG d.Generation ∧ IsDerInteger cA d.AuthMode ∧
      d.MarshalASN1 b =
        { err := none,
          result := b.result ++ derTLV 0x30
            (derTLV 2 cV ++ (derTLV 2 cG ++
              (derTLV 0x30 (derTLV 6 (derOID (digestOID d.KDFAlg)) ++ derTLV 5 []) ++
                derTLV 10 cA))) } :=
  ⟨_, _, _, isDerInteger_signedBytes _ hV, isDerInteger_signedBytes _ hG,
    isDerInteger_signedBytes _ hA, additionalData_MarshalASN1_ok d b hb ha hV hG hA⟩

/-- C2, at the AAD of `NewProtectedKey` with generation 1 on a fresh builder. -/
theorem additionalData_MarshalASN1_der_witness :
    ∃ cV cG cA : List Nat,
      IsDerInteger cV 1 ∧ IsDerInteger cG 1 ∧ IsDerInteger cA 0 ∧
      additionalData.MarshalASN1 ⟨1, 1, SHA256, 0⟩ Builder.new =
        { err := none,
          result := Builder.new.result ++ derTLV 0x30
            (derTLV 2 cV ++ (derTLV 2 cG ++
              (derTLV 0x30 (derTLV 6 (derOID (digestOID SHA256)) ++ derTLV 5 []) ++
                derTLV 10 cA))) } :=
  additionalData_MarshalASN1_der ⟨1, 1, SHA256, 0⟩ Builder.new rfl (by decide) (by decide)
    (by decide) (by decide)


theorem decimalValue_cons (ch : Nat) (r : List Nat) :
    decimalValue (ch :: r) = decimalValue r + 10 ^ r.length * (ch - 48) := by
  unfold decimalValue
  rw [List.reverse_cons, List.map_append, Nat.ofDigits_append, List.length_map,
    List.length_reverse, List.map_singleton, Nat.ofDigits_singleton]

theorem isDigits_tail {ch : Nat} {r : List Nat} (h : IsDigits (ch :: r)) : IsDigits r :=
  fun x hx => h x (List.mem_cons_of_mem _ hx)

theorem isDigits_head {ch : Nat} {r : List Nat} (h : IsDigits (ch :: r)) : 48 ≤ ch ∧ ch ≤ 57 :=
  h ch (List.mem_cons_self _ _)

/-- On a digit string the scanning loop consumes everything and accumulates the decimal
value. -/
theorem natScan_digits (s : List Nat) (hs : IsDigits s) (acc count : Nat) :
    natScan s acc count = (acc * 10 ^ s.length + decimalValue s, count + s.length, []) := by
  induction s generalizing acc count with
  | nil => simp [natScan, decimalValue]
  | cons ch r ih =>
    have hc := isDigits_head hs
    rw [natScan, if_pos hc, ih (isDigits_tail hs), decimalValue_cons, List.length_cons]
    simp only [Prod.mk.injEq, and_true]
    constructor
    · ring
    · omega

/-- If the scanning loop leaves nothing unread, the input was a digit string. -/
theorem natScan_rest_nil (s : List Nat) (acc count : Nat) (h : (natScan s acc count).2.2 = []) :
    IsDigits s := by
  induction s generalizing acc count with
  | nil => intro x hx; cases hx
  | cons ch r ih =>
    rw [natScan] at h
    by_cases hc : 48 ≤ ch ∧ ch ≤ 57
    · rw [if_pos hc] at h
      intro x hx
      rcases List.mem_cons.1 hx with rfl | hx
      · exact hc
      · exact ih _ _ h x hx
    · rw [if_neg hc] at h
      cases h

theorem decimalValue_lt (s : List Nat) (hs : IsDigits s) : decimalValue s < 10 ^ s.length := by
  unfold decimalValue
  have := Nat.ofDigits_lt_base_pow_length (b := 10) (l := s.reverse.map fun ch => ch - 48)
    (by norm_num) (by
      intro x hx
      obtain ⟨y, hy, rfl⟩ := List.mem_map.1 hx
      have := hs y (List.mem_reverse.1 hy)
      omega)
  simpa using this

/-- A non-empty digit string is accepted by `SetString` with its decimal value. -/
theorem bigSetString_digits (s : List Nat) (hs : IsDigits s) (hne : s ≠ []) :
    bigSetString s = some (decimalValue s : Int) := by
  obtain ⟨ch, r, rfl⟩ := List.exists_cons_of_ne_nil hne
  have hc := isDigits_head hs
  have h1 : scanSign (ch :: r) = some (false, ch :: r) := by
    simp only [scanSign]
    rw [if_neg (by omega), if_neg (by omega)]
  simp only [bigSetString, h1, natScan_digits _ hs, List.length_cons]
  simp

theorem bigSetString_aux (neg : Bool) (r : List Nat) (v : Int)
    (h : (match natScan r 0 0 with
      | (abs, count, rest) =>
        if count = 0 then none
        else if rest ≠ [] then none
        else some (if neg then -(abs : Int) else (abs : Int))) = some v) :
    IsDigits r ∧ r ≠ [] ∧ v.natAbs = decimalValue r := by
  rcases hscan : natScan r 0 0 with ⟨abs, count, rest⟩
  rw [hscan] at h
  simp only at h
  by_cases hc : count = 0
  · rw [if_pos hc] at h; cases h
  · rw [if_neg hc] at h
    by_cases hr : rest ≠ []
    · rw [if_pos hr] at h; cases h
    · rw [if_neg hr] at h
      have hrest : rest = [] := by simpa using hr
      have hd : IsDigits r := natScan_rest_nil r 0 0 (by rw [hscan]; exact hrest)
      have hval := natScan_digits r hd 0 0
      rw [hscan] at hval
      simp only [Prod.mk.injEq, zero_mul, zero_add] at hval
      obtain ⟨rfl, rfl, _⟩ := hval
      refine ⟨hd, ?_, ?_⟩
      · intro hnil; apply hc; rw [hnil]; rfl
      · have hv := Option.some.inj h
        rw [← hv]
        cases neg <;> simp

/-- Every string that `SetString` accepts is a non-empty digit string `r`, possibly after
one sign, and the absolute value of the result is the decimal value of `r`. -/
theorem bigSetString_some (s : List Nat) (v : Int) (h : bigSetString s = some v) :
    ∃ r, IsDigits r ∧ r ≠ [] ∧ (s = r ∨ s = 43 :: r ∨ s = 45 :: r) ∧
      v.natAbs = decimalValue r := by
  cases s with
  | nil => simp [bigSetString, scanSign] at h
  | cons ch r0 =>
    unfold bigSetString at h
    simp only [scanSign] at h
    by_cases h45 : ch = 45
    · rw [if_pos h45] at h
      obtain ⟨a, b, c⟩ := bigSetString_aux true r0 v h
      exact ⟨r0, a, b, Or.inr (Or.inr (by rw [h45])), c⟩
    · rw [if_neg h45] at h
      by_cases h43 : ch = 43
      · rw [if_pos h43] at h
        obtain ⟨a, b, c⟩ := bigSetString_aux false r0 v h
        exact ⟨r0, a, b, Or.inr (Or.inl (by rw [h43])), c⟩
      · rw [if_neg h43] at h
        obtain ⟨a, b, c⟩ := bigSetString_aux false (ch :: r0) v h
        exact ⟨ch :: r0, a, b, Or.inl rfl, c⟩

theorem natDigits_eq (base : Nat) (hb : 1 < base) (fuel n : Nat) (h : n ≤ fuel) :
    natDigits base fuel n = Nat.digits base n := by
  induction fuel generalizing n with
  | zero =>
    have : n = 0 := by omega
    subst this
    simp [natDigits]
  | succ fuel ih =>
    rw [natDigits]
    by_cases hn : n = 0
    · subst hn; simp
    · rw [if_neg hn, Nat.digits_def' hb (Nat.pos_of_ne_zero hn)]
      have hlt : n / base < n := Nat.div_lt_self (Nat.pos_of_ne_zero hn) hb
      rw [ih _ (by omega)]

/-- The model of `Bytes` computes the big-endian representation of the absolute value. -/
theorem bigBytes_eq (v : Int) : bigBytes v = bigEndian v.natAbs := by
  unfold bigBytes bigEndian
  rw [natDigits_eq 256 (by norm_num) _ _ (le_refl _)]

theorem decimalValue_nines (L : Nat) : decimalValue (List.replicate L 57) = 10 ^ L - 1 := by
  induction L with
  | zero => simp [decimalValue]
  | succ n ih =>
    rw [List.replicate_succ, decimalValue_cons, ih, List.length_replicate, pow_succ]
    have : 0 < 10 ^ n := by positivity
    omega

theorem isDigits_nines (L : Nat) : IsDigits (List.replicate L 57) := by
  intro x hx
  rw [List.eq_of_mem_replicate hx]
  omega


/-- For a PIN of `L ≥ 1` digits whose absolute value is at most `10^L - 1`, `Bytes` does not
panic and returns the length byte followed by the value, zero-extended to `pinWidth L`. -/
theorem PIN_Bytes_ok (L : Nat) (v : Int) (hL : 1 ≤ L) (hv : v.natAbs ≤ 10 ^ L - 1) :
    (bigEndian v.natAbs).length ≤ pinWidth L ∧
    PIN.Bytes { length := L, value := v } =
      some (L :: (List.replicate (pinWidth L - (bigEndian v.natAbs).length) 0 ++
        bigEndian v.natAbs)) := by
  have hmax : bigSetString (List.replicate L 57) = some ((10 ^ L - 1 : Nat) : Int) := by
    rw [bigSetString_digits _ (isDigits_nines L) (by
      intro h
      have := congrArg List.length h
      simp at this
      omega), decimalValue_nines]
  have hw : (bigBytes ((10 ^ L - 1 : Nat) : Int)).length = pinWidth L := by
    rw [bigBytes_eq, Int.natAbs_ofNat, pinWidth]
  have hle : (bigEndian v.natAbs).length ≤ pinWidth L := by
    unfold pinWidth bigEndian
    rw [List.length_reverse, List.length_reverse]
    exact Nat.le_digits_len_le 256 _ _ hv
  refine ⟨hle, ?_⟩
  simp only [PIN.Bytes, hmax]
  rw [hw]
  simp only [bigFillBytes, bigBytes_eq, hle, if_true]

theorem ParsePIN_accepts (s : List Nat) (h : (ParsePIN s).2 = none) :
    s.length ≤ 255 ∧ ∃ v, bigSetString s = some v ∧
      (ParsePIN s).1 = { length := s.length, value := v } := by
  unfold ParsePIN at h ⊢
  by_cases hl : s.length > 255
  · simp [hl] at h
  · simp only [hl, if_false] at h ⊢
    cases hv : bigSetString s with
    | none => rw [hv] at h; simp at h
    | some v =>
      refine ⟨by omega, v, rfl, ?_⟩
      simp only
      rw [Nat.mod_eq_of_lt (by omega)]

theorem ParsePIN_digits (s : List Nat) (hs : IsDigits s) (h1 : 1 ≤ s.length)
    (h2 : s.length ≤ 255) :
    ParsePIN s = ({ length := s.length, value := (decimalValue s : Int) }, none) := by
  have hne : s ≠ [] := by intro h; rw [h] at h1; simp at h1
  unfold ParsePIN
  simp only [show ¬ s.length > 255 by omega, if_false, bigSetString_digits s hs hne]
  rw [Nat.mod_eq_of_lt (by omega)]

/-- C9: the length of the PIN encoding depends only on the digit count.  For every `L` and
every two strings of length `L` that `ParsePIN` accepts, `Bytes` of both PINs returns, and
both encodings have the total length `1 + pinWidth L`, whatever their values. -/
theorem PIN_Bytes_fixed_width (L : Nat) (s t : List Nat) (hs : s.length = L)
    (ht : t.length = L) (has : (ParsePIN s).2 = none) (hat : (ParsePIN t).2 = none) :
    ∃ bs bt, (ParsePIN s).1.Bytes = some bs ∧ (ParsePIN t).1.Bytes = some bt ∧
      bs.length = 1 + pinWidth L ∧ bt.length = 1 + pinWidth L := by
  have key : ∀ u : List Nat, u.length = L → (ParsePIN u).2 = none →
      ∃ bu, (ParsePIN u).1.Bytes = some bu ∧ bu.length = 1 + pinWidth L := by
    intro u hu hacc
    obtain ⟨_, v, hv, hp⟩ := ParsePIN_accepts u hacc
    obtain ⟨r, hr, hne, hshape, habs⟩ := bigSetString_some u v hv
    have hrpos : 1 ≤ r.length := List.length_pos.2 hne
    have hrl : r.length ≤ L := by
      rcases hshape with e | e | e <;> (rw [e] at hu; try rw [List.length_cons] at hu) <;> omega
    have hlt := decimalValue_lt r hr
    have hpow : 10 ^ r.length ≤ 10 ^ L := Nat.pow_le_pow_right (by norm_num) hrl
    obtain ⟨hle, hb⟩ := PIN_Bytes_ok L v (by omega) (by omega)
    rw [hp, hu, hb]
    refine ⟨_, rfl, ?_⟩
    simp only [List.length_cons, List.length_append, List.length_replicate]
    omega
  obtain ⟨bs, h1, h2⟩ := key s hs has
  obtain ⟨bt, h3, h4⟩ := key t ht hat
  exact ⟨bs, bt, h1, h3, h2, h4⟩

/-- C9, at the PINs `12345678` and `00000000` of length 8. -/
theorem PIN_Bytes_fixed_width_witness :
    ∃ bs bt, (ParsePIN (ascii "12345678")).1.Bytes = some bs ∧
      (ParsePIN (ascii "00000000")).1.Bytes = some bt ∧
      bs.length = 1 + pinWidth 8 ∧ bt.length = 1 + pinWidth 8 :=
  PIN_Bytes_fixed_width 8 (ascii "12345678") (ascii "00000000") (by decide) (by decide)
    (by decide) (by decide)


theorem bigString_natCast (n : Nat) :
    bigString (n : Int) =
      if n = 0 then [48] else ((Nat.digits 10 n).map fun d => d + 48).reverse := by
  unfold bigString
  have h1 : ¬ ((n : Int) < 0) := by omega
  simp only [h1, if_false, Int.natAbs_ofNat, natDigits_eq 10 (by norm_num) n n (le_refl _)]
  by_cases hn : n = 0
  · simp [hn]
  · have : ¬ ((n : Int) = 0) := by omega
    simp [hn, this]

/-- The decimal text of the value of a digit string without a leading zero is that string. -/
theorem bigString_decimalValue (ch : Nat) (r : List Nat) (hs : IsDigits (ch :: r))
    (hch : ch ≠ 48) : bigString (decimalValue (ch :: r) : Int) = ch :: r := by
  have hc := isDigits_head hs
  have hpos : decimalValue (ch :: r) ≠ 0 := by
    rw [decimalValue_cons]
    have : 0 < 10 ^ r.length * (ch - 48) := Nat.mul_pos (by positivity) (by omega)
    omega
  have hdig : Nat.digits 10 (decimalValue (ch :: r)) = (ch :: r).reverse.map fun c => c - 48 := by
    unfold decimalValue
    apply Nat.digits_ofDigits 10 (by norm_num)
    · intro x hx
      obtain ⟨y, hy, rfl⟩ := List.mem_map.1 hx
      have := hs y (List.mem_reverse.1 hy)
      omega
    · intro hne
      simp only [List.reverse_cons, List.map_append, List.map_singleton]
      rw [List.getLast_append_singleton]
      omega
  rw [bigString_natCast, if_neg hpos, hdig, List.map_map, ← List.map_reverse, List.reverse_reverse]
  have : ∀ x ∈ ch :: r, ((fun d => d + 48) ∘ fun c => c - 48) x = id x := by
    intro x hx
    have := hs x hx
    simp only [Function.comp, id]
    omega
  rw [List.map_congr_left this, List.map_id]

/-- Padding the decimal text of the value back to the length of the digit string restores
the string, leading zeros included. -/
theorem pad_bigString_decimalValue (s : List Nat) (hs : IsDigits s) (hne : s ≠ []) :
    List.replicate (s.length - (bigString (decimalValue s : Int)).length) 48 ++
      bigString (decimalValue s : Int) = s := by
  induction s with
  | nil => exact absurd rfl hne
  | cons ch r ih =>
    by_cases hch : ch = 48
    · subst hch
      have hv : decimalValue (48 :: r) = decimalValue r := by rw [decimalValue_cons]; simp
      rw [hv]
      by_cases hr : r = []
      · subst hr
        simp [decimalValue, bigString]
      · have ih' := ih (isDigits_tail hs) hr
        have hlen := congrArg List.length ih'
        simp only [List.length_append, List.length_replicate] at hlen
        have hsub : (48 :: r).length - (bigString (decimalValue r : Int)).length =
            (r.length - (bigString (decimalValue r : Int)).length) + 1 := by
          rw [List.length_cons]; omega
        rw [hsub, List.replicate_succ, List.cons_append, ih']
    · rw [bigString_decimalValue ch r hs hch]
      simp

/-- C4 (amended): for every string `s` of `0`-`9` characters with `1 ≤ len(s) ≤ 255`,
`ParsePIN(s)` succeeds and `String()` of the resulting PIN equals `s`, leading zeros
preserved. -/
theorem ParsePIN_String_roundtrip (s : List Nat) (hs : IsDigits s) (h1 : 1 ≤ s.length)
    (h2 : s.length ≤ 255) :
    (ParsePIN s).2 = none ∧ (ParsePIN s).1.String = s := by
  have hne : s ≠ [] := by intro h; rw [h] at h1; simp at h1
  rw [ParsePIN_digits s hs h1 h2]
  exact ⟨rfl, pad_bigString_decimalValue s hs hne⟩

/-- C4 (amended), at the zero-padded PIN `00001234`. -/
theorem ParsePIN_String_roundtrip_witness :
    (ParsePIN (ascii "00001234")).2 = none ∧
      (ParsePIN (ascii "00001234")).1.String = ascii "00001234" :=
  ParsePIN_String_roundtrip (ascii "00001234") (by decide) (by decide) (by decide)

/-- C4 as stated fails at the empty string: it has length at most 255 and no character
outside `0`-`9`, and `ParsePIN` rejects it. -/
theorem ParsePIN_empty_rejected :
    ([] : List Nat).length ≤ 255 ∧ IsDigits [] ∧
      ParsePIN [] = (PIN.zero, some "invalid PIN") := by
  decide


/-- C5, at its failing input: `ParsePIN` accepts `+123`, `-123` and `0123`, three different
strings, and `Bytes` of the three PINs is the same `04 00 7b`. -/
theorem PIN_Bytes_sign_collision :
    (ParsePIN (ascii "+123")).2 = none ∧ (ParsePIN (ascii "-123")).2 = none ∧
    (ParsePIN (ascii "0123")).2 = none ∧
    (ParsePIN (ascii "+123")).1.Bytes = some [4, 0, 0x7b] ∧
    (ParsePIN (ascii "-123")).1.Bytes = some [4, 0, 0x7b] ∧
    (ParsePIN (ascii "0123")).1.Bytes = some [4, 0, 0x7b] ∧
    ascii "+123" ≠ ascii "-123" ∧ ascii "+123" ≠ ascii "0123" ∧ ascii "-123" ≠ ascii "0123" := by
  decide

/-- C6, at its failing input: `-123` and `+123` contain a sign character, and `ParsePIN`
returns a PIN of length 4 with no error for both. -/
theorem ParsePIN_accepts_sign :
    ¬ IsDigits (ascii "-123") ∧ (ascii "-123").length ≤ 255 ∧
    ParsePIN (ascii "-123") = ({ length := 4, value := -123 }, none) ∧
    ¬ IsDigits (ascii "+123") ∧
    ParsePIN (ascii "+123") = ({ length := 4, value := 123 }, none) := by
  decide

theorem ofDigits_replicate_zero (b k : Nat) : Nat.ofDigits b (List.replicate k 0) = 0 := by
  induction k with
  | zero => rfl
  | succ k ih => rw [List.replicate_succ, Nat.ofDigits_cons, ih]; simp

/-- For digit strings the encoding is lossless: two accepted digit strings with the same
`Bytes` are equal. -/
theorem PIN_Bytes_injective_on_digits (s t : List Nat) (hs : IsDigits s) (ht : IsDigits t)
    (hs1 : 1 ≤ s.length) (hs2 : s.length ≤ 255) (ht1 : 1 ≤ t.length) (ht2 : t.length ≤ 255)
    (h : (ParsePIN s).1.Bytes = (ParsePIN t).1.Bytes) : s = t := by
  have hvs := decimalValue_lt s hs
  have hvt := decimalValue_lt t ht
  obtain ⟨ls, bs⟩ := PIN_Bytes_ok s.length (decimalValue s : Int) hs1
    (by rw [Int.natAbs_ofNat]; omega)
  obtain ⟨lt, bt⟩ := PIN_Bytes_ok t.length (decimalValue t : Int) ht1
    (by rw [Int.natAbs_ofNat]; omega)
  rw [ParsePIN_digits s hs hs1 hs2, ParsePIN_digits t ht ht1 ht2] at h
  simp only at h
  rw [bs, bt] at h
  have h' := Option.some.inj h
  rw [List.cons.injEq] at h'
  obtain ⟨hlen, hrest⟩ := h'
  rw [Int.natAbs_ofNat, Int.natAbs_ofNat, hlen] at hrest
  rw [Int.natAbs_ofNat] at ls lt
  rw [hlen] at ls
  -- the zero-extended values agree, hence the values
  have hval : decimalValue s = decimalValue t := by
    have e := congrArg (fun l => Nat.ofDigits 256 l.reverse) hrest
    simp only [List.reverse_append, List.reverse_replicate, Nat.ofDigits_append, bigEndian,
      List.reverse_reverse, Nat.ofDigits_digits, ofDigits_replicate_zero, mul_zero,
      add_zero] at e
    exact e
  -- same length and same value: the padded decimal texts agree
  have hne : s ≠ [] := by intro h; rw [h] at hs1; simp at hs1
  have hnt : t ≠ [] := by intro h; rw [h] at ht1; simp at ht1
  rw [← pad_bigString_decimalValue s hs hne, ← pad_bigString_decimalValue t ht hnt, hval, hlen]


/-- C7: for every string `s`, `ParsePIN(s)` fails with `invalid PIN: too long` if and only
if `len(s) > 255`, whatever the characters of `s`; in that case the returned PIN is the zero
value; and every digit string of length exactly 255 is accepted. -/
theorem ParsePIN_too_long (s : List Nat) :
    ((ParsePIN s).2 = some "invalid PIN: too long" ↔ 255 < s.length) ∧
    (255 < s.length → (ParsePIN s).1 = PIN.zero) ∧
    (IsDigits s → s.length = 255 → (ParsePIN s).2 = none) := by
  refine ⟨⟨?_, ?_⟩, ?_, ?_⟩
  · intro h
    by_contra hl
    unfold ParsePIN at h
    simp only [show ¬ s.length > 255 from hl, if_false] at h
    cases hv : bigSetString s with
    | none =>
      rw [hv] at h
      exact absurd (Option.some.inj h) (by decide)
    | some v => rw [hv] at h; cases h
  · intro hl
    unfold ParsePIN
    simp only [show s.length > 255 from hl, if_true]
  · intro hl
    unfold ParsePIN
    simp only [show s.length > 255 from hl, if_true]
  · intro hs hl
    rw [ParsePIN_digits s hs (by omega) (by omega)]

/-- C7, at 256 letters `a` (too long, although no digit) and at 255 digits `9` (accepted). -/
theorem ParsePIN_too_long_witness :
    (ParsePIN (List.replicate 256 97)).2 = some "invalid PIN: too long" ∧
    (ParsePIN (List.replicate 256 97)).1 = PIN.zero ∧
    (ParsePIN (List.replicate 255 57)).2 = none :=
  ⟨(ParsePIN_too_long (List.replicate 256 97)).1.2 (by rw [List.length_replicate]; decide),
    (ParsePIN_too_long (List.replicate 256 97)).2.1 (by rw [List.length_replicate]; decide),
    (ParsePIN_too_long (List.replicate 255 57)).2.2 (isDigits_nines 255)
      (List.length_replicate 255 57)⟩

/-- C8: for every digit string `s` of length `L` with `1 ≤ L ≤ 255`, `ParsePIN(s)` succeeds
and `Bytes()` is the byte `L` followed by the big-endian representation of the decimal value
of `s`, left-padded with zero bytes to `pinWidth L`, the number of bytes of the big-endian
representation of `10^L - 1`.  That width holds the value of every digit string of length
`L`, and no smaller width does: the string of `L` nines needs all of it. -/
theorem PIN_Bytes_encoding (s : List Nat) (hs : IsDigits s) (h1 : 1 ≤ s.length)
    (h2 : s.length ≤ 255) :
    (ParsePIN s).2 = none ∧
    (bigEndian (decimalValue s)).length ≤ pinWidth s.length ∧
    (ParsePIN s).1.Bytes =
      some (s.length :: (List.replicate (pinWidth s.length - (bigEndian (decimalValue s)).length) 0
        ++ bigEndian (decimalValue s))) ∧
    (∀ t, IsDigits t → t.length = s.length →
      (bigEndian (decimalValue t)).length ≤ pinWidth s.length) ∧
    (∃ t, IsDigits t ∧ t.length = s.length ∧
      (bigEndian (decimalValue t)).length = pinWidth s.length) := by
  have hfit : ∀ t, IsDigits t → t.length = s.length →
      (bigEndian (decimalValue t)).length ≤ pinWidth s.length := by
    intro t ht hl
    have hlt := decimalValue_lt t ht
    rw [hl] at hlt
    unfold pinWidth bigEndian
    rw [List.length_reverse, List.length_reverse]
    exact Nat.le_digits_len_le 256 _ _ (by omega)
  have hv := decimalValue_lt s hs
  obtain ⟨hle, hb⟩ := PIN_Bytes_ok s.length (decimalValue s : Int) h1
    (by rw [Int.natAbs_ofNat]; omega)
  rw [Int.natAbs_ofNat] at hle hb
  refine ⟨?_, hle, ?_, hfit, ?_⟩
  · rw [ParsePIN_digits s hs h1 h2]
  · rw [ParsePIN_digits s hs h1 h2]
    exact hb
  · exact ⟨List.replicate s.length 57, isDigits_nines _, List.length_replicate _ _, by
      rw [decimalValue_nines, pinWidth]⟩

/-- C8, at the PIN `00001234`: length byte 8, then 1234 on the four bytes that 99999999
needs. -/
theorem PIN_Bytes_encoding_witness :
    (ParsePIN (ascii "00001234")).2 = none ∧
    (bigEndian (decimalValue (ascii "00001234"))).length ≤ pinWidth (ascii "00001234").length ∧
    (ParsePIN (ascii "00001234")).1.Bytes =
      some ((ascii "00001234").length ::
        (List.replicate (pinWidth (ascii "00001234").length -
          (bigEndian (decimalValue (ascii "00001234"))).length) 0
        ++ bigEndian (decimalValue (ascii "00001234")))) ∧
    (∀ t, IsDigits t → t.length = (ascii "00001234").length →
      (bigEndian (decimalValue t)).length ≤ pinWidth (ascii "00001234").length) ∧
    (∃ t, IsDigits t ∧ t.length = (ascii "00001234").length ∧
      (bigEndian (decimalValue t)).length = pinWidth (ascii "00001234").length) :=
  PIN_Bytes_encoding (ascii "00001234") (by decide) (by decide) (by decide)

/-- C10: `ParsePIN` accepts `1234` and its `Bytes()` are `04 04 d2`; it accepts `00001234`
and its `Bytes()` are `08 00 00 04 d2`. -/
theorem ParsePIN_Bytes_scenario :
    (ParsePIN (ascii "1234")).2 = none ∧
    (ParsePIN (ascii "1234")).1.Bytes = some [0x04, 0x04, 0xd2] ∧
    (ParsePIN (ascii "00001234")).2 = none ∧
    (ParsePIN (ascii "00001234")).1.Bytes = some [0x08, 0x00, 0x00, 0x04, 0xd2] := by
  decide

/-- Apart from one leading sign, every byte outside `0`-`9`, and the absence of any digit,
makes `ParsePIN` fail with `invalid PIN`: a string of at most 255 bytes that is neither a
non-empty digit string nor one sign followed by such a string is rejected with the zero PIN. -/
theorem ParsePIN_rejects_non_numeral (s : List Nat) (hlen : s.length ≤ 255)
    (h : ∀ r, IsDigits r → r ≠ [] → s ≠ r ∧ s ≠ 43 :: r ∧ s ≠ 45 :: r) :
    ParsePIN s = (PIN.zero, some "invalid PIN") := by
  unfold ParsePIN
  simp only [show ¬ s.length > 255 by omega, if_false]
  cases hv : bigSetString s with
  | none => rfl
  | some v =>
    obtain ⟨r, hr, hne, hshape, _⟩ := bigSetString_some s v hv
    obtain ⟨a, b, c⟩ := h r hr hne
    rcases hshape with e | e | e
    · exact absurd e a
    · exact absurd e b
    · exact absurd e c

theorem base128LengthLoop_stable (fuel k : Nat) (i : Int) (len : Nat) (h0 : 0 ≤ i)
    (h1 : i < 128 ^ fuel) :
    Builder.base128LengthLoop (fuel + k) i len = Builder.base128LengthLoop fuel i len := by
  induction fuel generalizing i len with
  | zero =>
    have hi : i = 0 := by norm_num at h1; omega
    subst hi
    cases k with
    | zero => rfl
    | succ k => simp [Builder.base128LengthLoop]
  | succ fuel ih =>
    have e : fuel + 1 + k = (fuel + k) + 1 := by omega
    rw [e, Builder.base128LengthLoop, Builder.base128LengthLoop]
    by_cases hi : i > 0
    · rw [if_pos hi, if_pos hi, Int.shiftRight_eq_div_pow]
      apply ih
      · exact Int.ediv_nonneg h0 (by norm_num)
      · rw [pow_succ] at h1
        have e7 : ((2 ^ 7 : Nat) : Int) = 128 := by norm_num
        rw [e7]
        exact Int.ediv_lt_of_lt_mul (by norm_num) h1
    · rw [if_neg hi, if_neg hi]

/-- Ten passes of the length loop of `addBase128Int` are never used up on a non-negative
`int64`. -/
theorem base128Length_fuel (n : Int) (h0 : 0 ≤ n) (h1 : n < 2 ^ 63) (k : Nat) :
    Builder.base128LengthLoop (10 + k) n 0 = Builder.base128LengthLoop 10 n 0 := by
  apply base128LengthLoop_stable 10 k n 0 h0
  norm_num at h1 ⊢
  omega

/-! ## Theorems: legacy payload codec, registry and KeyData recovery, KDF calibrator -/


theorem uint16Codec_lawful : uint16Codec.Lawful := by
  intro n bs rest h
  simp only [uint16Codec] at h ⊢
  by_cases hn : n < 65536
  · rw [if_pos hn] at h
    have hb := Option.some.inj h
    subst hb
    simp only [List.cons_append, List.nil_append]
    congr 2
    omega
  · rw [if_neg hn] at h
    cases h

theorem MarshalKeys_some (c : LengthCodec) (u p payload : List Nat)
    (h : MarshalKeys c u p = some payload) :
    ∃ a b, c.put u.length = some a ∧ c.put p.length = some b ∧
      payload = a ++ u ++ (b ++ p) := by
  unfold MarshalKeys at h
  cases ha : c.put u.length with
  | none => rw [ha] at h; cases h
  | some a =>
    cases hb : c.put p.length with
    | none => rw [ha, hb] at h; cases h
    | some b =>
      rw [ha, hb] at h
      exact ⟨a, b, rfl, rfl, (Option.some.inj h).symm⟩

/-- Decoding a marshalled pair followed by any bytes `extra`: both fields are read back
whole and `extra` is what remains. -/
theorem UnmarshalV1KeyPayload_marshal (c : LengthCodec) (hc : c.Lawful) (u p payload : List Nat)
    (h : MarshalKeys c u p = some payload) (extra : List Nat) :
    UnmarshalV1KeyPayload c (payload ++ extra) =
      if 0 < extra.length then ([], [], some (.ExcessBytes extra.length)) else (u, p, none) := by
  obtain ⟨a, b, ha, hb, rfl⟩ := MarshalKeys_some c u p payload h
  have h1 : c.get (a ++ u ++ (b ++ p) ++ extra) = some (u.length, u ++ (b ++ (p ++ extra))) := by
    have := hc _ _ (u ++ (b ++ (p ++ extra))) ha
    simpa [List.append_assoc] using this
  have h2 : c.get (b ++ (p ++ extra)) = some (p.length, p ++ extra) := hc _ _ _ hb
  unfold UnmarshalV1KeyPayload
  rw [h1]
  simp only [List.length_append, List.drop_left, List.take_left, h2]
  rw [if_neg (by omega), if_neg (by omega)]

/-- C11: for every valid pair (one whose lengths the prefix can represent, so that
`MarshalKeys` yields a payload), an empty primary key included, `UnmarshalV1KeyPayload` of
`MarshalKeys(unlockKey, primaryKey)` succeeds and returns exactly the two keys. -/
theorem UnmarshalV1KeyPayload_MarshalKeys (c : LengthCodec) (hc : c.Lawful)
    (unlockKey primaryKey payload : List Nat)
    (h : MarshalKeys c unlockKey primaryKey = some payload) :
    UnmarshalV1KeyPayload c payload = (unlockKey, primaryKey, none) := by
  have := UnmarshalV1KeyPayload_marshal c hc unlockKey primaryKey payload h []
  simpa using this

/-- C11, at a three-byte unlock key with an empty primary key, under the 2-byte prefix. -/
theorem UnmarshalV1KeyPayload_MarshalKeys_witness :
    UnmarshalV1KeyPayload uint16Codec [0, 3, 7, 8, 9, 0, 0] = ([7, 8, 9], [], none) :=
  UnmarshalV1KeyPayload_MarshalKeys uint16Codec uint16Codec_lawful [7, 8, 9] []
    [0, 3, 7, 8, 9, 0, 0] (by decide)

/-- C12: a buffer that holds fewer bytes than a length prefix in it declares, whether the
prefix of the unlock key or, after a complete unlock key, the prefix of the primary key,
makes `UnmarshalV1KeyPayload` fail with the end-of-input error `EOF` and return nil for
both keys: no partly filled key is returned. -/
theorem UnmarshalV1KeyPayload_truncated (c : LengthCodec) (data : List Nat) (n : Nat)
    (r1 : List Nat) (hget : c.get data = some (n, r1))
    (hshort : r1.length < n ∨
      ∃ m r2, c.get (r1.drop n) = some (m, r2) ∧ r2.length < m) :
    UnmarshalV1KeyPayload c data = ([], [], some LegacyError.Truncated) ∧
      LegacyError.Truncated.Error = "EOF" := by
  refine ⟨?_, rfl⟩
  unfold UnmarshalV1KeyPayload
  rw [hget]
  simp only
  by_cases h1 : r1.length < n
  · rw [if_pos h1]
  · rw [if_neg h1]
    rcases hshort with h | ⟨m, r2, hg2, h2⟩
    · exact absurd h h1
    · rw [hg2]
      simp only
      rw [if_pos h2]

/-- C12, at the buffer of `TestLegacyKeyPayloadUnmarshalInvalid1`: 66 bytes `ff`, whose
first prefix declares 65535 bytes where 64 follow. -/
theorem UnmarshalV1KeyPayload_truncated_witness :
    UnmarshalV1KeyPayload uint16Codec (List.replicate 66 255) =
        ([], [], some LegacyError.Truncated) ∧
      LegacyError.Truncated.Error = "EOF" :=
  UnmarshalV1KeyPayload_truncated uint16Codec (List.replicate 66 255) 65535
    (List.replicate 64 255) (by decide) (Or.inl (by decide))

/-- C13: for every valid legacy payload `p = MarshalKeys(unlockKey, primaryKey)` and every
`n ≥ 1`, `UnmarshalV1KeyPayload` on `p` followed by `n` extra bytes fails with the error
`ExcessBytes n`, whose text is `n excess byte(s)` with the exact count, and returns nil for
both keys; for one extra byte the text is `1 excess byte(s)`. -/
theorem UnmarshalV1KeyPayload_excess (c : LengthCodec) (hc : c.Lawful)
    (unlockKey primaryKey payload extra : List Nat)
    (h : MarshalKeys c unlockKey primaryKey = some payload) (hn : 1 ≤ extra.length) :
    UnmarshalV1KeyPayload c (payload ++ extra) =
        ([], [], some (LegacyError.ExcessBytes extra.length)) ∧
      (LegacyError.ExcessBytes extra.length).Error =
        toString extra.length ++ " excess byte(s)" ∧
      (extra.length = 1 →
        (LegacyError.ExcessBytes extra.length).Error = "1 excess byte(s)") := by
  refine ⟨?_, rfl, ?_⟩
  · rw [UnmarshalV1KeyPayload_marshal c hc unlockKey primaryKey payload h extra,
      if_pos (by omega)]
  · intro h1
    rw [h1]
    decide

/-- C13, at the scenario of `TestLegacyKeyPayloadUnmarshalInvalid2`: two 32-byte zero keys
marshalled under the 2-byte prefix, followed by the one byte `ff`. -/
theorem UnmarshalV1KeyPayload_excess_witness :
    UnmarshalV1KeyPayload uint16Codec
        (([0, 32] ++ List.replicate 32 0 ++ ([0, 32] ++ List.replicate 32 0)) ++ [255]) =
        ([], [], some (LegacyError.ExcessBytes 1)) ∧
      (LegacyError.ExcessBytes 1).Error = toString 1 ++ " excess byte(s)" ∧
      ((1 : Nat) = 1 → (LegacyError.ExcessBytes 1).Error = "1 excess byte(s)") :=
  UnmarshalV1KeyPayload_excess uint16Codec uint16Codec_lawful (List.replicate 32 0)
    (List.replicate 32 0) ([0, 32] ++ List.replicate 32 0 ++ ([0, 32] ++ List.replicate 32 0))
    [255] (by decide) (by decide)


/-- C14: for every KeyData whose authentication mode is None, and for every passphrase and
salt, `RecoverKeysWithPassphrase` fails with the error `cannot recover key with passphrase`
and returns nil for both keys; the outcome is the same in every registry, with every handler
and with every passphrase layer, so no handler is consulted. -/
theorem RecoverKeysWithPassphrase_authModeNone (layer : PassphraseLayer) (c : PayloadCodecs)
    (reg : Registry) (kd : KeyData) (passphrase extraSalt : List Nat)
    (h : kd.authMode = AuthMode.None) :
    kd.RecoverKeysWithPassphrase layer c reg passphrase extraSalt =
        ([], [], some (KeyDataError.NotSupported "cannot recover key with passphrase")) ∧
      (KeyDataError.NotSupported "cannot recover key with passphrase").Error =
        "cannot recover key with passphrase" ∧
      ∀ (layer2 : PassphraseLayer) (c2 : PayloadCodecs) (reg2 : Registry),
        kd.RecoverKeysWithPassphrase layer2 c2 reg2 passphrase extraSalt =
          kd.RecoverKeysWithPassphrase layer c reg passphrase extraSalt := by
  have key : ∀ (l : PassphraseLayer) (c1 : PayloadCodecs) (r : Registry),
      kd.RecoverKeysWithPassphrase l c1 r passphrase extraSalt =
        ([], [], some (KeyDataError.NotSupported "cannot recover key with passphrase")) := by
    intro l c1 r
    unfold KeyData.RecoverKeysWithPassphrase
    rw [if_pos h]
  refine ⟨key layer c reg, rfl, ?_⟩
  intro l2 c2 r2
  rw [key l2 c2 r2, key layer c reg]

/-- C15: `NewKeyData` succeeds for a platform name that has no registered handler, and
`RecoverKeys` on the KeyData it returns fails with the error
`no appropriate platform handler is registered` and returns nil for both keys. -/
theorem RecoverKeys_unregistered (c : PayloadCodecs) (reg : Registry)
    (keyDataVersion generation : Int) (params : KeyParams)
    (h : reg.Lookup params.PlatformName = none) :
    (NewKeyData keyDataVersion generation params).2 = none ∧
      (NewKeyData keyDataVersion generation params).1.RecoverKeys c reg =
        ([], [], some KeyDataError.PlatformNotRegistered) ∧
      KeyDataError.PlatformNotRegistered.Error =
        "no appropriate platform handler is registered" := by
  refine ⟨rfl, ?_, rfl⟩
  unfold KeyData.RecoverKeys KeyData.recover NewKeyData
  simp only [ne_eq, not_true_eq_false, if_false, h]

/-- C16: in every registry state, after `RegisterPlatformKeyDataHandler(name, h)` with `h`
non-nil a lookup of `name` yields `h`, whatever was registered under `name` before; after a
following `RegisterPlatformKeyDataHandler(name, nil)` a lookup of `name` finds nothing; and
the registration under every other name is the same after each of the two calls. -/
theorem RegisterPlatformKeyDataHandler_lookup (reg : Registry) (name : String)
    (h : PlatformKeyDataHandler) :
    (RegisterPlatformKeyDataHandler reg name (some h)).Lookup name = some h ∧
    (RegisterPlatformKeyDataHandler (RegisterPlatformKeyDataHandler reg name (some h)) name
      none).Lookup name = none ∧
    ∀ other : String, other ≠ name →
      (RegisterPlatformKeyDataHandler reg name (some h)).Lookup other = reg.Lookup other ∧
      (RegisterPlatformKeyDataHandler (RegisterPlatformKeyDataHandler reg name (some h)) name
        none).Lookup other = reg.Lookup other := by
  refine ⟨?_, ?_, ?_⟩
  · simp [RegisterPlatformKeyDataHandler, Registry.Lookup]
  · simp [RegisterPlatformKeyDataHandler, Registry.Lookup]
  · intro other ho
    simp [RegisterPlatformKeyDataHandler, Registry.Lookup, ho]

/-- C16, for the name `foo` against the name `mock-legacy` of the tests, on the empty
table. -/
theorem RegisterPlatformKeyDataHandler_lookup_witness :
    (RegisterPlatformKeyDataHandler Registry.empty "mock-legacy" (some plainHandler)).Lookup
        "foo" = Registry.empty.Lookup "foo" ∧
      (RegisterPlatformKeyDataHandler
        (RegisterPlatformKeyDataHandler Registry.empty "mock-legacy" (some plainHandler))
        "mock-legacy" none).Lookup "foo" = Registry.empty.Lookup "foo" :=
  (RegisterPlatformKeyDataHandler_lookup Registry.empty "mock-legacy" plainHandler).2.2 "foo"
    (by decide)

/-- After a handler is registered and then unregistered, recovery of a KeyData of that
platform fails as not registered. -/
theorem RecoverKeys_after_unregister (c : PayloadCodecs) (reg : Registry) (kd : KeyData)
    (h : PlatformKeyDataHandler) (hm : kd.authMode = AuthMode.None) :
    kd.RecoverKeys c
        (RegisterPlatformKeyDataHandler
          (RegisterPlatformKeyDataHandler reg kd.platformName (some h)) kd.platformName none) =
      ([], [], some KeyDataError.PlatformNotRegistered) := by
  unfold KeyData.RecoverKeys KeyData.recover
  simp [hm, RegisterPlatformKeyDataHandler, Registry.Lookup]

/-- C17: for every unlock key and primary key that `MarshalKeys` can marshal, a version-0
KeyData (authentication mode None) under a registered handler that recovers
`MarshalKeys(key, auxKey)` from the handle and the encrypted payload makes `RecoverKeys`
succeed and return exactly `(key, auxKey)`.  The plaintext is decoded by the legacy codec:
the result is that of `UnmarshalV1KeyPayload` and is the same whatever the decoder of the
current format is. -/
theorem RecoverKeys_legacy (legacy : LengthCodec) (hc : legacy.Lawful) (reg : Registry)
    (kd : KeyData) (handler : PlatformKeyDataHandler) (key auxKey payload : List Nat)
    (hv : kd.version = 0) (hm : kd.authMode = AuthMode.None)
    (hreg : reg.Lookup kd.platformName = some handler)
    (hpay : MarshalKeys legacy key auxKey = some payload)
    (hrec : handler.Recover kd.handle kd.encryptedPayload [] = HandlerResult.plaintext payload) :
    UnmarshalV1KeyPayload legacy payload = (key, auxKey, none) ∧
      ∀ current : List Nat → Except String (List Nat × List Nat),
        kd.RecoverKeys { legacy := legacy, current := current } reg = (key, auxKey, none) := by
  have hdec := UnmarshalV1KeyPayload_marshal legacy hc key auxKey payload hpay []
  simp only [List.append_nil, List.length_nil, lt_self_iff_false, if_false] at hdec
  refine ⟨hdec, ?_⟩
  intro current
  have hd : kd.decodePayload { legacy := legacy, current := current } payload =
      (key, auxKey, none) := by
    unfold KeyData.decodePayload
    rw [if_pos hv]
    simp only [hdec]
  unfold KeyData.RecoverKeys KeyData.recover KeyData.aad
  rw [if_neg (by rw [hm]; exact fun h => h rfl), hreg]
  simp only [hv, if_true, hrec, hd]

/-- C17, at a version-0 KeyData of the pass-through handler registered as `mock-legacy`,
whose payload is the marshalled pair of the keys `07 08 09` and `01 02`. -/
theorem RecoverKeys_legacy_witness :
    UnmarshalV1KeyPayload uint16Codec [0, 3, 7, 8, 9, 0, 2, 1, 2] = ([7, 8, 9], [1, 2], none) ∧
      ∀ current : List Nat → Except String (List Nat × List Nat),
        KeyData.RecoverKeys { legacy := uint16Codec, current := current }
          (RegisterPlatformKeyDataHandler Registry.empty "mock-legacy" (some plainHandler))
          { version := 0, generation := 0, platformName := "mock-legacy", handle := [],
            encryptedPayload := [0, 3, 7, 8, 9, 0, 2, 1, 2], kdfAlg := 0,
            authMode := AuthMode.None, role := "" } = ([7, 8, 9], [1, 2], none) :=
  RecoverKeys_legacy uint16Codec uint16Codec_lawful
    (RegisterPlatformKeyDataHandler Registry.empty "mock-legacy" (some plainHandler))
    { version := 0, generation := 0, platformName := "mock-legacy", handle := [],
      encryptedPayload := [0, 3, 7, 8, 9, 0, 2, 1, 2], kdfAlg := 0,
      authMode := AuthMode.None, role := "" }
    plainHandler [7, 8, 9] [1, 2] [0, 3, 7, 8, 9, 0, 2, 1, 2] rfl rfl rfl (by decide) rfl

/-- C14, at the scenario of `TestRecoverKeysWithPassphraseAuthModeNone`: a KeyData made by
`NewKeyData`, the empty passphrase and a nil salt. -/
theorem RecoverKeysWithPassphrase_authModeNone_witness :
    (NewKeyData 0 0 (mockKeyParams "mock-legacy" [] [1, 2, 3])).1.RecoverKeysWithPassphrase
        nullPassphraseLayer legacyCodecs (mockRegistry plainHandler) [] [] =
      ([], [], some (KeyDataError.NotSupported "cannot recover key with passphrase")) :=
  (RecoverKeysWithPassphrase_authModeNone nullPassphraseLayer legacyCodecs
    (mockRegistry plainHandler) (NewKeyData 0 0 (mockKeyParams "mock-legacy" [] [1, 2, 3])).1
    [] [] rfl).1

/-- C15, at the platform name `foo` of `TestRecoverKeysUnrecognizedPlatform`, with only
`mock-legacy` registered. -/
theorem RecoverKeys_unregistered_witness :
    (NewKeyData 0 0 (mockKeyParams "foo" [] [1, 2, 3])).2 = none ∧
      (NewKeyData 0 0 (mockKeyParams "foo" [] [1, 2, 3])).1.RecoverKeys legacyCodecs
          (mockRegistry plainHandler) =
        ([], [], some KeyDataError.PlatformNotRegistered) ∧
      KeyDataError.PlatformNotRegistered.Error =
        "no appropriate platform handler is registered" :=
  RecoverKeys_unregistered legacyCodecs (mockRegistry plainHandler) 0 0
    (mockKeyParams "foo" [] [1, 2, 3]) rfl

/-- C18: when the handler of a KeyData (authentication mode None) reports that the handle
cannot be decoded, whatever else it is given, `RecoverKeys` fails with an `InvalidKeyData`
error, whose text begins `invalid key data: `, and returns nil for both keys.  That error is
of another kind than the platform-not-registered error and than every handler-reported
failure.  For a version-0 KeyData the text after `invalid key data: ` is the handler's
report. -/
theorem RecoverKeys_invalid_handle (c : PayloadCodecs) (reg : Registry) (kd : KeyData)
    (handler : PlatformKeyDataHandler) (detail : String)
    (hm : kd.authMode = AuthMode.None)
    (hreg : reg.Lookup kd.platformName = some handler)
    (hbad : ∀ ciphertext aad, handler.Recover kd.handle ciphertext aad =
      HandlerResult.invalidData detail) :
    (∃ d, kd.RecoverKeys c reg = ([], [], some (KeyDataError.InvalidKeyData d)) ∧
        (KeyDataError.InvalidKeyData d).Error = "invalid key data: " ++ d ∧
        KeyDataError.InvalidKeyData d ≠ KeyDataError.PlatformNotRegistered ∧
        ∀ msg, KeyDataError.InvalidKeyData d ≠ KeyDataError.Handler msg) ∧
      (kd.version = 0 →
        kd.RecoverKeys c reg = ([], [], some (KeyDataError.InvalidKeyData detail))) := by
  have hrk : kd.RecoverKeys c reg =
      match kd.aad with
      | .error e => ([], [], some (KeyDataError.InvalidKeyData e))
      | .ok _ => ([], [], some (KeyDataError.InvalidKeyData detail)) := by
    unfold KeyData.RecoverKeys KeyData.recover
    rw [if_neg (by rw [hm]; exact fun h => h rfl), hreg]
    cases kd.aad with
    | error e => rfl
    | ok aad => simp only [hbad]
  constructor
  · cases ha : kd.aad with
    | error e =>
      rw [ha] at hrk
      refine ⟨e, hrk, rfl, ?_, ?_⟩
      · intro h; cases h
      · intro msg h; cases h
    | ok aad =>
      rw [ha] at hrk
      refine ⟨detail, hrk, rfl, ?_, ?_⟩
      · intro h; cases h
      · intro msg h; cases h
  · intro hv
    have ha : kd.aad = .ok [] := by unfold KeyData.aad; rw [if_pos hv]
    rw [ha] at hrk
    exact hrk

/-- C18, at the scenario of `TestRecoverKeysInvalidData`: a version-0 KeyData whose handle
is the JSON string `""`, under a handler that cannot decode it. -/
theorem RecoverKeys_invalid_handle_witness :
    (NewKeyData 0 0 (mockKeyParams "mock-legacy" (ascii "\"\"") [1, 2, 3])).1.RecoverKeys
        legacyCodecs (mockRegistry (undecodableHandler "JSON decode error")) =
      ([], [], some (KeyDataError.InvalidKeyData "JSON decode error")) :=
  (RecoverKeys_invalid_handle legacyCodecs
    (mockRegistry (undecodableHandler "JSON decode error"))
    (NewKeyData 0 0 (mockKeyParams "mock-legacy" (ascii "\"\"") [1, 2, 3])).1
    (undecodableHandler "JSON decode error") "JSON decode error" rfl rfl
    (fun _ _ => rfl)).2 rfl

theorem KdfParams_hash (benchmark : Nat → hashAlg → Except String Nat) (o : PBKDF2Options)
    (defaultTargetDuration keyLen : Nat) (p : KdfParams)
    (hp : (o.KdfParams benchmark defaultTargetDuration keyLen).params = some p) :
    p.Type_ = "pbkdf2" ∧ p.Memory = 0 ∧ p.CPUs = 0 ∧
      p.Hash = (if o.HashAlg ≠ 0 then o.HashAlg else defaultHashAlg keyLen) := by
  unfold PBKDF2Options.KdfParams at hp
  simp only at hp
  by_cases hf : o.ForceIterations ≠ 0
  · rw [if_pos hf] at hp
    have := Option.some.inj hp
    subst this
    exact ⟨rfl, rfl, rfl, rfl⟩
  · rw [if_neg hf] at hp
    cases hb : benchmark (if o.TargetDuration ≠ 0 then o.TargetDuration else defaultTargetDuration)
        (if o.HashAlg ≠ 0 then o.HashAlg else defaultHashAlg keyLen) with
    | error e => rw [hb] at hp; cases hp
    | ok n =>
      rw [hb] at hp
      have := Option.some.inj hp
      subst this
      exact ⟨rfl, rfl, rfl, rfl⟩

/-- C19: whenever `KdfParams` returns parameters, with no forced `HashAlg` their digest is
SHA-256 for `keyLen < 48`, SHA-384 for `48 ≤ keyLen < 64` and SHA-512 for `keyLen ≥ 64`, and
with a forced `HashAlg` it is the forced digest, for every `keyLen`.  Parameters are
returned whenever the iteration count is forced or the benchmark succeeds. -/
theorem KdfParams_digest (benchmark : Nat → hashAlg → Except String Nat) (o : PBKDF2Options)
    (defaultTargetDuration keyLen : Nat) :
    (∀ p, (o.KdfParams benchmark defaultTargetDuration keyLen).params = some p →
      (o.HashAlg = 0 → keyLen < 48 → p.Hash = SHA256) ∧
      (o.HashAlg = 0 → 48 ≤ keyLen → keyLen < 64 → p.Hash = SHA384) ∧
      (o.HashAlg = 0 → 64 ≤ keyLen → p.Hash = SHA512) ∧
      (o.HashAlg ≠ 0 → p.Hash = o.HashAlg)) ∧
    (o.ForceIterations ≠ 0 →
      ∃ p, (o.KdfParams benchmark defaultTargetDuration keyLen).params = some p) ∧
    ((∀ t h, ∃ n, benchmark t h = .ok n) →
      ∃ p, (o.KdfParams benchmark defaultTargetDuration keyLen).params = some p) := by
  refine ⟨?_, ?_, ?_⟩
  · intro p hp
    have hh := (KdfParams_hash benchmark o defaultTargetDuration keyLen p hp).2.2.2
    unfold defaultHashAlg at hh
    refine ⟨?_, ?_, ?_, ?_⟩
    · intro h0 hk
      rw [hh, if_neg (by rw [h0]; exact fun h => h rfl), if_pos hk]
    · intro h0 hk1 hk2
      rw [hh, if_neg (by rw [h0]; exact fun h => h rfl), if_neg (by omega), if_pos (by omega)]
    · intro h0 hk
      rw [hh, if_neg (by rw [h0]; exact fun h => h rfl), if_neg (by omega), if_neg (by omega)]
    · intro h0
      rw [hh, if_pos h0]
  · intro hf
    unfold PBKDF2Options.KdfParams
    simp only
    rw [if_pos hf]
    exact ⟨_, rfl⟩
  · intro hb
    unfold PBKDF2Options.KdfParams
    simp only
    by_cases hf : o.ForceIterations ≠ 0
    · rw [if_pos hf]
      exact ⟨_, rfl⟩
    · rw [if_neg hf]
      obtain ⟨n, hn⟩ := hb
        (if o.TargetDuration ≠ 0 then o.TargetDuration else defaultTargetDuration)
        (if o.HashAlg ≠ 0 then o.HashAlg else defaultHashAlg keyLen)
      rw [hn]
      exact ⟨_, rfl⟩

/-- C19, at the default options with key length 48 (`TestKDFParamsDefault48`) and at the
forced SHA-512 with key length 32 (`TestKDFParamsCustomHash`), with a benchmark that
returns 1000. -/
theorem KdfParams_digest_witness :
    ((PBKDF2Options.KdfParams (fun _ _ => .ok 1000) ⟨0, 0, 0⟩ 2000 48).params =
        some ⟨"pbkdf2", 1000, SHA384, 0, 0⟩ ∧
      (⟨"pbkdf2", 1000, SHA384, 0, 0⟩ : KdfParams).Hash = SHA384) ∧
    ((PBKDF2Options.KdfParams (fun _ _ => .ok 1000) ⟨0, 0, SHA512⟩ 2000 32).params =
        some ⟨"pbkdf2", 1000, SHA512, 0, 0⟩ ∧
      (⟨"pbkdf2", 1000, SHA512, 0, 0⟩ : KdfParams).Hash = SHA512) :=
  ⟨⟨rfl, ((KdfParams_digest (fun _ _ => .ok 1000) ⟨0, 0, 0⟩ 2000 48).1
      ⟨"pbkdf2", 1000, SHA384, 0, 0⟩ rfl).2.1 rfl (by decide) (by decide)⟩,
   ⟨rfl, ((KdfParams_digest (fun _ _ => .ok 1000) ⟨0, 0, SHA512⟩ 2000 32).1
      ⟨"pbkdf2", 1000, SHA512, 0, 0⟩ rfl).2.2.2 (by decide)⟩⟩

/-- C20: for every PBKDF2Options with `ForceIterations = n > 0`, `KdfParams` returns
parameters with `Time = n` and no error, and makes no call to the benchmark; for `n = 2000`
and `keyLen = 32` (no digest forced, as in `TestKDFParamsForceIterations`) the parameters
are exactly Type `pbkdf2`, Time 2000, Hash SHA-256, Memory 0, CPUs 0. -/
theorem KdfParams_forceIterations (benchmark : Nat → hashAlg → Except String Nat)
    (o : PBKDF2Options) (defaultTargetDuration keyLen : Nat) (hn : 0 < o.ForceIterations) :
    (∃ p, (o.KdfParams benchmark defaultTargetDuration keyLen).params = some p ∧
        p.Time = o.ForceIterations) ∧
      (o.KdfParams benchmark defaultTargetDuration keyLen).err = none ∧
      (o.KdfParams benchmark defaultTargetDuration keyLen).benchmarkCalls = [] ∧
      (o.ForceIterations = 2000 → o.HashAlg = 0 →
        (o.KdfParams benchmark defaultTargetDuration 32).params =
          some { Type_ := "pbkdf2", Time := 2000, Hash := SHA256, Memory := 0, CPUs := 0 }) := by
  have hf : o.ForceIterations ≠ 0 := by omega
  unfold PBKDF2Options.KdfParams
  simp only
  rw [if_pos hf, if_pos hf]
  refine ⟨⟨_, rfl, rfl⟩, rfl, rfl, ?_⟩
  intro h2000 h0
  rw [h2000, if_neg (by rw [h0]; exact fun h => h rfl)]
  rfl

/-- C20, at the options of `TestKDFParamsForceIterations`, with a benchmark that would
fail if it were called. -/
theorem KdfParams_forceIterations_witness :
    (PBKDF2Options.KdfParams (fun _ _ => .error "benchmark called") ⟨0, 2000, 0⟩ 2000 32).params =
        some { Type_ := "pbkdf2", Time := 2000, Hash := SHA256, Memory := 0, CPUs := 0 } ∧
      (PBKDF2Options.KdfParams (fun _ _ => .error "benchmark called") ⟨0, 2000, 0⟩ 2000
        32).benchmarkCalls = [] :=
  ⟨(KdfParams_forceIterations (fun _ _ => .error "benchmark called") ⟨0, 2000, 0⟩ 2000 32
      (by decide)).2.2.2 rfl rfl,
    (KdfParams_forceIterations (fun _ _ => .error "benchmark called") ⟨0, 2000, 0⟩ 2000 32
      (by decide)).2.2.1⟩

/-- The parameters that `KdfParams` returns pass the checks of the tests' oracle
`checkParams`, provided the time cost is not zero when it comes from the benchmark. -/
theorem KdfParams_checkParams (benchmark : Nat → hashAlg → Except String Nat)
    (o : PBKDF2Options) (defaultTargetDuration keyLen : Nat) (p : KdfParams)
    (hp : (o.KdfParams benchmark defaultTargetDuration keyLen).params = some p)
    (ht : o.ForceIterations ≠ 0 ∨ p.Time ≠ 0) :
    checkParams o keyLen p = true := by
  obtain ⟨h1, h2, h3, h4⟩ := KdfParams_hash benchmark o defaultTargetDuration keyLen p hp
  have htime : o.ForceIterations ≠ 0 → p.Time = o.ForceIterations := by
    intro hf
    unfold PBKDF2Options.KdfParams at hp
    simp only at hp
    rw [if_pos hf] at hp
    have := Option.some.inj hp
    subst this
    rfl
  have hexp : (if keyLen ≥ 48 ∧ keyLen < 64 then SHA384 else if keyLen ≥ 64 then SHA512
      else SHA256) = defaultHashAlg keyLen := by
    unfold defaultHashAlg
    split_ifs <;> first | rfl | omega
  unfold checkParams
  simp only [hexp, h1, h2, h3, h4, decide_True, Bool.and_true, Bool.true_and]
  by_cases hf : o.ForceIterations ≠ 0
  · rw [if_pos hf]; simp [htime hf]
  · rw [if_neg hf]
    rcases ht with h | h
    · exact absurd h hf
    · simp [h]

/-- Under the 2-byte prefix the valid pairs are those whose keys are shorter than 65536
bytes: `MarshalKeys` yields a payload for each of them. -/
theorem MarshalKeys_uint16Codec (unlockKey primaryKey : List Nat)
    (hu : unlockKey.length < 65536) (hp : primaryKey.length < 65536) :
    ∃ payload, MarshalKeys uint16Codec unlockKey primaryKey = some payload := by
  unfold MarshalKeys uint16Codec
  simp only [hu, hp, if_true]
  exact ⟨_, rfl⟩

/-! ## Theorems: the AAD bytes, the JSON names of `hashAlg`, the KDF calibrator, `NewProtectedKey` -/

theorem signedLength_small (g : Int) (h0 : 0 ≤ g) (h1 : g ≤ 127) :
    Builder.signedLength g = 1 ∧ Builder.signedBytes g 1 = [g.toNat] := by
  constructor
  · unfold Builder.signedLength
    rw [show (8 : Nat) = 7 + 1 from rfl, Builder.signedLengthLoop, if_neg (by omega)]
  · simp only [Builder.signedBytes, pow_zero, Int.ediv_one]
    rw [Int.emod_eq_of_lt h0 (by omega)]

/-- C26: the AAD encoding is fixed byte for byte.  For every generation `g` with
`0 ≤ g ≤ 127`, serializing `additionalData` with Version 1, Generation `g`, KDFAlg SHA256 and
AuthMode 0 on a fresh builder yields exactly the 26 bytes
`30 18 02 01 01 02 01 g 30 0d 06 09 60 86 48 01 65 03 04 02 01 05 00 0a 01 00`. -/
theorem aadBytes_fixed (g : Int) (h0 : 0 ≤ g) (h1 : g ≤ 127) :
    additionalData.aadBytes { Version := 1, Generation := g, KDFAlg := SHA256, AuthMode := 0 } =
      .ok [0x30, 0x18, 0x02, 0x01, 0x01, 0x02, 0x01, g.toNat, 0x30, 0x0d, 0x06, 0x09, 0x60,
        0x86, 0x48, 0x01, 0x65, 0x03, 0x04, 0x02, 0x01, 0x05, 0x00, 0x0a, 0x01, 0x00] ∧
    g.toNat < 128 := by
  refine ⟨?_, by omega⟩
  have hg : IsInt64 g := by unfold IsInt64; constructor <;> omega
  unfold additionalData.aadBytes
  rw [additionalData_MarshalASN1_ok _ Builder.new rfl (show hashAlg.Supported SHA256 by decide)
    (show IsInt64 1 by decide) hg (show IsInt64 0 by decide)]
  have hA := derAlgorithmIdentifier_eq SHA256 (by decide)
  simp only [Builder.Bytes, Builder.new, List.nil_append]
  obtain ⟨e1, e2⟩ := signedLength_small g h0 h1
  obtain ⟨f1, f2⟩ := signedLength_small 1 (by decide) (by decide)
  obtain ⟨z1, z2⟩ := signedLength_small 0 (by decide) (by decide)
  rw [e1, e2, f1, f2, z1, z2, hA]
  simp [derTLV, derLength, SHA256, SHA1, SHA224]

/-- C26, at generation 1. -/
theorem aadBytes_fixed_witness :
    additionalData.aadBytes { Version := 1, Generation := 1, KDFAlg := SHA256, AuthMode := 0 } =
      .ok [0x30, 0x18, 0x02, 0x01, 0x01, 0x02, 0x01, (1 : Int).toNat, 0x30, 0x0d, 0x06, 0x09,
        0x60, 0x86, 0x48, 0x01, 0x65, 0x03, 0x04, 0x02, 0x01, 0x05, 0x00, 0x0a, 0x01, 0x00] ∧
    (1 : Int).toNat < 128 :=
  aadBytes_fixed 1 (by decide) (by decide)

theorem hashAlg_oid_none (a : hashAlg) (h : ¬ hashAlg.Supported a) : hashAlg.oid a = none := by
  unfold hashAlg.Supported at h
  unfold hashAlg.oid
  rw [if_neg (fun e => h (Or.inl e)), if_neg (fun e => h (Or.inr (Or.inl e))),
    if_neg (fun e => h (Or.inr (Or.inr (Or.inl e)))),
    if_neg (fun e => h (Or.inr (Or.inr (Or.inr (Or.inl e))))),
    if_neg (fun e => h (Or.inr (Or.inr (Or.inr (Or.inr e)))))]

/-- For an algorithm without OID `hashAlg.MarshalASN1` leaves the error in the builder. -/
theorem hashAlg_MarshalASN1_unknown (a : hashAlg) (b : Builder) (hb : b.err = none)
    (h : ¬ hashAlg.Supported a) :
    (hashAlg.MarshalASN1 a b).err = some ("unknown hash algorithm: " ++ hashString a) := by
  unfold hashAlg.MarshalASN1 Builder.AddASN1
  rw [hb, hashAlg_oid_none a h]
  simp only [Builder.SEQUENCE, Builder.SetError]
  rw [if_neg (by decide)]

theorem addASN1Signed_err (b : Builder) (tag : Nat) (v : Int) (e : String)
    (hb : b.err = some e) : b.addASN1Signed tag v = b := by
  unfold Builder.addASN1Signed Builder.AddASN1
  rw [hb]

/-- For an algorithm without OID `additionalData.MarshalASN1` leaves the error of
`hashAlg.MarshalASN1` in the builder. -/
theorem additionalData_MarshalASN1_unknown (d : additionalData) (b : Builder)
    (hb : b.err = none) (hV : IsInt64 d.Version) (hG : IsInt64 d.Generation)
    (h : ¬ hashAlg.Supported d.KDFAlg) :
    (d.MarshalASN1 b).err = some ("unknown hash algorithm: " ++ hashString d.KDFAlg) := by
  have hchild : ((hashAlg.MarshalASN1 d.KDFAlg
      ((Builder.AddASN1Int64 { err := none, result := [] } d.Version).AddASN1Int64
        d.Generation)).AddASN1Enum d.AuthMode).err =
      some ("unknown hash algorithm: " ++ hashString d.KDFAlg) := by
    have h1 : (hashAlg.MarshalASN1 d.KDFAlg
        ((Builder.AddASN1Int64 { err := none, result := [] } d.Version).AddASN1Int64
          d.Generation)).err = some ("unknown hash algorithm: " ++ hashString d.KDFAlg) := by
      apply hashAlg_MarshalASN1_unknown _ _ _ h
      simp only [Builder.AddASN1Int64, Builder.INTEGER]
      rw [addASN1Signed_ok _ 2 _ rfl (by decide) (by decide) hV,
        addASN1Signed_ok _ 2 _ rfl (by decide) (by decide) hG]
    unfold Builder.AddASN1Enum
    rw [addASN1Signed_err _ _ _ _ h1, h1]
  unfold additionalData.MarshalASN1 Builder.AddASN1
  rw [hb]
  simp only [Builder.SEQUENCE]
  rw [if_neg (by decide)]
  simp only [hchild]

/-- C30: on a builder without error, `hashAlg.MarshalASN1`, and with it
`additionalData.MarshalASN1`, puts the builder into the error state `unknown hash algorithm`
if and only if the algorithm is not one of SHA1, SHA224, SHA256, SHA384, SHA512, and leaves
it without error otherwise.  `nilHash` is such a value, although `MarshalJSON` accepts it:
no AAD can be built from it. -/
theorem MarshalASN1_unknown_hash_iff (d : additionalData) (b : Builder) (json : JSONStrings)
    (hb : b.err = none) (hV : IsInt64 d.Version) (hG : IsInt64 d.Generation)
    (hA : IsInt64 d.AuthMode) :
    ((hashAlg.MarshalASN1 d.KDFAlg b).err =
        some ("unknown hash algorithm: " ++ hashString d.KDFAlg) ↔
      ¬ hashAlg.Supported d.KDFAlg) ∧
    ((hashAlg.MarshalASN1 d.KDFAlg b).err = none ↔ hashAlg.Supported d.KDFAlg) ∧
    ((d.MarshalASN1 b).err = some ("unknown hash algorithm: " ++ hashString d.KDFAlg) ↔
      ¬ hashAlg.Supported d.KDFAlg) ∧
    ((d.MarshalASN1 b).err = none ↔ hashAlg.Supported d.KDFAlg) ∧
    (¬ hashAlg.Supported d.KDFAlg →
      d.aadBytes = .error ("unknown hash algorithm: " ++ hashString d.KDFAlg)) ∧
    (¬ hashAlg.Supported nilHash ∧ (hashAlg.MarshalJSON json nilHash).2 = none) := by
  have hs1 : hashAlg.Supported d.KDFAlg → (hashAlg.MarshalASN1 d.KDFAlg b).err = none := by
    intro hs; rw [hashAlg_MarshalASN1_ok _ _ hs hb]
  have hs2 : hashAlg.Supported d.KDFAlg → (d.MarshalASN1 b).err = none := by
    intro hs; rw [additionalData_MarshalASN1_ok d b hb hs hV hG hA]
  have hu1 := hashAlg_MarshalASN1_unknown d.KDFAlg b hb
  have hu2 := additionalData_MarshalASN1_unknown d b hb hV hG
  refine ⟨⟨?_, hu1⟩, ⟨?_, hs1⟩, ⟨?_, hu2⟩, ⟨?_, hs2⟩, ?_, ?_⟩
  · intro h hs; rw [hs1 hs] at h; cases h
  · intro h; by_contra hs; rw [hu1 hs] at h; cases h
  · intro h hs; rw [hs2 hs] at h; cases h
  · intro h; by_contra hs; rw [hu2 hs] at h; cases h
  · intro hs
    have := additionalData_MarshalASN1_unknown d Builder.new rfl hV hG hs
    unfold additionalData.aadBytes Builder.Bytes
    rw [this]
  · exact ⟨by decide, rfl⟩

/-- C30, at the AAD of `NewProtectedKey` with `nilHash` in place of SHA256. -/
theorem MarshalASN1_unknown_hash_iff_witness :
    additionalData.aadBytes { Version := 1, Generation := 1, KDFAlg := nilHash, AuthMode := 0 } =
      .error ("unknown hash algorithm: " ++ hashString nilHash) :=
  (MarshalASN1_unknown_hash_iff { Version := 1, Generation := 1, KDFAlg := nilHash, AuthMode := 0 }
    Builder.new plainJSON rfl (by decide) (by decide) (by decide)).2.2.2.2.1 (by decide)

theorem UnmarshalJSON_ok (json : JSONStrings) (a : hashAlg) (b : List Nat) (s : String)
    (h : json.Unmarshal b = .ok s) :
    hashAlg.UnmarshalJSON json a b =
      (if s = "sha1" then SHA1
       else if s = "sha224" then SHA224
       else if s = "sha256" then SHA256
       else if s = "sha384" then SHA384
       else if s = "sha512" then SHA512
       else nilHash, none) := by
  unfold hashAlg.UnmarshalJSON
  rw [h]

theorem MarshalJSON_isJSONValue (json : JSONStrings) (a : hashAlg) (h : hashAlg.IsJSONValue a) :
    (hashAlg.MarshalJSON json a).2 = none ∧
      ∃ name ∈ hashAlgNames, (hashAlg.MarshalJSON json a).1 = json.Marshal name ∧
        (if name = "sha1" then SHA1
         else if name = "sha224" then SHA224
         else if name = "sha256" then SHA256
         else if name = "sha384" then SHA384
         else if name = "sha512" then SHA512
         else nilHash) = a := by
  rcases h with h | h | h | h | h | h <;> subst h
  · exact ⟨rfl, "null", by decide, rfl, by decide⟩
  · exact ⟨rfl, "sha1", by decide, rfl, by decide⟩
  · exact ⟨rfl, "sha224", by decide, rfl, by decide⟩
  · exact ⟨rfl, "sha256", by decide, rfl, by decide⟩
  · exact ⟨rfl, "sha384", by decide, rfl, by decide⟩
  · exact ⟨rfl, "sha512", by decide, rfl, by decide⟩

/-- C27: `hashAlg.UnmarshalJSON` succeeds for every JSON string value (every input that
`json.Unmarshal` decodes to a string `s`).  It stores SHA1, SHA224, SHA256, SHA384 or SHA512
for the names `sha1`, `sha224`, `sha256`, `sha384`, `sha512` and `nilHash` for every other
string; so the stored value is one of these six and `MarshalJSON` marshals it without
error. -/
theorem UnmarshalJSON_string (json : JSONStrings) (a : hashAlg) (b : List Nat) (s : String)
    (h : json.Unmarshal b = .ok s) :
    (hashAlg.UnmarshalJSON json a b).2 = none ∧
    (s = "sha1" → (hashAlg.UnmarshalJSON json a b).1 = SHA1) ∧
    (s = "sha224" → (hashAlg.UnmarshalJSON json a b).1 = SHA224) ∧
    (s = "sha256" → (hashAlg.UnmarshalJSON json a b).1 = SHA256) ∧
    (s = "sha384" → (hashAlg.UnmarshalJSON json a b).1 = SHA384) ∧
    (s = "sha512" → (hashAlg.UnmarshalJSON json a b).1 = SHA512) ∧
    (s ≠ "sha1" → s ≠ "sha224" → s ≠ "sha256" → s ≠ "sha384" → s ≠ "sha512" →
      (hashAlg.UnmarshalJSON json a b).1 = nilHash) ∧
    hashAlg.IsJSONValue (hashAlg.UnmarshalJSON json a b).1 ∧
    (hashAlg.MarshalJSON json (hashAlg.UnmarshalJSON json a b).1).2 = none := by
  rw [UnmarshalJSON_ok json a b s h]
  have hv : hashAlg.IsJSONValue
      (if s = "sha1" then SHA1 else if s = "sha224" then SHA224 else if s = "sha256" then SHA256
       else if s = "sha384" then SHA384 else if s = "sha512" then SHA512 else nilHash) := by
    unfold hashAlg.IsJSONValue
    split_ifs <;> simp
  refine ⟨rfl, ?_, ?_, ?_, ?_, ?_, ?_, hv, (MarshalJSON_isJSONValue json _ hv).1⟩
  · intro e; subst e; rfl
  · intro e; subst e; rfl
  · intro e; subst e; rfl
  · intro e; subst e; rfl
  · intro e; subst e; rfl
  · intro e1 e2 e3 e4 e5
    simp only [e1, e2, e3, e4, e5, if_false]

/-- C27, at the JSON string `"sha3"`, an unrecognised name: the stored value is `nilHash`. -/
theorem UnmarshalJSON_string_witness :
    (hashAlg.UnmarshalJSON plainJSON SHA256 (ascii "\"sha3\"")).2 = none ∧
      (hashAlg.UnmarshalJSON plainJSON SHA256 (ascii "\"sha3\"")).1 = nilHash :=
  ⟨(UnmarshalJSON_string plainJSON SHA256 (ascii "\"sha3\"") "sha3" (by rfl)).1,
    (UnmarshalJSON_string plainJSON SHA256 (ascii "\"sha3\"") "sha3" (by rfl)).2.2.2.2.2.2.1
      (by decide) (by decide) (by decide) (by decide) (by decide)⟩

/-- C29: for each `hashAlg` among `nilHash`, SHA1, SHA224, SHA256, SHA384 and SHA512,
`MarshalJSON` succeeds and, the JSON codec reading back the six names it writes,
`UnmarshalJSON` of the output stores the same value again, on any receiver; `nilHash` is
written as the JSON string `"null"`.  For every other value `MarshalJSON` fails with
`unknown hash algorithm` and returns no bytes. -/
theorem MarshalJSON_roundtrip (json : JSONStrings) (a : hashAlg)
    (hj : ∀ name ∈ hashAlgNames, json.Unmarshal (json.Marshal name) = .ok name) :
    (hashAlg.IsJSONValue a →
      (hashAlg.MarshalJSON json a).2 = none ∧
      ∀ r, hashAlg.UnmarshalJSON json r (hashAlg.MarshalJSON json a).1 = (a, none)) ∧
    (hashAlg.MarshalJSON json nilHash).1 = json.Marshal "null" ∧
    (¬ hashAlg.IsJSONValue a →
      hashAlg.MarshalJSON json a = ([], some ("unknown hash algorithm: " ++ hashString a))) := by
  refine ⟨?_, rfl, ?_⟩
  · intro ha
    obtain ⟨h1, name, hn, h2, h3⟩ := MarshalJSON_isJSONValue json a ha
    refine ⟨h1, ?_⟩
    intro r
    rw [h2, UnmarshalJSON_ok json r _ name (hj name hn), h3]
  · intro ha
    unfold hashAlg.IsJSONValue at ha
    unfold hashAlg.MarshalJSON
    rw [if_neg (fun e => ha (Or.inr (Or.inl e))),
      if_neg (fun e => ha (Or.inr (Or.inr (Or.inl e)))),
      if_neg (fun e => ha (Or.inr (Or.inr (Or.inr (Or.inl e))))),
      if_neg (fun e => ha (Or.inr (Or.inr (Or.inr (Or.inr (Or.inl e)))))),
      if_neg (fun e => ha (Or.inr (Or.inr (Or.inr (Or.inr (Or.inr e)))))),
      if_neg (fun e => ha (Or.inl e))]

theorem plainJSON_names :
    ∀ name ∈ hashAlgNames, plainJSON.Unmarshal (plainJSON.Marshal name) = .ok name := by
  intro name hn
  simp only [hashAlgNames, List.mem_cons, List.mem_singleton, List.not_mem_nil, or_false] at hn
  rcases hn with h | h | h | h | h | h <;> subst h <;> rfl

/-- C29, with the JSON codec `plainJSON`: `nilHash` is written as `"null"` and read back,
SHA256 is read back from `"sha256"`, and MD5 (value 2) is refused. -/
theorem MarshalJSON_roundtrip_witness :
    ((hashAlg.MarshalJSON plainJSON nilHash).2 = none ∧
      ∀ r, hashAlg.UnmarshalJSON plainJSON r (hashAlg.MarshalJSON plainJSON nilHash).1 =
        (nilHash, none)) ∧
    ((hashAlg.MarshalJSON plainJSON SHA256).2 = none ∧
      ∀ r, hashAlg.UnmarshalJSON plainJSON r (hashAlg.MarshalJSON plainJSON SHA256).1 =
        (SHA256, none)) ∧
    hashAlg.MarshalJSON plainJSON 2 = ([], some ("unknown hash algorithm: " ++ hashString 2)) :=
  ⟨(MarshalJSON_roundtrip plainJSON nilHash plainJSON_names).1 (by decide),
    (MarshalJSON_roundtrip plainJSON SHA256 plainJSON_names).1 (by decide),
    (MarshalJSON_roundtrip plainJSON 2 plainJSON_names).2.2 (by decide)⟩

/-- The time cost of the parameters that `KdfParams` returns is the forced iteration count,
or else the count that the benchmark returned for the target duration and the digest in
effect. -/
theorem KdfParams_time (benchmark : Nat → hashAlg → Except String Nat) (o : PBKDF2Options)
    (defaultTargetDuration keyLen : Nat) (p : KdfParams)
    (hp : (o.KdfParams benchmark defaultTargetDuration keyLen).params = some p) :
    (o.ForceIterations ≠ 0 ∧ p.Time = o.ForceIterations) ∨
      (o.ForceIterations = 0 ∧
        benchmark (if o.TargetDuration ≠ 0 then o.TargetDuration else defaultTargetDuration)
          (if o.HashAlg ≠ 0 then o.HashAlg else defaultHashAlg keyLen) = .ok p.Time) := by
  unfold PBKDF2Options.KdfParams at hp
  simp only at hp
  by_cases hf : o.ForceIterations ≠ 0
  · rw [if_pos hf] at hp
    have := Option.some.inj hp
    subst this
    exact Or.inl ⟨hf, rfl⟩
  · rw [if_neg hf] at hp
    cases hb : benchmark (if o.TargetDuration ≠ 0 then o.TargetDuration else defaultTargetDuration)
        (if o.HashAlg ≠ 0 then o.HashAlg else defaultHashAlg keyLen) with
    | error e => rw [hb] at hp; cases hp
    | ok n =>
      rw [hb] at hp
      have := Option.some.inj hp
      subst this
      exact Or.inr ⟨by simpa using hf, rfl⟩

theorem ReadFull_ok (r : List Nat) (n : Nat) (p : List Nat × List Nat)
    (h : ReadFull r n = .ok p) : n ≤ r.length ∧ p = (r.take n, r.drop n) := by
  unfold ReadFull at h
  split_ifs at h with h1 h2
  cases h
  exact ⟨h1, rfl⟩

theorem ReadFull_append (k r : List Nat) : ReadFull (k ++ r) k.length = .ok (k, r) := by
  unfold ReadFull
  rw [if_pos (by simp), List.take_left, List.drop_left]

theorem Result_fail_err {κ : Type} (c e : String) :
    (plainkey.Result.fail c e : plainkey.Result κ).err ≠ none ∧
      (plainkey.Result.fail c e : plainkey.Result κ).protectedKey = none := by
  constructor
  · simp [plainkey.Result.fail]
  · rfl

theorem sealKeyData_cases {κ : Type} (deps : plainkey.Deps κ)
    (protectorKey primaryKey unlockKey payload randBytes : List Nat) (res : plainkey.Result κ)
    (h : plainkey.sealKeyData deps protectorKey primaryKey unlockKey payload randBytes =
      some res) :
    (∃ c e, res = plainkey.Result.fail c e) ∨
    ∃ aadBytes key kd,
      additionalData.aadBytes
        { Version := 1, Generation := deps.KeyDataGeneration, KDFAlg := SHA256,
          AuthMode := AuthMode.None.code } = .ok aadBytes ∧
      plainkey.deriveAESKey deps protectorKey (randBytes.take 32) = some key ∧
      (key.length = 16 ∨ key.length = 24 ∨ key.length = 32) ∧
      deps.secbootNewKeyData
        { Handle :=
            { Version := 1, Salt := randBytes.take 32, Nonce := (randBytes.take 44).drop 32,
              ProtectorKeyID :=
                { Alg := SHA256, Salt := randBytes.drop 44,
                  Digest := deps.hmac SHA256 protectorKey (randBytes.drop 44) } }
          EncryptedPayload := deps.gcmSeal key ((randBytes.take 44).drop 32) payload aadBytes
          PlatformName := deps.platformName
          KDFAlg := SHA256 } = .ok kd ∧
      res = { protectedKey := some kd, primaryKeyOut := primaryKey, unlockKey := unlockKey,
              err := none } := by
  unfold plainkey.sealKeyData at h
  simp only [plainkey.symKeySaltSize, plainkey.nonceSize, Nat.reduceAdd] at h
  split at h
  · exact Or.inl ⟨_, _, (Option.some.inj h).symm⟩
  · rename_i aadBytes hA
    split at h
    · cases h
    · rename_i key hK
      split at h
      · exact Or.inl ⟨_, _, (Option.some.inj h).symm⟩
      · rename_i b hB
        have hb : (key.length = 16 ∨ key.length = 24 ∨ key.length = 32) ∧ b = key := by
          unfold plainkey.aesNewCipher at hB
          split_ifs at hB with hlen
          cases hB
          exact ⟨hlen, rfl⟩
        obtain ⟨hlen, rfl⟩ := hb
        split at h
        · exact Or.inl ⟨_, _, (Option.some.inj h).symm⟩
        · rename_i aead hG
          have : aead = b := by
            unfold plainkey.cipherNewGCM at hG
            cases hG
            rfl
          subst this
          split at h
          · exact Or.inl ⟨_, _, (Option.some.inj h).symm⟩
          · rename_i kd hN
            exact Or.inr ⟨aadBytes, aead, kd, hA, hK, hlen, hN, (Option.some.inj h).symm⟩

theorem NewProtectedKey_cases {κ : Type} (deps : plainkey.Deps κ)
    (rand protectorKey primaryKey : List Nat) (res : plainkey.Result κ)
    (h : plainkey.NewProtectedKey deps rand protectorKey primaryKey = some res) :
    (∃ c e, res = plainkey.Result.fail c e) ∨
    ∃ primaryKey1 rand1 unlockKey payload rand2 aadBytes key kd,
      plainkey.obtainPrimaryKey rand primaryKey = .ok (primaryKey1, rand1) ∧
      deps.MakeDiskUnlockKey rand1 SHA256 primaryKey1 = .ok (unlockKey, payload, rand2) ∧
      76 ≤ rand2.length ∧
      additionalData.aadBytes
        { Version := 1, Generation := deps.KeyDataGeneration, KDFAlg := SHA256,
          AuthMode := AuthMode.None.code } = .ok aadBytes ∧
      plainkey.deriveAESKey deps protectorKey (rand2.take 32) = some key ∧
      (key.length = 16 ∨ key.length = 24 ∨ key.length = 32) ∧
      deps.secbootNewKeyData
        { Handle :=
            { Version := 1, Salt := rand2.take 32, Nonce := (rand2.take 44).drop 32,
              ProtectorKeyID :=
                { Alg := SHA256, Salt := (rand2.take 76).drop 44,
                  Digest := deps.hmac SHA256 protectorKey ((rand2.take 76).drop 44) } }
          EncryptedPayload := deps.gcmSeal key ((rand2.take 44).drop 32) payload aadBytes
          PlatformName := deps.platformName
          KDFAlg := SHA256 } = .ok kd ∧
      res = { protectedKey := some kd, primaryKeyOut := primaryKey1, unlockKey := unlockKey,
              err := none } := by
  unfold plainkey.NewProtectedKey at h
  split at h
  · exact Or.inl ⟨_, _, (Option.some.inj h).symm⟩
  · rename_i primaryKey1 rand1 hP
    split at h
    · exact Or.inl ⟨_, _, (Option.some.inj h).symm⟩
    · rename_i unlockKey payload rand2 hM
      split at h
      · cases h
      · rename_i idSize hS
        have hsz : idSize = 32 := by
          have : hashAlg.Size SHA256 = some 32 := rfl
          rw [this] at hS
          exact (Option.some.inj hS).symm
        subst hsz
        split at h
        · exact Or.inl ⟨_, _, (Option.some.inj h).symm⟩
        · rename_i randBytes rest hR
          obtain ⟨hlen, hpair⟩ := ReadFull_ok _ _ _ hR
          simp only [plainkey.symKeySaltSize, plainkey.nonceSize, Nat.reduceAdd] at hlen hpair
          have hrb : randBytes = rand2.take 76 := (Prod.mk.inj hpair).1
          subst hrb
          rcases sealKeyData_cases deps protectorKey primaryKey1 unlockKey payload _ res h with
            hf | ⟨aadBytes, key, kd, hA, hK, hkl, hN, hres⟩
          · exact Or.inl hf
          · refine Or.inr ⟨primaryKey1, rand1, unlockKey, payload, rand2, aadBytes, key, kd,
              hP, hM, hlen, hA, ?_, hkl, ?_, hres⟩
            · rw [List.take_take] at hK
              exact hK
            · rw [List.take_take, List.take_take] at hN
              exact hN

theorem obtainPrimaryKey_ok (rand primaryKey primaryKey1 rand1 : List Nat)
    (h : plainkey.obtainPrimaryKey rand primaryKey = .ok (primaryKey1, rand1)) :
    (primaryKey ≠ [] → primaryKey1 = primaryKey ∧ rand1 = rand) ∧
    (primaryKey = [] → 32 ≤ rand.length ∧ primaryKey1 = rand.take 32 ∧ rand1 = rand.drop 32) := by
  unfold plainkey.obtainPrimaryKey at h
  constructor
  · intro hne
    rw [if_neg (by rw [List.length_eq_zero]; exact hne)] at h
    cases h
    exact ⟨rfl, rfl⟩
  · intro he
    rw [if_pos (by rw [he]; rfl)] at h
    obtain ⟨hlen, hp⟩ := ReadFull_ok _ _ _ h
    exact ⟨hlen, (Prod.mk.inj hp).1, (Prod.mk.inj hp).2⟩

/-- C23: for every call of `plainkey.NewProtectedKey` that returns without error, the
returned primary key is the supplied one when that is not empty, and when it is empty
`rand` holds at least 32 bytes and the returned primary key is the first 32 bytes read from
`rand`. -/
theorem NewProtectedKey_primaryKey {κ : Type} (deps : plainkey.Deps κ)
    (rand protectorKey primaryKey : List Nat) (res : plainkey.Result κ)
    (h : plainkey.NewProtectedKey deps rand protectorKey primaryKey = some res)
    (he : res.err = none) :
    (primaryKey ≠ [] → res.primaryKeyOut = primaryKey) ∧
    (primaryKey = [] → 32 ≤ rand.length ∧ res.primaryKeyOut = rand.take 32) := by
  rcases NewProtectedKey_cases deps rand protectorKey primaryKey res h with
    ⟨c, e, hf⟩ | ⟨primaryKey1, rand1, unlockKey, payload, rand2, aadBytes, key, kd, hP, _, _, _,
      _, _, _, hres⟩
  · rw [hf] at he
    exact absurd he (Result_fail_err c e).1
  · obtain ⟨h1, h2⟩ := obtainPrimaryKey_ok rand primaryKey primaryKey1 rand1 hP
    rw [hres]
    exact ⟨fun hne => (h1 hne).1, fun hE => ⟨(h2 hE).1, (h2 hE).2.1⟩⟩

/-- C23, with the stand-in collaborators, `rand` yielding the bytes 0 to 139 and no primary
key supplied: the call succeeds and returns the bytes 0 to 31 as the primary key. -/
theorem NewProtectedKey_primaryKey_witness :
    ∃ res, plainkey.NewProtectedKey plainkey.toyDeps (List.range 140) [1, 2, 3] [] = some res ∧
      res.err = none ∧ res.primaryKeyOut = List.range 32 := by
  have hs : (plainkey.NewProtectedKey plainkey.toyDeps (List.range 140) [1, 2, 3] []).isSome =
      true := by
    set_option maxRecDepth 20000 in rfl
  obtain ⟨res, hres⟩ := Option.isSome_iff_exists.mp hs
  have he : res.err = none := by
    have h2 : (plainkey.NewProtectedKey plainkey.toyDeps (List.range 140) [1, 2, 3] []).bind
        (fun r => r.err) = none := by
      set_option maxRecDepth 20000 in rfl
    rw [hres] at h2
    exact h2
  refine ⟨res, hres, he, ?_⟩
  rw [((NewProtectedKey_primaryKey plainkey.toyDeps (List.range 140) [1, 2, 3] [] res hres
    he).2 rfl).2]
  rfl

/-- C24: generating the primary key is the same as supplying it.  For every 32-byte `k`,
byte sequence `r` and protector key, `NewProtectedKey` reading `k` followed by `r` with no
primary key gives the same result (the same key data from the same parameters, primary key,
unlock key and error) as `NewProtectedKey` reading `r` with the primary key `k`. -/
theorem NewProtectedKey_generated_eq_supplied {κ : Type} (deps : plainkey.Deps κ)
    (k r protectorKey : List Nat) (hk : k.length = 32) :
    plainkey.NewProtectedKey deps (k ++ r) protectorKey [] =
      plainkey.NewProtectedKey deps r protectorKey k := by
  have h1 : plainkey.obtainPrimaryKey (k ++ r) [] = .ok (k, r) := by
    unfold plainkey.obtainPrimaryKey
    rw [if_pos List.length_nil, ← hk, ReadFull_append]
  have h2 : plainkey.obtainPrimaryKey r k = .ok (k, r) := by
    unfold plainkey.obtainPrimaryKey
    rw [if_neg (by omega)]
  unfold plainkey.NewProtectedKey
  rw [h1, h2]

/-- C24, with the stand-in collaborators, which hand back the key data parameters: the
primary key is the bytes 0 to 31 and `r` the bytes 0 to 107; both calls succeed. -/
theorem NewProtectedKey_generated_eq_supplied_witness :
    plainkey.NewProtectedKey plainkey.toyDeps (List.range 32 ++ List.range 108) [1, 2, 3] [] =
      plainkey.NewProtectedKey plainkey.toyDeps (List.range 108) [1, 2, 3] (List.range 32) ∧
    ((plainkey.NewProtectedKey plainkey.toyDeps (List.range 108) [1, 2, 3]
      (List.range 32)).bind (fun res => res.protectedKey)).isSome = true :=
  ⟨NewProtectedKey_generated_eq_supplied plainkey.toyDeps (List.range 32) (List.range 108)
    [1, 2, 3] (by rfl), by rfl⟩

/-- C28: for every key data `kd` that `plainkey.NewProtectedKey` produces, `kd` was made by
`secbootNewKeyData` from parameters whose handle has a protector key ID with Alg SHA256, a
32-byte Salt, and as Digest the HMAC-SHA256 keyed with the protector key over that Salt,
which has 32 bytes when the HMAC has the size of its digest algorithm.  So for key data that
keep their parameters (`view`), the protector key ID of `kd` has these properties. -/
theorem NewProtectedKey_protectorKeyID {κ : Type} (deps : plainkey.Deps κ)
    (hh : ∀ key data, some (deps.hmac SHA256 key data).length = hashAlg.Size SHA256)
    (rand protectorKey primaryKey : List Nat) (res : plainkey.Result κ) (kd : κ)
    (h : plainkey.NewProtectedKey deps rand protectorKey primaryKey = some res)
    (hkd : res.protectedKey = some kd) :
    (∃ params, deps.secbootNewKeyData params = .ok kd ∧
      params.Handle.ProtectorKeyID.Alg = SHA256 ∧
      params.Handle.ProtectorKeyID.Salt.length = 32 ∧
      params.Handle.ProtectorKeyID.Digest =
        deps.hmac SHA256 protectorKey params.Handle.ProtectorKeyID.Salt ∧
      params.Handle.ProtectorKeyID.Digest.length = 32) ∧
    ∀ view : κ → plainkey.KeyParams,
      (∀ params kd1, deps.secbootNewKeyData params = .ok kd1 → view kd1 = params) →
      (view kd).Handle.ProtectorKeyID.Alg = SHA256 ∧
      (view kd).Handle.ProtectorKeyID.Salt.length = 32 ∧
      (view kd).Handle.ProtectorKeyID.Digest =
        deps.hmac SHA256 protectorKey (view kd).Handle.ProtectorKeyID.Salt ∧
      (view kd).Handle.ProtectorKeyID.Digest.length = 32 := by
  have hlen : ∀ key data, (deps.hmac SHA256 key data).length = 32 := by
    intro key data
    have h1 := hh key data
    have h2 : hashAlg.Size SHA256 = some 32 := rfl
    rw [h2] at h1
    exact Option.some.inj h1
  rcases NewProtectedKey_cases deps rand protectorKey primaryKey res h with
    ⟨c, e, hf⟩ | ⟨primaryKey1, rand1, unlockKey, payload, rand2, aadBytes, key, kd1, _, _, h76,
      _, _, _, hN, hres⟩
  · rw [hf, (Result_fail_err c e).2] at hkd
    cases hkd
  · rw [hres] at hkd
    have hk : kd1 = kd := Option.some.inj hkd
    subst hk
    have hsalt : ((rand2.take 76).drop 44).length = 32 := by
      rw [List.length_drop, List.length_take]
      omega
    constructor
    · exact ⟨_, hN, rfl, hsalt, rfl, hlen _ _⟩
    · intro view hv
      rw [hv _ _ hN]
      exact ⟨rfl, hsalt, rfl, hlen _ _⟩

/-- C28, with the stand-in collaborators, whose key data are their parameters and whose
HMAC is 32 zero bytes: the protector key ID of the key data made from the bytes 0 to 139 has
Alg SHA256, the bytes 108 to 139 as Salt, and a 32-byte Digest. -/
theorem NewProtectedKey_protectorKeyID_witness :
    ∃ res kd, plainkey.NewProtectedKey plainkey.toyDeps (List.range 140) [1, 2, 3] [] =
        some res ∧ res.protectedKey = some kd ∧
      kd.Handle.ProtectorKeyID.Alg = SHA256 ∧
      kd.Handle.ProtectorKeyID.Salt.length = 32 ∧
      kd.Handle.ProtectorKeyID.Digest =
        plainkey.toyDeps.hmac SHA256 [1, 2, 3] kd.Handle.ProtectorKeyID.Salt ∧
      kd.Handle.ProtectorKeyID.Digest.length = 32 := by
  have hs : ((plainkey.NewProtectedKey plainkey.toyDeps (List.range 140) [1, 2, 3] []).bind
      (fun r => r.protectedKey)).isSome = true := by
    set_option maxRecDepth 20000 in rfl
  obtain ⟨kd, hkd⟩ := Option.isSome_iff_exists.mp hs
  obtain ⟨res, hres, hp⟩ := Option.bind_eq_some.mp hkd
  exact ⟨res, kd, hres, hp,
    (NewProtectedKey_protectorKeyID plainkey.toyDeps (fun _ _ => rfl) (List.range 140)
      [1, 2, 3] [] res kd hres hp).2 id (fun _ _ e => (Except.ok.inj e).symm)⟩

/-- The test vectors of `TestNewProtectedKeyWithAuthorizedParams` (role `foo`) and
`TestNewProtectedKeyWithAuthorizedParamsDifferentRole` (role `bar`), which expect the same
cleartext: the two expected ciphertexts have the length of the cleartext plus a 16-byte tag,
agree on all bytes before the tag, and differ in the tag. -/
theorem hooksCiphertext_roles :
    hooksCiphertextFoo.length = hooksCleartext.length + 16 ∧
    hooksCiphertextBar.length = hooksCleartext.length + 16 ∧
    hooksCiphertextFoo.take hooksCleartext.length =
      hooksCiphertextBar.take hooksCleartext.length ∧
    hooksCiphertextFoo.drop hooksCleartext.length ≠
      hooksCiphertextBar.drop hooksCleartext.length ∧
    hooksCiphertextFoo ≠ hooksCiphertextBar := by
  decide

/-! ## Theorems: `PIN.Bytes` without panic, the results and the stored fields of `NewProtectedKey` -/

theorem ParsePIN_value_bound (s : List Nat) (h : (ParsePIN s).2 = none) :
    1 ≤ s.length ∧ s.length ≤ 255 ∧ (ParsePIN s).1.length = s.length ∧
      (ParsePIN s).1.value.natAbs ≤ 10 ^ s.length - 1 := by
  obtain ⟨h255, v, hv, hp⟩ := ParsePIN_accepts s h
  obtain ⟨r, hr, hne, hshape, habs⟩ := bigSetString_some s v hv
  have hrpos : 1 ≤ r.length := List.length_pos.2 hne
  have hrl : r.length ≤ s.length := by
    rcases hshape with e | e | e <;> rw [e] <;> simp
  have hlt := decimalValue_lt r hr
  have hpow : 10 ^ r.length ≤ 10 ^ s.length := Nat.pow_le_pow_right (by norm_num) hrl
  rw [hp]
  refine ⟨by omega, h255, rfl, ?_⟩
  simp only
  omega

theorem bigSetString_nines (L : Nat) (hL : 1 ≤ L) :
    bigSetString (List.replicate L 57) = some ((10 ^ L - 1 : Nat) : Int) := by
  rw [bigSetString_digits _ (isDigits_nines L) (by
    intro h
    have := congrArg List.length h
    simp at this
    omega), decimalValue_nines]

/-- C31: for every string `s` that `ParsePIN` accepts, `Bytes` of the returned PIN returns
normally.  The string of `length` nines parses, to `10 ^ length - 1`; the bytes of the
value are not more than the bytes of that maximum, so `FillBytes` does not panic; and
`Bytes` returns a result. -/
theorem PIN_Bytes_returns (s : List Nat) (h : (ParsePIN s).2 = none) :
    bigSetString (List.replicate (ParsePIN s).1.length 57) =
      some ((10 ^ s.length - 1 : Nat) : Int) ∧
    (bigBytes (ParsePIN s).1.value).length ≤
      (bigBytes ((10 ^ s.length - 1 : Nat) : Int)).length ∧
    (bigFillBytes (ParsePIN s).1.value
      (bigBytes ((10 ^ s.length - 1 : Nat) : Int)).length).isSome = true ∧
    ∃ bs, (ParsePIN s).1.Bytes = some bs := by
  obtain ⟨h1, _, hlen, hval⟩ := ParsePIN_value_bound s h
  obtain ⟨hle, hb⟩ := PIN_Bytes_ok s.length (ParsePIN s).1.value h1 hval
  have hw : (bigBytes ((10 ^ s.length - 1 : Nat) : Int)).length = pinWidth s.length := by
    rw [bigBytes_eq, Int.natAbs_ofNat, pinWidth]
  have hfit : (bigBytes (ParsePIN s).1.value).length ≤
      (bigBytes ((10 ^ s.length - 1 : Nat) : Int)).length := by
    rw [hw, bigBytes_eq]
    exact hle
  refine ⟨by rw [hlen]; exact bigSetString_nines s.length h1, hfit, ?_, ?_⟩
  · unfold bigFillBytes
    rw [if_pos hfit]
    rfl
  · have hp : (ParsePIN s).1 = { length := s.length, value := (ParsePIN s).1.value } := by
      rw [← hlen]
    rw [hp, hb]
    exact ⟨_, rfl⟩

/-- C31, at the strings `0000` and `-999`, both accepted. -/
theorem PIN_Bytes_returns_witness :
    (∃ bs, (ParsePIN (ascii "0000")).1.Bytes = some bs) ∧
      ∃ bs, (ParsePIN (ascii "-999")).1.Bytes = some bs :=
  ⟨(PIN_Bytes_returns (ascii "0000") (by decide)).2.2.2,
    (PIN_Bytes_returns (ascii "-999") (by decide)).2.2.2⟩

theorem ParsePIN_error_zero (s : List Nat) (h : (ParsePIN s).2 ≠ none) :
    (ParsePIN s).1 = PIN.zero := by
  unfold ParsePIN at h ⊢
  by_cases hl : s.length > 255
  · simp only [hl, if_true]
  · simp only [hl, if_false] at h ⊢
    cases hv : bigSetString s with
    | none => rfl
    | some v => rw [hv] at h; exact absurd rfl h

/-- C32: `Bytes` is not defined on a PIN of length 0, whatever its value.  The string of
nines is empty, `SetString` gives no number for it, and `Bytes` panics.  The zero-value PIN,
which `ParsePIN` returns with every error, is such a PIN. -/
theorem PIN_Bytes_length_zero (p : PIN) (h : p.length = 0) :
    List.replicate p.length 57 = [] ∧
    bigSetString (List.replicate p.length 57) = none ∧
    p.Bytes = none ∧
    PIN.zero.length = 0 ∧
    ∀ s, (ParsePIN s).2 ≠ none → (ParsePIN s).1 = PIN.zero ∧ (ParsePIN s).1.Bytes = none := by
  have hz : bigSetString (List.replicate 0 57) = none := rfl
  refine ⟨by rw [h]; rfl, by rw [h]; exact hz, ?_, rfl, ?_⟩
  · unfold PIN.Bytes
    simp only
    rw [h, hz]
  · intro s hs
    refine ⟨ParsePIN_error_zero s hs, ?_⟩
    rw [ParsePIN_error_zero s hs]
    rfl

/-- C32, at the zero-value PIN, and at the PIN returned for the rejected string `12a`. -/
theorem PIN_Bytes_length_zero_witness :
    PIN.zero.Bytes = none ∧ (ParsePIN (ascii "12a")).1.Bytes = none :=
  ⟨(PIN_Bytes_length_zero PIN.zero rfl).2.2.1,
    ((PIN_Bytes_length_zero PIN.zero rfl).2.2.2.2 (ascii "12a") (by decide)).2⟩

/-- C33: `ParsePIN` on the empty string fails with the error `invalid PIN`, and every PIN
returned by a successful `ParsePIN(s)` has a length of at least 1 and at most 255, which is
the length of `s`. -/
theorem ParsePIN_length_bounds (s : List Nat) :
    ParsePIN [] = (PIN.zero, some "invalid PIN") ∧
    ((ParsePIN s).2 = none →
      1 ≤ (ParsePIN s).1.length ∧ (ParsePIN s).1.length ≤ 255 ∧
        (ParsePIN s).1.length = s.length) := by
  refine ⟨rfl, ?_⟩
  intro h
  obtain ⟨h1, h255, hlen, _⟩ := ParsePIN_value_bound s h
  rw [hlen]
  exact ⟨h1, h255, rfl⟩

/-- C33, at the string `1234`. -/
theorem ParsePIN_length_bounds_witness :
    1 ≤ (ParsePIN (ascii "1234")).1.length ∧ (ParsePIN (ascii "1234")).1.length ≤ 255 ∧
      (ParsePIN (ascii "1234")).1.length = (ascii "1234").length :=
  (ParsePIN_length_bounds (ascii "1234")).2 (by decide)

theorem Result_fail_fields {κ : Type} (c e : String) :
    (plainkey.Result.fail c e : plainkey.Result κ).protectedKey = none ∧
      (plainkey.Result.fail c e : plainkey.Result κ).primaryKeyOut = [] ∧
      (plainkey.Result.fail c e : plainkey.Result κ).unlockKey = [] ∧
      (plainkey.Result.fail c e : plainkey.Result κ).err = some (c ++ ": " ++ e) :=
  ⟨rfl, rfl, rfl, rfl⟩

/-- C34: whenever `plainkey.NewProtectedKey` returns an error, the returned key data,
primary key and unlock key are all nil, at whichever step the failure happens. -/
theorem NewProtectedKey_error_nil {κ : Type} (deps : plainkey.Deps κ)
    (rand protectorKey primaryKey : List Nat) (res : plainkey.Result κ)
    (h : plainkey.NewProtectedKey deps rand protectorKey primaryKey = some res)
    (he : res.err ≠ none) :
    res.protectedKey = none ∧ res.primaryKeyOut = [] ∧ res.unlockKey = [] := by
  rcases NewProtectedKey_cases deps rand protectorKey primaryKey res h with
    ⟨c, e, hf⟩ | ⟨_, _, _, _, _, _, _, _, _, _, _, _, _, _, _, hres⟩
  · rw [hf]
    exact ⟨rfl, rfl, rfl⟩
  · rw [hres] at he
    exact absurd rfl he

/-- C34, with the stand-in collaborators, a supplied primary key of 32 bytes and a `rand`
of 70 bytes: the unlock key is derived from the first 32 bytes, the read of 76 bytes then
fails, and nothing but the error is returned. -/
theorem NewProtectedKey_error_nil_witness :
    plainkey.NewProtectedKey plainkey.toyDeps (List.range 70) [1, 2, 3] (List.range 32) =
      some (plainkey.Result.fail "cannot obtain required random bytes" "unexpected EOF") ∧
    (plainkey.Result.fail "cannot obtain required random bytes" "unexpected EOF" :
        plainkey.Result plainkey.KeyParams).protectedKey = none ∧
    (plainkey.Result.fail "cannot obtain required random bytes" "unexpected EOF" :
        plainkey.Result plainkey.KeyParams).primaryKeyOut = [] ∧
    (plainkey.Result.fail "cannot obtain required random bytes" "unexpected EOF" :
        plainkey.Result plainkey.KeyParams).unlockKey = [] :=
  ⟨by rfl,
    NewProtectedKey_error_nil plainkey.toyDeps (List.range 70) [1, 2, 3] (List.range 32)
      (plainkey.Result.fail "cannot obtain required random bytes" "unexpected EOF") (by rfl)
      (by simp [plainkey.Result.fail])⟩

theorem segments_of_take (r : List Nat) (h : 76 ≤ r.length) :
    r.take 32 ++ ((r.take 44).drop 32 ++ (r.take 76).drop 44) = r.take 76 ∧
      (r.take 32).length = 32 ∧ ((r.take 44).drop 32).length = 12 ∧
      ((r.take 76).drop 44).length = 32 := by
  refine ⟨?_, ?_, ?_, ?_⟩
  · have e1 : r.take 32 = (r.take 76).take 32 := by rw [List.take_take]; rfl
    have e2 : (r.take 44).drop 32 = ((r.take 76).drop 32).take 12 := by
      rw [List.take_drop, List.take_take]
      rfl
    have e3 : (r.take 76).drop 44 = ((r.take 76).drop 32).drop 12 := by
      rw [List.drop_drop]
    rw [e1, e2, e3, List.take_append_drop, List.take_append_drop]
  · rw [List.length_take]; omega
  · rw [List.length_drop, List.length_take]; omega
  · rw [List.length_drop, List.length_take]; omega

/-- C35: for every successful `plainkey.NewProtectedKey`, the key data was made by
`secbootNewKeyData` from parameters whose handle has Version 1 and whose Salt, Nonce and
ProtectorKeyID.Salt, of 32, 12 and 32 bytes, are one after the other the first 76 bytes
of `rand` as `MakeDiskUnlockKey` left it; the parameters carry the platform name and the
KDF algorithm SHA256. -/
theorem NewProtectedKey_handle {κ : Type} (deps : plainkey.Deps κ)
    (rand protectorKey primaryKey : List Nat) (res : plainkey.Result κ) (kd : κ)
    (h : plainkey.NewProtectedKey deps rand protectorKey primaryKey = some res)
    (hkd : res.protectedKey = some kd) :
    ∃ params primaryKey1 rand1 payload rand2,
      plainkey.obtainPrimaryKey rand primaryKey = .ok (primaryKey1, rand1) ∧
      deps.MakeDiskUnlockKey rand1 SHA256 primaryKey1 = .ok (res.unlockKey, payload, rand2) ∧
      76 ≤ rand2.length ∧
      deps.secbootNewKeyData params = .ok kd ∧
      params.Handle.Version = 1 ∧
      params.Handle.Salt ++ (params.Handle.Nonce ++ params.Handle.ProtectorKeyID.Salt) =
        rand2.take 76 ∧
      params.Handle.Salt.length = 32 ∧
      params.Handle.Nonce.length = 12 ∧
      params.Handle.ProtectorKeyID.Salt.length = 32 ∧
      params.PlatformName = deps.platformName ∧
      params.KDFAlg = SHA256 := by
  rcases NewProtectedKey_cases deps rand protectorKey primaryKey res h with
    ⟨c, e, hf⟩ | ⟨primaryKey1, rand1, unlockKey, payload, rand2, aadBytes, key, kd1, hP, hM,
      h76, _, _, _, hN, hres⟩
  · rw [hf, (Result_fail_err c e).2] at hkd
    cases hkd
  · rw [hres] at hkd
    have hk : kd1 = kd := Option.some.inj hkd
    subst hk
    obtain ⟨s1, s2, s3, s4⟩ := segments_of_take rand2 h76
    refine ⟨_, primaryKey1, rand1, payload, rand2, hP, ?_, h76, hN, rfl, s1, s2, s3, s4,
      rfl, rfl⟩
    rw [hres]
    exact hM

/-- C35, with the stand-in collaborators, whose key data are their parameters, on a `rand`
of the bytes 0 to 139 and no primary key: the primary key takes the bytes 0 to 31, the
payload the bytes 32 to 63, and the handle the bytes 64 to 139. -/
theorem NewProtectedKey_handle_witness :
    ∃ res kd, plainkey.NewProtectedKey plainkey.toyDeps (List.range 140) [1, 2, 3] [] =
        some res ∧ res.protectedKey = some kd ∧
      ∃ params primaryKey1 rand1 payload rand2,
        plainkey.obtainPrimaryKey (List.range 140) [] = .ok (primaryKey1, rand1) ∧
        plainkey.toyDeps.MakeDiskUnlockKey rand1 SHA256 primaryKey1 =
          .ok (res.unlockKey, payload, rand2) ∧
        76 ≤ rand2.length ∧
        plainkey.toyDeps.secbootNewKeyData params = .ok kd ∧
        params.Handle.Version = 1 ∧
        params.Handle.Salt ++ (params.Handle.Nonce ++ params.Handle.ProtectorKeyID.Salt) =
          rand2.take 76 ∧
        params.Handle.Salt.length = 32 ∧
        params.Handle.Nonce.length = 12 ∧
        params.Handle.ProtectorKeyID.Salt.length = 32 ∧
        params.PlatformName = plainkey.toyDeps.platformName ∧
        params.KDFAlg = SHA256 := by
  have hs : ((plainkey.NewProtectedKey plainkey.toyDeps (List.range 140) [1, 2, 3] []).bind
      (fun r => r.protectedKey)).isSome = true := by
    set_option maxRecDepth 20000 in rfl
  obtain ⟨kd, hkd⟩ := Option.isSome_iff_exists.mp hs
  obtain ⟨res, hres, hp⟩ := Option.bind_eq_some.mp hkd
  exact ⟨res, kd, hres, hp,
    NewProtectedKey_handle plainkey.toyDeps (List.range 140) [1, 2, 3] [] res kd hres hp⟩

theorem NewProtectedKey_aadBytes_ok (g : Int) (hG : IsInt64 g) :
    ∃ aadBytes, additionalData.aadBytes
      { Version := 1, Generation := g, KDFAlg := SHA256, AuthMode := AuthMode.None.code } =
        .ok aadBytes := by
  unfold additionalData.aadBytes
  rw [additionalData_MarshalASN1_ok _ Builder.new rfl (show hashAlg.Supported SHA256 by decide)
    (show IsInt64 1 by decide) hG (show IsInt64 AuthMode.None.code by decide)]
  exact ⟨_, rfl⟩

theorem fail_context_ne (c1 c2 e1 e2 : String) (h : c1.data.take 8 ≠ c2.data.take 8)
    (h1 : 8 ≤ c1.data.length) (h2 : 8 ≤ c2.data.length) :
    c1 ++ ": " ++ e1 ≠ c2 ++ ": " ++ e2 := by
  intro he
  apply h
  have h3 := congrArg (fun s => s.data.take 8) he
  simp only [String.data_append, List.append_assoc] at h3
  rwa [List.take_append_of_le_length h1, List.take_append_of_le_length h2] at h3

theorem sealKeyData_context {κ : Type} (deps : plainkey.Deps κ)
    (hG : IsInt64 deps.KeyDataGeneration)
    (protectorKey primaryKey unlockKey payload randBytes : List Nat) (res : plainkey.Result κ)
    (h : plainkey.sealKeyData deps protectorKey primaryKey unlockKey payload randBytes =
      some res) :
    res.err = none ∨ ∃ c e, res = plainkey.Result.fail c e ∧
      (c = "cannot create cipher" ∨ c = "cannot create AEAD" ∨ c = "cannot create key data") := by
  obtain ⟨aadBytes, hA⟩ := NewProtectedKey_aadBytes_ok deps.KeyDataGeneration hG
  unfold plainkey.sealKeyData at h
  simp only [hA] at h
  split at h
  · cases h
  · split at h
    · exact Or.inr ⟨_, _, (Option.some.inj h).symm, Or.inl rfl⟩
    · split at h
      · exact Or.inr ⟨_, _, (Option.some.inj h).symm, Or.inr (Or.inl rfl)⟩
      · split at h
        · exact Or.inr ⟨_, _, (Option.some.inj h).symm, Or.inr (Or.inr rfl)⟩
        · left
          rw [← Option.some.inj h]

theorem NewProtectedKey_context {κ : Type} (deps : plainkey.Deps κ)
    (hG : IsInt64 deps.KeyDataGeneration)
    (rand protectorKey primaryKey : List Nat) (res : plainkey.Result κ)
    (h : plainkey.NewProtectedKey deps rand protectorKey primaryKey = some res) :
    res.err = none ∨ ∃ c e, res = plainkey.Result.fail c e ∧
      (c = "cannot obtain primary key" ∨ c = "cannot create new unlock key" ∨
        c = "cannot obtain required random bytes" ∨ c = "cannot create cipher" ∨
        c = "cannot create AEAD" ∨ c = "cannot create key data") := by
  unfold plainkey.NewProtectedKey at h
  split at h
  · exact Or.inr ⟨_, _, (Option.some.inj h).symm, Or.inl rfl⟩
  · split at h
    · exact Or.inr ⟨_, _, (Option.some.inj h).symm, Or.inr (Or.inl rfl)⟩
    · split at h
      · cases h
      · split at h
        · exact Or.inr ⟨_, _, (Option.some.inj h).symm, Or.inr (Or.inr (Or.inl rfl))⟩
        · rcases sealKeyData_context deps hG _ _ _ _ _ res h with h0 | ⟨c, e, hf, hc⟩
          · exact Or.inl h0
          · refine Or.inr ⟨c, e, hf, ?_⟩
            rcases hc with hc | hc | hc
            · exact Or.inr (Or.inr (Or.inr (Or.inl hc)))
            · exact Or.inr (Or.inr (Or.inr (Or.inr (Or.inl hc))))
            · exact Or.inr (Or.inr (Or.inr (Or.inr (Or.inr hc))))

/-- C36: in `plainkey.NewProtectedKey` the serialization of the AAD never fails.  For a
`KeyDataGeneration` in the range of a Go `int`, `builder.Bytes()` returns the bytes of the
AAD without error, the KDF algorithm being SHA256; and for every `rand`, protector key and
primary key no result of `NewProtectedKey` carries the error `cannot serialize AAD`. -/
theorem NewProtectedKey_aad_never_fails {κ : Type} (deps : plainkey.Deps κ)
    (hG : IsInt64 deps.KeyDataGeneration) :
    (∃ aadBytes, additionalData.aadBytes
      { Version := 1, Generation := deps.KeyDataGeneration, KDFAlg := SHA256,
        AuthMode := AuthMode.None.code } = .ok aadBytes) ∧
    ∀ rand protectorKey primaryKey res,
      plainkey.NewProtectedKey deps rand protectorKey primaryKey = some res →
      ∀ e, res.err ≠ some ("cannot serialize AAD" ++ ": " ++ e) := by
  refine ⟨NewProtectedKey_aadBytes_ok deps.KeyDataGeneration hG, ?_⟩
  intro rand protectorKey primaryKey res h e he
  rcases NewProtectedKey_context deps hG rand protectorKey primaryKey res h with
    h0 | ⟨c, e1, hf, hc⟩
  · rw [h0] at he
    cases he
  · rw [hf, (Result_fail_fields c e1).2.2.2] at he
    have he1 := Option.some.inj he
    rcases hc with hc | hc | hc | hc | hc | hc <;> subst hc <;>
      exact fail_context_ne _ _ e1 e (by decide) (by decide) (by decide) he1

/-- C36, with the stand-in collaborators, whose `KeyDataGeneration` is 1. -/
theorem NewProtectedKey_aad_never_fails_witness :
    ∃ aadBytes, additionalData.aadBytes
      { Version := 1, Generation := plainkey.toyDeps.KeyDataGeneration, KDFAlg := SHA256,
        AuthMode := AuthMode.None.code } = .ok aadBytes :=
  (NewProtectedKey_aad_never_fails plainkey.toyDeps (by decide)).1

/-- C37: the AAD that `plainkey.NewProtectedKey` binds into the ciphertext does not depend
on `rand`, the protector key or the primary key: it is the serialization of
`additionalData` with Version 1, Generation `KeyDataGeneration`, KDFAlg SHA256 and AuthMode
none.  For every key data produced, the encrypted payload is the sealing of the payload
with these bytes as additional data, the Version of the handle is the Version of the AAD,
and the KDFAlg of the key data parameters and the KDF algorithm given to
`MakeDiskUnlockKey` are the KDFAlg of the AAD. -/
theorem NewProtectedKey_aad_binding {κ : Type} (deps : plainkey.Deps κ)
    (rand protectorKey primaryKey : List Nat) (res : plainkey.Result κ) (kd : κ)
    (h : plainkey.NewProtectedKey deps rand protectorKey primaryKey = some res)
    (hkd : res.protectedKey = some kd) :
    ∃ aad : additionalData,
      aad = { Version := 1, Generation := deps.KeyDataGeneration, KDFAlg := SHA256,
              AuthMode := AuthMode.None.code } ∧
      ∃ aadBytes params primaryKey1 rand1 payload rand2 key,
        aad.aadBytes = .ok aadBytes ∧
        deps.MakeDiskUnlockKey rand1 aad.KDFAlg primaryKey1 =
          .ok (res.unlockKey, payload, rand2) ∧
        deps.secbootNewKeyData params = .ok kd ∧
        params.EncryptedPayload = deps.gcmSeal key params.Handle.Nonce payload aadBytes ∧
        params.Handle.Version = aad.Version ∧
        params.KDFAlg = aad.KDFAlg := by
  rcases NewProtectedKey_cases deps rand protectorKey primaryKey res h with
    ⟨c, e, hf⟩ | ⟨primaryKey1, rand1, unlockKey, payload, rand2, aadBytes, key, kd1, _, hM,
      _, hA, _, _, hN, hres⟩
  · rw [hf, (Result_fail_err c e).2] at hkd
    cases hkd
  · rw [hres] at hkd
    have hk : kd1 = kd := Option.some.inj hkd
    subst hk
    refine ⟨_, rfl, aadBytes, _, primaryKey1, rand1, payload, rand2, key, hA, ?_, hN, rfl,
      rfl, rfl⟩
    rw [hres]
    exact hM

/-- C37, with the stand-in collaborators on a `rand` of the bytes 0 to 139. -/
theorem NewProtectedKey_aad_binding_witness :
    ∃ res kd, plainkey.NewProtectedKey plainkey.toyDeps (List.range 140) [1, 2, 3] [] =
        some res ∧ res.protectedKey = some kd ∧
      ∃ aad : additionalData,
        aad = { Version := 1, Generation := plainkey.toyDeps.KeyDataGeneration,
                KDFAlg := SHA256, AuthMode := AuthMode.None.code } ∧
        ∃ aadBytes params primaryKey1 rand1 payload rand2 key,
          aad.aadBytes = .ok aadBytes ∧
          plainkey.toyDeps.MakeDiskUnlockKey rand1 aad.KDFAlg primaryKey1 =
            .ok (res.unlockKey, payload, rand2) ∧
          plainkey.toyDeps.secbootNewKeyData params = .ok kd ∧
          params.EncryptedPayload =
            plainkey.toyDeps.gcmSeal key params.Handle.Nonce payload aadBytes ∧
          params.Handle.Version = aad.Version ∧
          params.KDFAlg = aad.KDFAlg := by
  have hs : ((plainkey.NewProtectedKey plainkey.toyDeps (List.range 140) [1, 2, 3] []).bind
      (fun r => r.protectedKey)).isSome = true := by
    set_option maxRecDepth 20000 in rfl
  obtain ⟨kd, hkd⟩ := Option.isSome_iff_exists.mp hs
  obtain ⟨res, hres, hp⟩ := Option.bind_eq_some.mp hkd
  exact ⟨res, kd, hres, hp,
    NewProtectedKey_aad_binding plainkey.toyDeps (List.range 140) [1, 2, 3] [] res kd hres hp⟩

theorem deriveAESKey_length {κ : Type} (deps : plainkey.Deps κ) (ikm salt key : List Nat)
    (h : plainkey.deriveAESKey deps ikm salt = some key) : key.length = 32 := by
  unfold plainkey.deriveAESKey at h
  split at h
  · rename_i k rest hR
    obtain ⟨hlen, hp⟩ := ReadFull_ok _ _ _ hR
    have hk : key = k := (Option.some.inj h).symm
    rw [hk, (Prod.mk.inj hp).1, List.length_take]
    omega
  · cases h

/-- C38: every key data produced by `plainkey.NewProtectedKey` can be recovered from the
protector key and the stored fields.  With an AES-GCM whose opening undoes its sealing and
whose sealing adds 16 bytes, for the parameters from which the key data was made:
`deriveAESKey(protectorKey, Handle.Salt)` gives a key of 32 bytes, opening
`EncryptedPayload` with it under `Handle.Nonce` and the AAD of Version 1,
`KeyDataGeneration`, SHA256 and AuthMode none returns the payload that `MakeDiskUnlockKey`
produced, and `EncryptedPayload` is 16 bytes longer than that payload. -/
theorem NewProtectedKey_recoverable {κ : Type} (deps : plainkey.Deps κ)
    (gcmOpen : List Nat → List Nat → List Nat → List Nat → Option (List Nat))
    (hopen : ∀ key nonce plaintext aad,
      gcmOpen key nonce (deps.gcmSeal key nonce plaintext aad) aad = some plaintext)
    (hlen : ∀ key nonce plaintext aad,
      (deps.gcmSeal key nonce plaintext aad).length = plaintext.length + 16)
    (rand protectorKey primaryKey : List Nat) (res : plainkey.Result κ) (kd : κ)
    (h : plainkey.NewProtectedKey deps rand protectorKey primaryKey = some res)
    (hkd : res.protectedKey = some kd) :
    ∃ params primaryKey1 rand1 payload rand2 key aadBytes,
      deps.secbootNewKeyData params = .ok kd ∧
      deps.MakeDiskUnlockKey rand1 SHA256 primaryKey1 = .ok (res.unlockKey, payload, rand2) ∧
      additionalData.aadBytes
        { Version := 1, Generation := deps.KeyDataGeneration, KDFAlg := SHA256,
          AuthMode := AuthMode.None.code } = .ok aadBytes ∧
      plainkey.deriveAESKey deps protectorKey params.Handle.Salt = some key ∧
      key.length = 32 ∧
      plainkey.aesNewCipher key = .ok key ∧
      gcmOpen key params.Handle.Nonce params.EncryptedPayload aadBytes = some payload ∧
      params.EncryptedPayload.length = payload.length + 16 := by
  rcases NewProtectedKey_cases deps rand protectorKey primaryKey res h with
    ⟨c, e, hf⟩ | ⟨primaryKey1, rand1, unlockKey, payload, rand2, aadBytes, key, kd1, _, hM,
      _, hA, hK, hkl, hN, hres⟩
  · rw [hf, (Result_fail_err c e).2] at hkd
    cases hkd
  · rw [hres] at hkd
    have hk : kd1 = kd := Option.some.inj hkd
    subst hk
    refine ⟨_, primaryKey1, rand1, payload, rand2, key, aadBytes, hN, ?_, hA, hK,
      deriveAESKey_length deps _ _ _ hK, ?_, hopen _ _ _ _, hlen _ _ _ _⟩
    · rw [hres]
      exact hM
    · unfold plainkey.aesNewCipher
      rw [if_pos hkl]

theorem toyOpen_seal (key nonce plaintext aad : List Nat) :
    plainkey.toyOpen key nonce (plainkey.toyDeps.gcmSeal key nonce plaintext aad) aad =
      some plaintext := by
  have hl : (plaintext ++ List.replicate 16 0).length - 16 = plaintext.length := by
    rw [List.length_append, List.length_replicate]
    omega
  show plainkey.toyOpen key nonce (plaintext ++ List.replicate 16 0) aad = some plaintext
  unfold plainkey.toyOpen
  rw [hl, List.drop_left, List.take_left, if_pos]
  refine ⟨?_, rfl⟩
  rw [List.length_append, List.length_replicate]
  omega

theorem toySeal_length (key nonce plaintext aad : List Nat) :
    (plainkey.toyDeps.gcmSeal key nonce plaintext aad).length = plaintext.length + 16 := by
  show (plaintext ++ List.replicate 16 0).length = plaintext.length + 16
  rw [List.length_append, List.length_replicate]

/-- C38, with the stand-in collaborators and their opening, on a `rand` of the bytes 0 to
139. -/
theorem NewProtectedKey_recoverable_witness :
    ∃ res kd, plainkey.NewProtectedKey plainkey.toyDeps (List.range 140) [1, 2, 3] [] =
        some res ∧ res.protectedKey = some kd ∧
      ∃ params primaryKey1 rand1 payload rand2 key aadBytes,
        plainkey.toyDeps.secbootNewKeyData params = .ok kd ∧
        plainkey.toyDeps.MakeDiskUnlockKey rand1 SHA256 primaryKey1 =
          .ok (res.unlockKey, payload, rand2) ∧
        additionalData.aadBytes
          { Version := 1, Generation := plainkey.toyDeps.KeyDataGeneration, KDFAlg := SHA256,
            AuthMode := AuthMode.None.code } = .ok aadBytes ∧
        plainkey.deriveAESKey plainkey.toyDeps [1, 2, 3] params.Handle.Salt = some key ∧
        key.length = 32 ∧
        plainkey.aesNewCipher key = .ok key ∧
        plainkey.toyOpen key params.Handle.Nonce params.EncryptedPayload aadBytes =
          some payload ∧
        params.EncryptedPayload.length = payload.length + 16 := by
  have hs : ((plainkey.NewProtectedKey plainkey.toyDeps (List.range 140) [1, 2, 3] []).bind
      (fun r => r.protectedKey)).isSome = true := by
    set_option maxRecDepth 20000 in rfl
  obtain ⟨kd, hkd⟩ := Option.isSome_iff_exists.mp hs
  obtain ⟨res, hres, hp⟩ := Option.bind_eq_some.mp hkd
  exact ⟨res, kd, hres, hp,
    NewProtectedKey_recoverable plainkey.toyDeps plainkey.toyOpen toyOpen_seal toySeal_length
      (List.range 140) [1, 2, 3] [] res kd hres hp⟩

end Secboot
